import Mathlib

/-!
# CpuObcSoftcore: GBSA/OBC softcore reference kernel

Shallow embedding of `plugins/freeEnergy/platforms/reference/src/gbsa/CpuObcSoftcore.cpp`.

* `RealOpenMM` is a linearly ordered field `R` (the theorems about real arithmetic take `R = ℝ`).
* `std::vector<RealOpenMM>` is `List R`; `v[i]` is `v.getD i 0`, `v[i] = x` is `v.set i x`.
* `RealVec` is `Fin 3 → R`.
* Loops `for (i = a; i < n; i++)` are left folds over `loopIndices a n`; `continue` returns the
  loop state unchanged.
* The math macros (`SQRT`, `EXP`, `LN`, `TANH`, `POW`) and `ReferenceForce::getDeltaRPeriodic`
  are not part of the translated file; they are fields of `Externals`.
-/

namespace ObcSoftcore

/-- Three-component vector (`OpenMM::RealVec`). -/
abbrev RealVec (R : Type) := Fin 3 → R

/-- Vector of reals (`RealOpenMMVector`, a `std::vector<RealOpenMM>`). -/
abbrev RealOpenMMVector (R : Type) := List R

/-- The `deltaR` scratch array filled by `ReferenceForce::getDeltaR`, one field per index
(`XIndex`, `YIndex`, `ZIndex`, `R2Index`, `RIndex`). -/
structure DeltaR (R : Type) where
  x : R
  y : R
  z : R
  r2 : R
  r : R

/-- Functions the translated file calls but does not define: the math macros of
`SimTKOpenMMRealType.h` and the periodic displacement of `ReferenceForce`. -/
structure Externals (R : Type) where
  sqrt : R → R
  exp : R → R
  ln : R → R
  tanh : R → R
  pow : R → R → R
  getDeltaRPeriodic : RealVec R → RealVec R → RealVec R → DeltaR R

/-- The read accessors of `ObcSoftcoreParameters` used by the kernel. -/
structure ObcSoftcoreParameters (R : Type) where
  numberOfAtoms : Nat
  atomicRadii : RealOpenMMVector R
  scaledRadiusFactors : RealOpenMMVector R
  nonPolarScaleFactors : RealOpenMMVector R
  dielectricOffset : R
  alphaObc : R
  betaObc : R
  gammaObc : R
  soluteDielectric : R
  solventDielectric : R
  electricConstant : R
  probeRadius : R
  pi4Asolv : R
  useCutoff : Bool
  cutoffDistance : R
  periodic : Bool
  periodicBox : RealVec R

/-- The engine object: the parameters it points to, the ACE flag and the cached chain array. -/
structure CpuObcSoftcore (R : Type) where
  obcSoftcoreParameters : ObcSoftcoreParameters R
  includeAceApproximation : Int
  obcChain : RealOpenMMVector R

/-- The indices `a, a+1, ..., n-1` visited by `for (i = a; i < n; i++)`. -/
def loopIndices (a n : Nat) : List Nat := List.range' a (n - a)

section Kernel

variable {R : Type} [LinearOrderedField R]

/-- Modelled from the spec: `ReferenceForce::getDeltaR` is absent from the translated file; the
displacement is `b - a` componentwise, `r2` its dot product with itself, `r = SQRT(r2)`. -/
def getDeltaR (X : Externals R) (a b : RealVec R) : DeltaR R :=
  let dx := b 0 - a 0
  let dy := b 1 - a 1
  let dz := b 2 - a 2
  let r2 := dx * dx + dy * dy + dz * dz
  { x := dx, y := dy, z := dz, r2 := r2, r := X.sqrt r2 }

/-- The `if (getPeriodic()) getDeltaRPeriodic(...) else getDeltaR(...)` block that precedes every
pair computation (lines 181-184, 366-369, 448-451). -/
def pairDeltaR (X : Externals R) (P : ObcSoftcoreParameters R)
    (atomCoordinates : List (RealVec R)) (atomI atomJ : Nat) : DeltaR R :=
  if P.periodic = true then
    X.getDeltaRPeriodic (atomCoordinates.getD atomI 0) (atomCoordinates.getD atomJ 0) P.periodicBox
  else
    getDeltaR X (atomCoordinates.getD atomI 0) (atomCoordinates.getD atomJ 0)

/-- Statement `v[i] += x` on a `std::vector<RealOpenMM>`. -/
def addAt (v : List R) (i : Nat) (x : R) : List R :=
  v.set i (v.getD i 0 + x)

/-- Statement `f[i][c] += x` on a `std::vector<RealVec>`. -/
def addComp (f : List (RealVec R)) (i : Nat) (c : Fin 3) (x : R) : List (RealVec R) :=
  f.set i (Function.update (f.getD i 0) c (f.getD i 0 c + x))

/-- Body of the inner `atomJ` loop of `computeBornRadii` (lines 176-216): the new value of `sum`.
Division is the total division of the field (`x / 0 = 0`), so at `r = 0` the value differs from
the source, where `one/r` is a division by zero; `bornRadiiInnerChecked` is the same body with the
validity of every division and `LN` tracked. -/
def bornRadiiInner (X : Externals R) (P : ObcSoftcoreParameters R)
    (atomCoordinates : List (RealVec R)) (atomI : Nat) (offsetRadiusI radiusIInverse : R)
    (sum : R) (atomJ : Nat) : R :=
  if atomJ ≠ atomI then
    let deltaR := pairDeltaR X P atomCoordinates atomI atomJ
    let r := deltaR.r
    if P.useCutoff = true ∧ r > P.cutoffDistance then sum
    else
      let offsetRadiusJ := P.atomicRadii.getD atomJ 0 - P.dielectricOffset
      let scaledRadiusJ := offsetRadiusJ * P.scaledRadiusFactors.getD atomJ 0
      let rScaledRadiusJ := r + scaledRadiusJ
      if offsetRadiusI < rScaledRadiusJ then
        let rInverse := 1 / r
        let l_ij := if offsetRadiusI > |r - scaledRadiusJ| then offsetRadiusI
                    else |r - scaledRadiusJ|
        let l_ij := 1 / l_ij
        let u_ij := 1 / rScaledRadiusJ
        let l_ij2 := l_ij * l_ij
        let u_ij2 := u_ij * u_ij
        let ratio := X.ln (u_ij / l_ij)
        let term := l_ij - u_ij + (1 / 4) * r * (u_ij2 - l_ij2) + ((1 / 2) * rInverse * ratio)
                    + ((1 / 4) * scaledRadiusJ * scaledRadiusJ * rInverse) * (l_ij2 - u_ij2)
        let term := if offsetRadiusI < scaledRadiusJ - r then term + 2 * (radiusIInverse - l_ij)
                    else term
        sum + P.nonPolarScaleFactors.getD atomJ 0 * term
      else sum
  else sum

/-- Body of the outer `atomI` loop of `computeBornRadii` (lines 166-230) on the pair
`(bornRadii, obcChain)`. Division is the total division of the field (`x / 0 = 0`), so for
`radiusI = 0` or `offsetRadiusI = 0` the value differs from the source, where these are divisions
by zero; `bornRadiiOuterChecked` is the same body with the validity of every division tracked. -/
def bornRadiiOuter (X : Externals R) (P : ObcSoftcoreParameters R)
    (atomCoordinates : List (RealVec R)) (st : List R × List R) (atomI : Nat) : List R × List R :=
  let radiusI := P.atomicRadii.getD atomI 0
  let offsetRadiusI := radiusI - P.dielectricOffset
  let radiusIInverse := 1 / offsetRadiusI
  let sum := (loopIndices 0 P.numberOfAtoms).foldl
    (bornRadiiInner X P atomCoordinates atomI offsetRadiusI radiusIInverse) 0
  let sum := sum * (P.nonPolarScaleFactors.getD atomI 0 * (1 / 2) * offsetRadiusI)
  let sum2 := sum * sum
  let sum3 := sum * sum2
  let tanhSum := X.tanh (P.alphaObc * sum - P.betaObc * sum2 + P.gammaObc * sum3)
  let bornRadii := st.1.set atomI (1 / (1 / offsetRadiusI - tanhSum / radiusI))
  let obcChain := st.2.set atomI
    (offsetRadiusI * (P.alphaObc - 2 * P.betaObc * sum + 3 * P.gammaObc * sum2))
  let obcChain := obcChain.set atomI ((1 - tanhSum * tanhSum) * obcChain.getD atomI 0 / radiusI)
  (bornRadii, obcChain)

/-- `CpuObcSoftcore::computeBornRadii`: returns the written `bornRadii` and the engine with its
`obcChain` written. -/
def computeBornRadii (X : Externals R) (E : CpuObcSoftcore R)
    (atomCoordinates : List (RealVec R)) (bornRadii : List R) : List R × CpuObcSoftcore R :=
  let P := E.obcSoftcoreParameters
  let st := (loopIndices 0 P.numberOfAtoms).foldl
    (bornRadiiOuter X P atomCoordinates) (bornRadii, E.obcChain)
  (st.1, { E with obcChain := st.2 })

/-- Body of the loop of `computeAceNonPolarForce` (lines 279-287) on `(energy, forces)`. -/
def aceBody (X : Externals R) (P : ObcSoftcoreParameters R) (bornRadii : List R)
    (st : R × List R) (atomI : Nat) : R × List R :=
  if bornRadii.getD atomI 0 > 0 then
    let r := P.atomicRadii.getD atomI 0 + P.probeRadius
    let ratio6 := X.pow (P.atomicRadii.getD atomI 0 / bornRadii.getD atomI 0) 6
    let saTerm := P.nonPolarScaleFactors.getD atomI 0 * P.pi4Asolv * r * r * ratio6
    (st.1 + saTerm, addAt st.2 atomI (-6 * saTerm / bornRadii.getD atomI 0))
  else st

/-- `CpuObcSoftcore::computeAceNonPolarForce`: the new `*energy` and `forces`. -/
def computeAceNonPolarForce (X : Externals R) (P : ObcSoftcoreParameters R) (bornRadii : List R)
    (energy : R) (forces : List R) : R × List R :=
  (loopIndices 0 P.numberOfAtoms).foldl (aceBody X P bornRadii) (energy, forces)

/-- State of the first main loop: `obcEnergy`, `bornForces`, `inputForces`. -/
structure LoopState (R : Type) where
  obcEnergy : R
  bornForces : List R
  inputForces : List (RealVec R)

/-- Body of the inner `atomJ` loop of the first main loop (lines 363-415). -/
def firstLoopInner (X : Externals R) (P : ObcSoftcoreParameters R)
    (atomCoordinates : List (RealVec R)) (partialCharges bornRadii : List R)
    (atomI : Nat) (partialChargeI : R) (st : LoopState R) (atomJ : Nat) : LoopState R :=
  let deltaR := pairDeltaR X P atomCoordinates atomI atomJ
  if P.useCutoff = true ∧ deltaR.r > P.cutoffDistance then st
  else
    let r2 := deltaR.r2
    let deltaX := deltaR.x
    let deltaY := deltaR.y
    let deltaZ := deltaR.z
    let alpha2_ij := bornRadii.getD atomI 0 * bornRadii.getD atomJ 0
    let D_ij := r2 / (4 * alpha2_ij)
    let expTerm := X.exp (-D_ij)
    let denominator2 := r2 + alpha2_ij * expTerm
    let denominator := X.sqrt denominator2
    let Gpol := (partialChargeI * partialCharges.getD atomJ 0) / denominator
    let dGpol_dalpha2_ij := -(1 / 2) * Gpol * expTerm * (1 + D_ij) / denominator2
    let dGpol_dr := -Gpol * (1 - (1 / 4) * expTerm) / denominator2
    if atomI ≠ atomJ then
      let bornForces := addAt st.bornForces atomJ (dGpol_dalpha2_ij * bornRadii.getD atomI 0)
      let deltaX := deltaX * dGpol_dr
      let deltaY := deltaY * dGpol_dr
      let deltaZ := deltaZ * dGpol_dr
      let inputForces := addComp st.inputForces atomI 0 deltaX
      let inputForces := addComp inputForces atomI 1 deltaY
      let inputForces := addComp inputForces atomI 2 deltaZ
      let inputForces := addComp inputForces atomJ 0 (-deltaX)
      let inputForces := addComp inputForces atomJ 1 (-deltaY)
      let inputForces := addComp inputForces atomJ 2 (-deltaZ)
      { obcEnergy := st.obcEnergy + Gpol,
        bornForces := addAt bornForces atomI (dGpol_dalpha2_ij * bornRadii.getD atomJ 0),
        inputForces := inputForces }
    else
      let Gpol := Gpol * (1 / 2)
      { obcEnergy := st.obcEnergy + Gpol,
        bornForces := addAt st.bornForces atomI (dGpol_dalpha2_ij * bornRadii.getD atomJ 0),
        inputForces := st.inputForces }

/-- Body of the outer `atomI` loop of the first main loop (lines 360-416). -/
def firstLoopOuter (X : Externals R) (P : ObcSoftcoreParameters R)
    (atomCoordinates : List (RealVec R)) (partialCharges bornRadii : List R) (preFactor : R)
    (st : LoopState R) (atomI : Nat) : LoopState R :=
  let partialChargeI := preFactor * partialCharges.getD atomI 0
  (loopIndices atomI P.numberOfAtoms).foldl
    (firstLoopInner X P atomCoordinates partialCharges bornRadii atomI partialChargeI) st

/-- Body of the loop at lines 432-434: `bornForces[atomI] *= bornRadii[atomI]^2 * obcChain[atomI]`. -/
def scaleBornForces (bornRadii obcChain : List R) (bornForces : List R) (atomI : Nat) : List R :=
  bornForces.set atomI (bornForces.getD atomI 0
    * (bornRadii.getD atomI 0 * bornRadii.getD atomI 0 * obcChain.getD atomI 0))

/-- Body of the inner `atomJ` loop of the second main loop (lines 443-504) on `inputForces`. -/
def secondLoopInner (X : Externals R) (P : ObcSoftcoreParameters R)
    (atomCoordinates : List (RealVec R)) (bornForces : List R) (atomI : Nat) (offsetRadiusI : R)
    (inputForces : List (RealVec R)) (atomJ : Nat) : List (RealVec R) :=
  if atomJ ≠ atomI then
    let deltaR := pairDeltaR X P atomCoordinates atomI atomJ
    if P.useCutoff = true ∧ deltaR.r > P.cutoffDistance then inputForces
    else
      let deltaX := deltaR.x
      let deltaY := deltaR.y
      let deltaZ := deltaR.z
      let r := deltaR.r
      let offsetRadiusJ := P.atomicRadii.getD atomJ 0 - P.dielectricOffset
      let scaledRadiusJ := offsetRadiusJ * P.scaledRadiusFactors.getD atomJ 0
      let scaledRadiusJ2 := scaledRadiusJ * scaledRadiusJ
      let rScaledRadiusJ := r + scaledRadiusJ
      if offsetRadiusI < rScaledRadiusJ then
        let l_ij := if offsetRadiusI > |r - scaledRadiusJ| then offsetRadiusI
                    else |r - scaledRadiusJ|
        let l_ij := 1 / l_ij
        let u_ij := 1 / rScaledRadiusJ
        let l_ij2 := l_ij * l_ij
        let u_ij2 := u_ij * u_ij
        let rInverse := 1 / r
        let r2Inverse := rInverse * rInverse
        let t3 := (1 / 8) * (1 + scaledRadiusJ2 * r2Inverse) * (l_ij2 - u_ij2)
                  + (1 / 4) * X.ln (u_ij / l_ij) * r2Inverse
        let t3 := t3 * (P.nonPolarScaleFactors.getD atomI 0 * P.nonPolarScaleFactors.getD atomJ 0)
        let de := bornForces.getD atomI 0 * t3 * rInverse
        let deltaX := deltaX * de
        let deltaY := deltaY * de
        let deltaZ := deltaZ * de
        let inputForces := addComp inputForces atomI 0 (-deltaX)
        let inputForces := addComp inputForces atomI 1 (-deltaY)
        let inputForces := addComp inputForces atomI 2 (-deltaZ)
        let inputForces := addComp inputForces atomJ 0 deltaX
        let inputForces := addComp inputForces atomJ 1 deltaY
        let inputForces := addComp inputForces atomJ 2 deltaZ
        inputForces
      else inputForces
  else inputForces

/-- Body of the outer `atomI` loop of the second main loop (lines 436-505). -/
def secondLoopOuter (X : Externals R) (P : ObcSoftcoreParameters R)
    (atomCoordinates : List (RealVec R)) (bornForces : List R)
    (inputForces : List (RealVec R)) (atomI : Nat) : List (RealVec R) :=
  let radiusI := P.atomicRadii.getD atomI 0
  let offsetRadiusI := radiusI - P.dielectricOffset
  (loopIndices 0 P.numberOfAtoms).foldl
    (secondLoopInner X P atomCoordinates bornForces atomI offsetRadiusI) inputForces

/-- Result of `computeBornEnergyForces`: the returned energy, the updated `inputForces`, the engine
afterwards, and (for reference) the local `bornRadii` array it computed. -/
structure EnergyForces (R : Type) where
  energy : R
  inputForces : List (RealVec R)
  engine : CpuObcSoftcore R
  bornRadii : List R

/-- `CpuObcSoftcore::computeBornEnergyForces` (lines 302-509). -/
def computeBornEnergyForces (X : Externals R) (E : CpuObcSoftcore R)
    (atomCoordinates : List (RealVec R)) (partialCharges : List R)
    (inputForces : List (RealVec R)) : EnergyForces R :=
  let P := E.obcSoftcoreParameters
  let numberOfAtoms := P.numberOfAtoms
  let preFactor := 2 * P.electricConstant * ((1 / P.soluteDielectric) - (1 / P.solventDielectric))
  let br := computeBornRadii X E atomCoordinates (List.replicate numberOfAtoms 0)
  let bornRadii := br.1
  let E1 := br.2
  let obcEnergy : R := 0
  let bornForces : List R := (loopIndices 0 numberOfAtoms).foldl
    (fun bf ii => bf.set ii 0) (List.replicate numberOfAtoms 0)
  let ace := if E1.includeAceApproximation ≠ 0 then
      computeAceNonPolarForce X P bornRadii obcEnergy bornForces
    else (obcEnergy, bornForces)
  let st1 := (loopIndices 0 numberOfAtoms).foldl
    (firstLoopOuter X P atomCoordinates partialCharges bornRadii preFactor)
    { obcEnergy := ace.1, bornForces := ace.2, inputForces := inputForces }
  let obcChain := E1.obcChain
  let bornForces := (loopIndices 0 numberOfAtoms).foldl
    (scaleBornForces bornRadii obcChain) st1.bornForces
  let inputForces := (loopIndices 0 numberOfAtoms).foldl
    (secondLoopOuter X P atomCoordinates bornForces) st1.inputForces
  { energy := st1.obcEnergy, inputForces := inputForces, engine := E1, bornRadii := bornRadii }

end Kernel


section SpecSide

variable {R : Type} [LinearOrderedField R]

/-- `offsetRadius_i = radius_i - dielectricOffset`. -/
def offsetRadius (P : ObcSoftcoreParameters R) (i : Nat) : R :=
  P.atomicRadii.getD i 0 - P.dielectricOffset

/-- `scaledRadius_j = (radius_j - dielectricOffset) * scaledRadiusFactor_j`. -/
def scaledRadius (P : ObcSoftcoreParameters R) (j : Nat) : R :=
  (P.atomicRadii.getD j 0 - P.dielectricOffset) * P.scaledRadiusFactors.getD j 0

/-- Distance `r` between atoms `i` and `j` as the pair computation sees it (`deltaR[RIndex]`). -/
def pairDist (X : Externals R) (P : ObcSoftcoreParameters R) (atomCoordinates : List (RealVec R))
    (i j : Nat) : R :=
  (pairDeltaR X P atomCoordinates i j).r

/-- The pair is skipped by the cutoff: the cutoff is enabled and `r` exceeds the cutoff distance. -/
def cutoffSkips (P : ObcSoftcoreParameters R) (r : R) : Prop :=
  P.useCutoff = true ∧ r > P.cutoffDistance

instance (P : ObcSoftcoreParameters R) (r : R) : Decidable (cutoffSkips P r) :=
  inferInstanceAs (Decidable (P.useCutoff = true ∧ r > P.cutoffDistance))

/-- The pair term of the Born-radius sum as the specification words it: zero unless
`offsetRadius_i < r + scaledRadius_j`, else the closed form, plus the burial correction exactly
when `offsetRadius_i < scaledRadius_j - r`. -/
def specTerm (X : Externals R) (offI sJ r : R) : R :=
  if offI < r + sJ then
    let l := 1 / max offI |r - sJ|
    let u := 1 / (r + sJ)
    l - u + r * (u ^ 2 - l ^ 2) / 4 + X.ln (u / l) / (2 * r) + sJ ^ 2 * (l ^ 2 - u ^ 2) / (4 * r)
      + (if offI < sJ - r then 2 * (1 / offI - l) else 0)
  else 0

/-- The scaled sum `s` of atom `i` as the specification words it. -/
def specScaledSum (X : Externals R) (P : ObcSoftcoreParameters R)
    (atomCoordinates : List (RealVec R)) (i : Nat) : R :=
  P.nonPolarScaleFactors.getD i 0 * (offsetRadius P i / 2)
    * ∑ j ∈ (Finset.range P.numberOfAtoms).filter
          (fun j => j ≠ i ∧ ¬ cutoffSkips P (pairDist X P atomCoordinates i j)),
        P.nonPolarScaleFactors.getD j 0
          * specTerm X (offsetRadius P i) (scaledRadius P j) (pairDist X P atomCoordinates i j)

/-- The value `t = tanh(alpha*s - beta*s^2 + gamma*s^3)` of atom `i`. -/
def specTanh (X : Externals R) (P : ObcSoftcoreParameters R)
    (atomCoordinates : List (RealVec R)) (i : Nat) : R :=
  X.tanh (P.alphaObc * specScaledSum X P atomCoordinates i
    - P.betaObc * specScaledSum X P atomCoordinates i ^ 2
    + P.gammaObc * specScaledSum X P atomCoordinates i ^ 3)

/-- The Born radius of atom `i` as the specification words it. -/
def specBornRadius (X : Externals R) (P : ObcSoftcoreParameters R)
    (atomCoordinates : List (RealVec R)) (i : Nat) : R :=
  1 / (1 / offsetRadius P i - specTanh X P atomCoordinates i / P.atomicRadii.getD i 0)

/-- The chain value of atom `i` as the specification words it. -/
def specObcChain (X : Externals R) (P : ObcSoftcoreParameters R)
    (atomCoordinates : List (RealVec R)) (i : Nat) : R :=
  (1 - specTanh X P atomCoordinates i ^ 2) * offsetRadius P i
    * (P.alphaObc - 2 * P.betaObc * specScaledSum X P atomCoordinates i
        + 3 * P.gammaObc * specScaledSum X P atomCoordinates i ^ 2)
    / P.atomicRadii.getD i 0

/-- `preFactor = 2*electricConstant*(1/soluteDielectric - 1/solventDielectric)`. -/
def preFactor (P : ObcSoftcoreParameters R) : R :=
  2 * P.electricConstant * (1 / P.soluteDielectric - 1 / P.solventDielectric)

/-- The nonpolar term of one atom with Born radius `B`:
`nonPolarScale_i*surfaceAreaFactor*(radius_i+probeRadius)^2*(radius_i/B)^6`. -/
def specAceTerm (P : ObcSoftcoreParameters R) (i : Nat) (B : R) : R :=
  P.nonPolarScaleFactors.getD i 0 * P.pi4Asolv * (P.atomicRadii.getD i 0 + P.probeRadius) ^ 2
    * (P.atomicRadii.getD i 0 / B) ^ 6

/-- The sum `A` of the energy formula for Born radii `B`. -/
def specA (E : CpuObcSoftcore R) (B : Nat → R) : R :=
  if E.includeAceApproximation ≠ 0 then
    ∑ i ∈ (Finset.range E.obcSoftcoreParameters.numberOfAtoms).filter (fun i => B i > 0),
      specAceTerm E.obcSoftcoreParameters i (B i)
  else 0

/-- The sum `S` of the energy formula for Born radii `B`. -/
def specS (X : Externals R) (P : ObcSoftcoreParameters R) (partialCharges : List R)
    (B : Nat → R) : R :=
  ∑ i ∈ Finset.range P.numberOfAtoms,
    (1 / 2) * preFactor P * partialCharges.getD i 0 ^ 2 / X.sqrt (B i ^ 2)

/-- The sum `P` of the energy formula for Born radii `B`: pairs `i < j` not skipped by the cutoff. -/
def specP (X : Externals R) (P : ObcSoftcoreParameters R) (atomCoordinates : List (RealVec R))
    (partialCharges : List R) (B : Nat → R) : R :=
  ∑ i ∈ Finset.range P.numberOfAtoms,
    ∑ j ∈ (Finset.range P.numberOfAtoms).filter
        (fun j => i < j ∧ ¬ cutoffSkips P (pairDist X P atomCoordinates i j)),
      preFactor P * partialCharges.getD i 0 * partialCharges.getD j 0
        / X.sqrt (pairDist X P atomCoordinates i j ^ 2
            + B i * B j * X.exp (-(pairDist X P atomCoordinates i j ^ 2) / (4 * (B i * B j))))

/-- The energy formula `A + S + P`, with `B` the Born-radius array `computeBornRadii` produces on
the same positions. -/
def specEnergy (X : Externals R) (E : CpuObcSoftcore R) (atomCoordinates : List (RealVec R))
    (partialCharges : List R) : R :=
  specA E (fun i => (computeBornRadii X E atomCoordinates
      (List.replicate E.obcSoftcoreParameters.numberOfAtoms 0)).1.getD i 0)
  + specS X E.obcSoftcoreParameters partialCharges (fun i => (computeBornRadii X E atomCoordinates
      (List.replicate E.obcSoftcoreParameters.numberOfAtoms 0)).1.getD i 0)
  + specP X E.obcSoftcoreParameters atomCoordinates partialCharges
      (fun i => (computeBornRadii X E atomCoordinates
        (List.replicate E.obcSoftcoreParameters.numberOfAtoms 0)).1.getD i 0)

/-- What the energy formula needs of the external periodic displacement: its `r2` is the square
of its `r`, and an atom is at distance zero from itself. -/
def PeriodicConsistent (X : Externals R) : Prop :=
  ∀ a b box, (X.getDeltaRPeriodic a b box).r2 = (X.getDeltaRPeriodic a b box).r ^ 2
    ∧ (X.getDeltaRPeriodic a a box).r = 0

/-- A vector of `n` zero force vectors. -/
def zeroForces (n : Nat) : List (RealVec R) := List.replicate n 0

/-- All positions shifted by the constant vector `v`. -/
def translate (v : RealVec R) (atomCoordinates : List (RealVec R)) : List (RealVec R) :=
  atomCoordinates.map (fun a => a + v)

end SpecSide

section ClosedForms

variable {R : Type} [LinearOrderedField R]

/-- Component `c` of the displacement (`deltaR[XIndex]`, `deltaR[YIndex]`, `deltaR[ZIndex]`). -/
def DeltaR.comp (d : DeltaR R) (c : Fin 3) : R := ![d.x, d.y, d.z] c

/-- The value `saTerm` of `computeAceNonPolarForce` for atom `i`. -/
def saTerm (X : Externals R) (P : ObcSoftcoreParameters R) (bornRadii : List R) (i : Nat) : R :=
  P.nonPolarScaleFactors.getD i 0 * P.pi4Asolv * (P.atomicRadii.getD i 0 + P.probeRadius)
    * (P.atomicRadii.getD i 0 + P.probeRadius)
    * X.pow (P.atomicRadii.getD i 0 / bornRadii.getD i 0) 6

/-- The value `Gpol` of the first main loop as a function of the charge product `C`, `r2` and
`alpha2_ij = a`. -/
def gpolFn (X : Externals R) (C r2 a : R) : R :=
  C / X.sqrt (r2 + a * X.exp (-(r2 / (4 * a))))

/-- The value `dGpol_dalpha2_ij` of the first main loop. -/
def dGdaFn (X : Externals R) (C r2 a : R) : R :=
  -(1 / 2) * gpolFn X C r2 a * X.exp (-(r2 / (4 * a))) * (1 + r2 / (4 * a))
    / (r2 + a * X.exp (-(r2 / (4 * a))))

/-- The value `dGpol_dr` of the first main loop. -/
def dGdrFn (X : Externals R) (C r2 a : R) : R :=
  -gpolFn X C r2 a * (1 - (1 / 4) * X.exp (-(r2 / (4 * a)))) / (r2 + a * X.exp (-(r2 / (4 * a))))

/-- The product `partialChargeI * partialCharges[atomJ]`. -/
def pairCharge (P : ObcSoftcoreParameters R) (q : List R) (i j : Nat) : R :=
  preFactor P * q.getD i 0 * q.getD j 0

/-- Squared distance of the pair as the first main loop reads it (`deltaR[R2Index]`). -/
def pairR2 (X : Externals R) (P : ObcSoftcoreParameters R) (coords : List (RealVec R))
    (i j : Nat) : R :=
  (pairDeltaR X P coords i j).r2

/-- What one pass `(i, j)` of the first main loop adds to `obcEnergy`. -/
def energyInc (X : Externals R) (P : ObcSoftcoreParameters R) (coords : List (RealVec R))
    (q B : List R) (i j : Nat) : R :=
  if cutoffSkips P (pairDist X P coords i j) then 0
  else if i ≠ j then
    gpolFn X (pairCharge P q i j) (pairR2 X P coords i j) (B.getD i 0 * B.getD j 0)
  else gpolFn X (pairCharge P q i j) (pairR2 X P coords i j) (B.getD i 0 * B.getD j 0) * (1 / 2)

/-- What one pass `(i, j)` of the first main loop adds to `bornForces[k]`. -/
def bornForceInc (X : Externals R) (P : ObcSoftcoreParameters R) (coords : List (RealVec R))
    (q B : List R) (i j k : Nat) : R :=
  if cutoffSkips P (pairDist X P coords i j) then 0
  else
    (if i ≠ j ∧ k = j then
        dGdaFn X (pairCharge P q i j) (pairR2 X P coords i j) (B.getD i 0 * B.getD j 0)
          * B.getD i 0
      else 0)
    + (if k = i then
        dGdaFn X (pairCharge P q i j) (pairR2 X P coords i j) (B.getD i 0 * B.getD j 0)
          * B.getD j 0
      else 0)

/-- What one pass `(i, j)` of the first main loop adds to `inputForces[k][c]`. -/
def directForceInc (X : Externals R) (P : ObcSoftcoreParameters R) (coords : List (RealVec R))
    (q B : List R) (i j k : Nat) (c : Fin 3) : R :=
  if cutoffSkips P (pairDist X P coords i j) then 0
  else if i ≠ j then
    (if k = i then
        (pairDeltaR X P coords i j).comp c
          * dGdrFn X (pairCharge P q i j) (pairR2 X P coords i j) (B.getD i 0 * B.getD j 0)
      else 0)
    - (if k = j then
        (pairDeltaR X P coords i j).comp c
          * dGdrFn X (pairCharge P q i j) (pairR2 X P coords i j) (B.getD i 0 * B.getD j 0)
      else 0)
  else 0

/-- The value `l_ij` of the pair computations:
`1 / (offsetRadiusI > |r - scaledRadiusJ| ? offsetRadiusI : |r - scaledRadiusJ|)`. -/
def lFn (offI sJ r : R) : R :=
  1 / (if offI > |r - sJ| then offI else |r - sJ|)

/-- The value `t3` of the second main loop before it is multiplied by the two nonpolar scale
factors. -/
def t3Fn (X : Externals R) (offI sJ r : R) : R :=
  (1 / 8) * (1 + sJ * sJ * (1 / r * (1 / r)))
      * (lFn offI sJ r * lFn offI sJ r - 1 / (r + sJ) * (1 / (r + sJ)))
    + (1 / 4) * X.ln (1 / (r + sJ) / lFn offI sJ r) * (1 / r * (1 / r))

/-- The value `de` of pass `(i, j)` of the second main loop for the Born-force array `bf`. -/
def chainDe (X : Externals R) (P : ObcSoftcoreParameters R) (coords : List (RealVec R))
    (bf : List R) (i j : Nat) : R :=
  bf.getD i 0
    * (t3Fn X (offsetRadius P i) (scaledRadius P j) (pairDist X P coords i j)
        * (P.nonPolarScaleFactors.getD i 0 * P.nonPolarScaleFactors.getD j 0))
    * (1 / pairDist X P coords i j)

/-- What one pass `(i, j)` of the second main loop adds to `inputForces[k][c]`. -/
def chainForceInc (X : Externals R) (P : ObcSoftcoreParameters R) (coords : List (RealVec R))
    (bf : List R) (i j k : Nat) (c : Fin 3) : R :=
  if j ≠ i ∧ ¬ cutoffSkips P (pairDist X P coords i j)
      ∧ offsetRadius P i < pairDist X P coords i j + scaledRadius P j then
    (if k = j then (pairDeltaR X P coords i j).comp c * chainDe X P coords bf i j else 0)
    - (if k = i then (pairDeltaR X P coords i j).comp c * chainDe X P coords bf i j else 0)
  else 0

/-- The six statements that add the vector `(dx, dy, dz)` to `f[i]` and subtract it from `f[j]`. -/
def pairUpdate (f : List (RealVec R)) (i j : Nat) (dx dy dz : R) : List (RealVec R) :=
  addComp (addComp (addComp (addComp (addComp (addComp f i 0 dx) i 1 dy) i 2 dz)
    j 0 (-dx)) j 1 (-dy)) j 2 (-dz)

/-- Invariant of the first main loop: the two arrays keep their lengths. -/
def FirstLoopInv (nb nf : Nat) (s : LoopState R) : Prop :=
  s.bornForces.length = nb ∧ s.inputForces.length = nf

/-- The first main loop as a whole, started in state `st`. -/
def firstLoop (X : Externals R) (P : ObcSoftcoreParameters R) (coords : List (RealVec R))
    (q B : List R) (st : LoopState R) : LoopState R :=
  (loopIndices 0 P.numberOfAtoms).foldl (firstLoopOuter X P coords q B (preFactor P)) st

/-- The second main loop as a whole (lines 436-505), started with force array `f`. -/
def secondLoop (X : Externals R) (P : ObcSoftcoreParameters R) (coords : List (RealVec R))
    (bf : List R) (f : List (RealVec R)) : List (RealVec R) :=
  (loopIndices 0 P.numberOfAtoms).foldl (secondLoopOuter X P coords bf) f

/-- The local array `bornRadii` of `computeBornEnergyForces` after line 337. -/
def bornRadiiOf (X : Externals R) (E : CpuObcSoftcore R) (coords : List (RealVec R)) : List R :=
  (computeBornRadii X E coords (List.replicate E.obcSoftcoreParameters.numberOfAtoms 0)).1

/-- The engine after line 337 of `computeBornEnergyForces`. -/
def engineAfter (X : Externals R) (E : CpuObcSoftcore R) (coords : List (RealVec R)) :
    CpuObcSoftcore R :=
  (computeBornRadii X E coords (List.replicate E.obcSoftcoreParameters.numberOfAtoms 0)).2

/-- The local array `bornForces` after the zeroing loop of lines 340-343. -/
def zeroBornForces (n : Nat) : List R :=
  (loopIndices 0 n).foldl (fun bf ii => bf.set ii 0) (List.replicate n 0)

/-- The pair `(obcEnergy, bornForces)` after the nonpolar block of lines 350-352. -/
def aceResult (X : Externals R) (E : CpuObcSoftcore R) (coords : List (RealVec R)) :
    R × List R :=
  if (engineAfter X E coords).includeAceApproximation ≠ 0 then
    computeAceNonPolarForce X E.obcSoftcoreParameters (bornRadiiOf X E coords) 0
      (zeroBornForces E.obcSoftcoreParameters.numberOfAtoms)
  else (0, zeroBornForces E.obcSoftcoreParameters.numberOfAtoms)

/-- The loop state after the first main loop of `computeBornEnergyForces`. -/
def stateAfterFirstLoop (X : Externals R) (E : CpuObcSoftcore R) (coords : List (RealVec R))
    (q : List R) (f0 : List (RealVec R)) : LoopState R :=
  firstLoop X E.obcSoftcoreParameters coords q (bornRadiiOf X E coords)
    { obcEnergy := (aceResult X E coords).1, bornForces := (aceResult X E coords).2,
      inputForces := f0 }

/-- The array `bornForces` after the scaling loop of lines 432-434. -/
def scaledBornForces (X : Externals R) (E : CpuObcSoftcore R) (coords : List (RealVec R))
    (q : List R) (f0 : List (RealVec R)) : List R :=
  (loopIndices 0 E.obcSoftcoreParameters.numberOfAtoms).foldl
    (scaleBornForces (bornRadiiOf X E coords) (engineAfter X E coords).obcChain)
    (stateAfterFirstLoop X E coords q f0).bornForces

/-- Closed form of `bornForces[k]` before the scaling loop: the nonpolar contribution plus what
the first main loop adds. -/
def rawBornForce (X : Externals R) (E : CpuObcSoftcore R) (coords : List (RealVec R))
    (q : List R) (k : Nat) : R :=
  (if E.includeAceApproximation ≠ 0 ∧ (bornRadiiOf X E coords).getD k 0 > 0 then
      -6 * saTerm X E.obcSoftcoreParameters (bornRadiiOf X E coords) k
        / (bornRadiiOf X E coords).getD k 0
    else 0)
  + ∑ i ∈ Finset.range E.obcSoftcoreParameters.numberOfAtoms,
      ∑ j ∈ Finset.Ico i E.obcSoftcoreParameters.numberOfAtoms,
        bornForceInc X E.obcSoftcoreParameters coords q (bornRadiiOf X E coords) i j k

/-- Closed form of `bornForces[k]` after the scaling loop, as a list over the atoms. -/
def scaledBornForceList (X : Externals R) (E : CpuObcSoftcore R) (coords : List (RealVec R))
    (q : List R) : List R :=
  (List.range E.obcSoftcoreParameters.numberOfAtoms).map (fun k =>
    rawBornForce X E coords q k
      * ((bornRadiiOf X E coords).getD k 0 * (bornRadiiOf X E coords).getD k 0
          * (engineAfter X E coords).obcChain.getD k 0))

/-- Closed form of the nonpolar energy that enters the first main loop. -/
def aceEnergy (X : Externals R) (E : CpuObcSoftcore R) (coords : List (RealVec R)) : R :=
  if E.includeAceApproximation ≠ 0 then
    ∑ i ∈ Finset.range E.obcSoftcoreParameters.numberOfAtoms,
      if (bornRadiiOf X E coords).getD i 0 > 0 then
        saTerm X E.obcSoftcoreParameters (bornRadiiOf X E coords) i
      else 0
  else 0

/-- Closed form of the increment `computeBornEnergyForces` applies to `inputForces[k][c]`. -/
def forceIncrement (X : Externals R) (E : CpuObcSoftcore R) (coords : List (RealVec R))
    (q : List R) (k : Nat) (c : Fin 3) : R :=
  (∑ i ∈ Finset.range E.obcSoftcoreParameters.numberOfAtoms,
      ∑ j ∈ Finset.Ico i E.obcSoftcoreParameters.numberOfAtoms,
        directForceInc X E.obcSoftcoreParameters coords q (bornRadiiOf X E coords) i j k c)
  + ∑ i ∈ Finset.range E.obcSoftcoreParameters.numberOfAtoms,
      ∑ j ∈ Finset.range E.obcSoftcoreParameters.numberOfAtoms,
        chainForceInc X E.obcSoftcoreParameters coords (scaledBornForceList X E coords q) i j k c

/-- Closed form of the energy `computeBornEnergyForces` returns. -/
def energyClosed (X : Externals R) (E : CpuObcSoftcore R) (coords : List (RealVec R))
    (q : List R) : R :=
  aceEnergy X E coords
  + ∑ i ∈ Finset.range E.obcSoftcoreParameters.numberOfAtoms,
      ∑ j ∈ Finset.Ico i E.obcSoftcoreParameters.numberOfAtoms,
        energyInc X E.obcSoftcoreParameters coords q (bornRadiiOf X E coords) i j

end ClosedForms

section Gradient

variable {R : Type} [LinearOrderedField R]

/-- The positions with coordinate `c` of atom `k` replaced by `t`. -/
def pathCoords (x : List (RealVec R)) (k : Nat) (c : Fin 3) (t : R) : List (RealVec R) :=
  x.set k (Function.update (x.getD k 0) c t)

/-- The configuration is away from the singular points of the kernel: distinct atoms are at
positive distance and no ordered pair lies on a branch threshold of the Born-radius term. -/
def OffThreshold (X : Externals R) (P : ObcSoftcoreParameters R) (x : List (RealVec R)) : Prop :=
  ∀ i j, i < P.numberOfAtoms → j < P.numberOfAtoms → i ≠ j →
    0 < pairDist X P x i j
      ∧ offsetRadius P i ≠ pairDist X P x i j + scaledRadius P j
      ∧ offsetRadius P i ≠ |pairDist X P x i j - scaledRadius P j|

/-- Every atom has `radius_i > dielectricOffset ≥ 0`. -/
def ValidRadii (P : ObcSoftcoreParameters R) : Prop :=
  0 ≤ P.dielectricOffset ∧ ∀ i, i < P.numberOfAtoms → P.dielectricOffset < P.atomicRadii.getD i 0

/-- Partial derivative of `r2` of the pair `(i, j)` with respect to coordinate `c` of atom `k`. -/
def r2Deriv (X : Externals R) (P : ObcSoftcoreParameters R) (x : List (RealVec R))
    (i j k : Nat) (c : Fin 3) : R :=
  ((if j = k then 1 else 0) - (if i = k then 1 else 0)) * (pairDeltaR X P x i j).comp c * 2

/-- Partial derivative of the distance `r_ij` with respect to coordinate `c` of atom `k`. -/
def distDeriv (X : Externals R) (P : ObcSoftcoreParameters R) (x : List (RealVec R))
    (i j k : Nat) (c : Fin 3) : R :=
  ((if j = k then 1 else 0) - (if i = k then 1 else 0)) * (pairDeltaR X P x i j).comp c
    / pairDist X P x i j

/-- Partial derivative of the scaled sum `s` of atom `i` with respect to coordinate `c` of atom
`k`, when no pair is skipped by the cutoff. -/
def scaledSumDeriv (X : Externals R) (P : ObcSoftcoreParameters R) (x : List (RealVec R))
    (i k : Nat) (c : Fin 3) : R :=
  P.nonPolarScaleFactors.getD i 0 * (offsetRadius P i / 2)
    * ∑ j ∈ Finset.range P.numberOfAtoms,
        if j ≠ i then
          P.nonPolarScaleFactors.getD j 0
            * ((if offsetRadius P i < pairDist X P x i j + scaledRadius P j then
                  -2 * t3Fn X (offsetRadius P i) (scaledRadius P j) (pairDist X P x i j)
                else 0)
              * distDeriv X P x i j k c)
        else 0

/-- Partial derivative of the Born radius of atom `i` with respect to coordinate `c` of atom
`k`. -/
def bornRadiusDeriv (X : Externals R) (P : ObcSoftcoreParameters R) (x : List (RealVec R))
    (i k : Nat) (c : Fin 3) : R :=
  specBornRadius X P x i ^ 2 * specObcChain X P x i / offsetRadius P i
    * scaledSumDeriv X P x i k c

/-- The value `saTerm` of atom `i` as a function of its Born radius `b`. -/
def saTermOf (X : Externals R) (P : ObcSoftcoreParameters R) (i : Nat) (b : R) : R :=
  P.nonPolarScaleFactors.getD i 0 * P.pi4Asolv * (P.atomicRadii.getD i 0 + P.probeRadius)
    * (P.atomicRadii.getD i 0 + P.probeRadius) * X.pow (P.atomicRadii.getD i 0 / b) 6

/-- Partial derivative of the pair energy `Gpol_ij` with respect to coordinate `c` of atom `k`:
the direct part through `r2` and the part through the two Born radii. -/
def pairEnergyDeriv (X : Externals R) (P : ObcSoftcoreParameters R) (x : List (RealVec R))
    (q : List R) (i j k : Nat) (c : Fin 3) : R :=
  dGdrFn X (pairCharge P q i j) (pairR2 X P x i j)
      (specBornRadius X P x i * specBornRadius X P x j)
    * (r2Deriv X P x i j k c / 2)
  + dGdaFn X (pairCharge P q i j) (pairR2 X P x i j)
      (specBornRadius X P x i * specBornRadius X P x j)
    * (bornRadiusDeriv X P x i k c * specBornRadius X P x j
        + specBornRadius X P x i * bornRadiusDeriv X P x j k c)

/-- Partial derivative of the returned energy with respect to coordinate `c` of atom `k`, when no
pair is skipped by the cutoff and all Born radii are positive. -/
def energyDeriv (X : Externals R) (E : CpuObcSoftcore R) (x : List (RealVec R)) (q : List R)
    (k : Nat) (c : Fin 3) : R :=
  (if E.includeAceApproximation ≠ 0 then
      ∑ i ∈ Finset.range E.obcSoftcoreParameters.numberOfAtoms,
        -6 * saTermOf X E.obcSoftcoreParameters i (specBornRadius X E.obcSoftcoreParameters x i)
          / specBornRadius X E.obcSoftcoreParameters x i
          * bornRadiusDeriv X E.obcSoftcoreParameters x i k c
    else 0)
  + ∑ i ∈ Finset.range E.obcSoftcoreParameters.numberOfAtoms,
      ∑ j ∈ Finset.Ico i E.obcSoftcoreParameters.numberOfAtoms,
        if i ≠ j then pairEnergyDeriv X E.obcSoftcoreParameters x q i j k c
        else pairEnergyDeriv X E.obcSoftcoreParameters x q i j k c * (1 / 2)

end Gradient

section Samples

variable (R : Type) [LinearOrderedField R]

/-- The two-atom scenario of the specification: radius 0.15, scale factor 0.8, dielectric offset
0.009, `alpha = 1`, `beta = 0.8`, `gamma = 4.85`, probe radius 0.14, no cutoff, no periodicity. -/
def sampleParameters : ObcSoftcoreParameters R :=
  { numberOfAtoms := 2
    atomicRadii := [15 / 100, 15 / 100]
    scaledRadiusFactors := [8 / 10, 8 / 10]
    nonPolarScaleFactors := [1, 1]
    dielectricOffset := 9 / 1000
    alphaObc := 1
    betaObc := 8 / 10
    gammaObc := 485 / 100
    soluteDielectric := 1
    solventDielectric := 785 / 10
    electricConstant := -(1 / 2)
    probeRadius := 14 / 100
    pi4Asolv := 1
    useCutoff := false
    cutoffDistance := 1
    periodic := false
    periodicBox := 0 }

/-- An engine as the constructor leaves it for `sampleParameters`. -/
def sampleEngine : CpuObcSoftcore R :=
  { obcSoftcoreParameters := sampleParameters R
    includeAceApproximation := 1
    obcChain := [0, 0] }

/-- Two atoms separated by 0.3 along the first axis. -/
def sampleCoordinates : List (RealVec R) := [![0, 0, 0], ![3 / 10, 0, 0]]

/-- Two opposite unit charges. -/
def sampleCharges : List R := [1, -1]

/-- The same two atoms with the cutoff enabled at distance 0.1, below their separation. -/
def sampleCutoffEngine : CpuObcSoftcore R :=
  { sampleEngine R with
    obcSoftcoreParameters :=
      { sampleParameters R with useCutoff := true, cutoffDistance := 1 / 10 } }

/-- One atom of radius 1 and unit charge scale, with the cutoff enabled at the negative distance
`-1` and the nonpolar term switched off; `preFactor` is 1. -/
def negativeCutoffEngine : CpuObcSoftcore R :=
  { obcSoftcoreParameters :=
      { numberOfAtoms := 1
        atomicRadii := [1]
        scaledRadiusFactors := [1]
        nonPolarScaleFactors := [1]
        dielectricOffset := 0
        alphaObc := 1
        betaObc := 0
        gammaObc := 0
        soluteDielectric := 1
        solventDielectric := 2
        electricConstant := 1
        probeRadius := 0
        pi4Asolv := 0
        useCutoff := true
        cutoffDistance := -1
        periodic := false
        periodicBox := 0 }
    includeAceApproximation := 0
    obcChain := [0] }

end Samples

/-- The external math functions are the real ones. -/
def IsRealMath (X : Externals ℝ) : Prop :=
  X.sqrt = Real.sqrt ∧ X.exp = Real.exp ∧ X.ln = Real.log ∧ X.tanh = Real.tanh
    ∧ X.pow = fun x y => x ^ y

end ObcSoftcore

namespace ObcSoftcore

section DerivativeSide

variable {R : Type} [LinearOrderedField R]

/-- The bracket of the second-loop factor as the specification words it:
`(1 + scaledRadius_j^2/r^2)*(l_ij^2 - u_ij^2)/8 + ln(u_ij/l_ij)/(4*r^2)` with
`l_ij = 1/max(offsetRadius_i, |r - scaledRadius_j|)` and `u_ij = 1/(r + scaledRadius_j)`. -/
def specT3 (X : Externals R) (offI sJ r : R) : R :=
  (1 + sJ ^ 2 / r ^ 2) * ((1 / max offI |r - sJ|) ^ 2 - (1 / (r + sJ)) ^ 2) / 8
    + X.ln (1 / (r + sJ) / (1 / max offI |r - sJ|)) / (4 * r ^ 2)

/-- The Born radius that lines 221-225 of `computeBornRadii` compute from the scaled sum `s`. -/
def obcBornRadius (X : Externals R) (off rad al be ga s : R) : R :=
  1 / (1 / off - X.tanh (al * s - be * (s * s) + ga * (s * (s * s))) / rad)

/-- The chain value that lines 221-228 of `computeBornRadii` compute from the scaled sum `s`. -/
def obcChainValue (X : Externals R) (off rad al be ga s : R) : R :=
  (1 - X.tanh (al * s - be * (s * s) + ga * (s * (s * s)))
        * X.tanh (al * s - be * (s * s) + ga * (s * (s * s))))
    * (off * (al - 2 * be * s + 3 * ga * (s * s))) / rad

end DerivativeSide

section MoreSamples

variable (R : Type) [LinearOrderedField R]

/-- The parameters of a system without atoms (the other values as in `sampleParameters`). -/
def emptyParameters : ObcSoftcoreParameters R :=
  { sampleParameters R with
    numberOfAtoms := 0
    atomicRadii := []
    scaledRadiusFactors := []
    nonPolarScaleFactors := [] }

/-- Parameters for three atoms (the other values as in `sampleParameters`). -/
def threeAtomParameters : ObcSoftcoreParameters R :=
  { sampleParameters R with
    numberOfAtoms := 3
    atomicRadii := [15 / 100, 15 / 100, 15 / 100]
    scaledRadiusFactors := [8 / 10, 8 / 10, 8 / 10]
    nonPolarScaleFactors := [1, 1, 1] }

/-- A small atom (radius 0.1) and a large one (radius 1, scale factor 1): at separations below
`0.9` the small atom lies inside the scaled sphere of the large one. -/
def buriedParameters : ObcSoftcoreParameters R :=
  { sampleParameters R with
    atomicRadii := [1 / 10, 1]
    scaledRadiusFactors := [1, 1] }

/-- An engine as the constructor leaves it for `buriedParameters`. -/
def buriedEngine : CpuObcSoftcore R :=
  { obcSoftcoreParameters := buriedParameters R
    includeAceApproximation := 1
    obcChain := [0, 0] }

/-- Both atoms at the origin: zero separation. -/
def coincidentCoordinates : List (RealVec R) := [![0, 0, 0], ![0, 0, 0]]

end MoreSamples

section Exchange

variable {R : Type} [LinearOrderedField R]

/-- The two entries of a two-atom array exchanged. -/
def swapTwo {α : Type} [Zero α] (l : List α) : List α := [l.getD 1 0, l.getD 0 0]

/-- The parameters of a two-atom system with the two atoms exchanged (radii and both kinds of
scale factor). -/
def swapParameters (P : ObcSoftcoreParameters R) : ObcSoftcoreParameters R :=
  { P with
    atomicRadii := swapTwo P.atomicRadii
    scaledRadiusFactors := swapTwo P.scaledRadiusFactors
    nonPolarScaleFactors := swapTwo P.nonPolarScaleFactors }

/-- The engine holding the exchanged parameters. -/
def swapEngine (E : CpuObcSoftcore R) : CpuObcSoftcore R :=
  { E with obcSoftcoreParameters := swapParameters E.obcSoftcoreParameters }

end Exchange

section Engine

variable {R : Type} [LinearOrderedField R]

/-- `CpuObcSoftcore::CpuObcSoftcore` (lines 47-51): stores the parameters, sets the ACE flag to 1
and resizes the (empty) chain array to the atom count. -/
def construct (P : ObcSoftcoreParameters R) : CpuObcSoftcore R :=
  { obcSoftcoreParameters := P
    includeAceApproximation := 1
    obcChain := List.replicate P.numberOfAtoms 0 }

/-- `CpuObcSoftcore::setObcSoftcoreParameters` (lines 82-84): replaces the parameters only. -/
def setObcSoftcoreParameters (E : CpuObcSoftcore R) (P : ObcSoftcoreParameters R) :
    CpuObcSoftcore R :=
  { E with obcSoftcoreParameters := P }

/-- `CpuObcSoftcore::setIncludeAceApproximation` (lines 119-121). -/
def setIncludeAceApproximation (E : CpuObcSoftcore R) (v : Int) : CpuObcSoftcore R :=
  { E with includeAceApproximation := v }

/-- `CpuObcSoftcore::getObcChain` (lines 95-97). -/
def getObcChain (E : CpuObcSoftcore R) : RealOpenMMVector R := E.obcChain

/-- One call on the engine. -/
inductive Call (R : Type) where
  | setParameters (P : ObcSoftcoreParameters R)
  | setAce (v : Int)
  | bornRadii (coords : List (RealVec R)) (bornRadii : List R)
  | energyForces (coords : List (RealVec R)) (charges : List R) (forces : List (RealVec R))

/-- The engine after one call. -/
def step (X : Externals R) (E : CpuObcSoftcore R) : Call R → CpuObcSoftcore R
  | Call.setParameters P => setObcSoftcoreParameters E P
  | Call.setAce v => setIncludeAceApproximation E v
  | Call.bornRadii coords b => (computeBornRadii X E coords b).2
  | Call.energyForces coords q f => (computeBornEnergyForces X E coords q f).engine

/-- The engine after a sequence of calls on a freshly constructed engine. -/
def run (X : Externals R) (P : ObcSoftcoreParameters R) (calls : List (Call R)) :
    CpuObcSoftcore R :=
  calls.foldl (step X) (construct P)

end Engine

end ObcSoftcore

namespace ObcSoftcore

section Checked

variable {R : Type} [LinearOrderedField R]

/-- A division `a/b` of the source that records a zero divisor: no value when `b = 0`. -/
def checkedDiv (a b : R) : Option R :=
  if b = 0 then none else some (a / b)

/-- A call `LN(a)` of the source that records an argument outside the domain of the logarithm:
no value unless `0 < a`. -/
def checkedLn (X : Externals R) (a : R) : Option R :=
  if 0 < a then some (X.ln a) else none

/-- Body of the inner `atomJ` loop of `computeBornRadii` (lines 176-216) with every division and
every `LN` checked: the new value of `sum`, or no value when one of them has an invalid
argument. -/
def bornRadiiInnerChecked (X : Externals R) (P : ObcSoftcoreParameters R)
    (atomCoordinates : List (RealVec R)) (atomI : Nat) (offsetRadiusI radiusIInverse : R)
    (sum : R) (atomJ : Nat) : Option R :=
  if atomJ ≠ atomI then
    let deltaR := pairDeltaR X P atomCoordinates atomI atomJ
    let r := deltaR.r
    if P.useCutoff = true ∧ r > P.cutoffDistance then some sum
    else
      let offsetRadiusJ := P.atomicRadii.getD atomJ 0 - P.dielectricOffset
      let scaledRadiusJ := offsetRadiusJ * P.scaledRadiusFactors.getD atomJ 0
      let rScaledRadiusJ := r + scaledRadiusJ
      if offsetRadiusI < rScaledRadiusJ then
        (checkedDiv 1 r).bind fun rInverse =>
        let l_ij := if offsetRadiusI > |r - scaledRadiusJ| then offsetRadiusI
                    else |r - scaledRadiusJ|
        (checkedDiv 1 l_ij).bind fun l_ij =>
        (checkedDiv 1 rScaledRadiusJ).bind fun u_ij =>
        let l_ij2 := l_ij * l_ij
        let u_ij2 := u_ij * u_ij
        (checkedDiv u_ij l_ij).bind fun quotient =>
        (checkedLn X quotient).bind fun ratio =>
        let term := l_ij - u_ij + (1 / 4) * r * (u_ij2 - l_ij2) + ((1 / 2) * rInverse * ratio)
                    + ((1 / 4) * scaledRadiusJ * scaledRadiusJ * rInverse) * (l_ij2 - u_ij2)
        let term := if offsetRadiusI < scaledRadiusJ - r then term + 2 * (radiusIInverse - l_ij)
                    else term
        some (sum + P.nonPolarScaleFactors.getD atomJ 0 * term)
      else some sum
  else some sum

/-- Body of the outer `atomI` loop of `computeBornRadii` (lines 166-230) on the pair
`(bornRadii, obcChain)` with every division and every `LN` checked. -/
def bornRadiiOuterChecked (X : Externals R) (P : ObcSoftcoreParameters R)
    (atomCoordinates : List (RealVec R)) (st : List R × List R) (atomI : Nat) :
    Option (List R × List R) :=
  let radiusI := P.atomicRadii.getD atomI 0
  let offsetRadiusI := radiusI - P.dielectricOffset
  (checkedDiv 1 offsetRadiusI).bind fun radiusIInverse =>
  ((loopIndices 0 P.numberOfAtoms).foldlM
    (bornRadiiInnerChecked X P atomCoordinates atomI offsetRadiusI radiusIInverse) 0).bind
  fun sum =>
  let sum := sum * (P.nonPolarScaleFactors.getD atomI 0 * (1 / 2) * offsetRadiusI)
  let sum2 := sum * sum
  let sum3 := sum * sum2
  let tanhSum := X.tanh (P.alphaObc * sum - P.betaObc * sum2 + P.gammaObc * sum3)
  (checkedDiv 1 offsetRadiusI).bind fun offsetInverse =>
  (checkedDiv tanhSum radiusI).bind fun tanhOverRadius =>
  (checkedDiv 1 (offsetInverse - tanhOverRadius)).bind fun bornRadius =>
  let bornRadii := st.1.set atomI bornRadius
  let obcChain := st.2.set atomI
    (offsetRadiusI * (P.alphaObc - 2 * P.betaObc * sum + 3 * P.gammaObc * sum2))
  (checkedDiv ((1 - tanhSum * tanhSum) * obcChain.getD atomI 0) radiusI).bind fun chain =>
  some (bornRadii, obcChain.set atomI chain)

/-- `CpuObcSoftcore::computeBornRadii` with every division and every `LN` checked: the written
`bornRadii` and the engine with its `obcChain` written, or no value when some division or
logarithm that the call evaluates has an invalid argument. -/
def computeBornRadiiChecked (X : Externals R) (E : CpuObcSoftcore R)
    (atomCoordinates : List (RealVec R)) (bornRadii : List R) :
    Option (List R × CpuObcSoftcore R) :=
  let P := E.obcSoftcoreParameters
  ((loopIndices 0 P.numberOfAtoms).foldlM
    (bornRadiiOuterChecked X P atomCoordinates) (bornRadii, E.obcChain)).map
  fun st => (st.1, { E with obcChain := st.2 })

end Checked

end ObcSoftcore

namespace ObcSoftcore

section PairTerm

variable {R : Type} [LinearOrderedField R]

/-- The value `term` that lines 194-204 of `computeBornRadii` compute inside the branch
`offsetRadiusI < rScaledRadiusJ`, before the complete-burial correction, as a function of
`offsetRadiusI`, `scaledRadiusJ` and `r`. -/
def pairTerm (X : Externals R) (offsetRadiusI scaledRadiusJ r : R) : R :=
  let rScaledRadiusJ := r + scaledRadiusJ
  let rInverse := 1 / r
  let l_ij := if offsetRadiusI > |r - scaledRadiusJ| then offsetRadiusI
              else |r - scaledRadiusJ|
  let l_ij := 1 / l_ij
  let u_ij := 1 / rScaledRadiusJ
  let l_ij2 := l_ij * l_ij
  let u_ij2 := u_ij * u_ij
  let ratio := X.ln (u_ij / l_ij)
  l_ij - u_ij + (1 / 4) * r * (u_ij2 - l_ij2) + ((1 / 2) * rInverse * ratio)
    + ((1 / 4) * scaledRadiusJ * scaledRadiusJ * rInverse) * (l_ij2 - u_ij2)

/-- The amount `two*( radiusIInverse - l_ij)` that line 210 of `computeBornRadii` adds to `term`
when `offsetRadiusI < scaledRadiusJ - r`, with `radiusIInverse = one/offsetRadiusI`. -/
def burialCorrection (offsetRadiusI scaledRadiusJ r : R) : R :=
  let radiusIInverse := 1 / offsetRadiusI
  let l_ij := if offsetRadiusI > |r - scaledRadiusJ| then offsetRadiusI
              else |r - scaledRadiusJ|
  let l_ij := 1 / l_ij
  2 * (radiusIInverse - l_ij)

end PairTerm

end ObcSoftcore

namespace ObcSoftcore

section DegenerateSamples

variable (R : Type) [LinearOrderedField R]

/-- The parameters of a single atom of radius zero (the other values as in `sampleParameters`):
its offset radius is `-0.009`, not zero. -/
def zeroRadiusParameters : ObcSoftcoreParameters R :=
  { sampleParameters R with
    numberOfAtoms := 1
    atomicRadii := [0]
    scaledRadiusFactors := [8 / 10]
    nonPolarScaleFactors := [1] }

/-- An engine as the constructor leaves it for `zeroRadiusParameters`. -/
def zeroRadiusEngine : CpuObcSoftcore R :=
  { obcSoftcoreParameters := zeroRadiusParameters R
    includeAceApproximation := 1
    obcChain := [0] }

/-- The single atom at the origin. -/
def originCoordinates : List (RealVec R) := [![0, 0, 0]]

/-- Two atoms of radius 0.15 as in `sampleParameters`, with scale factor 2: the scaled radius
`0.282` of each exceeds the offset radius `0.141` of the other. -/
def overlapParameters : ObcSoftcoreParameters R :=
  { sampleParameters R with
    scaledRadiusFactors := [2, 2] }

/-- An engine as the constructor leaves it for `overlapParameters`. -/
def overlapEngine : CpuObcSoftcore R :=
  { obcSoftcoreParameters := overlapParameters R
    includeAceApproximation := 1
    obcChain := [0, 0] }

end DegenerateSamples

end ObcSoftcore

namespace ObcSoftcore

section ListLemmas

variable {R : Type} [LinearOrderedField R]

theorem getD_set_eq {α : Type} (l : List α) (i k : Nat) (v d : α) :
    (l.set i v).getD k d = if k = i ∧ k < l.length then v else l.getD k d := by
  by_cases hk : k = i
  · subst hk
    by_cases hl : k < l.length
    · simp [List.getD_eq_getElem?_getD, hl]
    · have h1 : (l.set k v)[k]? = none := List.getElem?_eq_none (by simp; omega)
      have h2 : l[k]? = none := List.getElem?_eq_none (by omega)
      simp [List.getD_eq_getElem?_getD, hl, h1, h2]
  · have : ¬ i = k := fun h => hk h.symm
    simp [List.getD_eq_getElem?_getD, hk, List.getElem?_set_ne this]

theorem getD_addAt (v : List R) (i k : Nat) (x : R) (hk : k < v.length) :
    (addAt v i x).getD k 0 = v.getD k 0 + if k = i then x else 0 := by
  unfold addAt
  rw [getD_set_eq]
  by_cases h : k = i
  · subst h; simp [hk]
  · simp [h]

theorem length_addAt (v : List R) (i : Nat) (x : R) : (addAt v i x).length = v.length := by
  simp [addAt]

theorem getD_addComp (f : List (RealVec R)) (i k : Nat) (c c' : Fin 3) (x : R)
    (hk : k < f.length) :
    (addComp f i c x).getD k 0 c' = f.getD k 0 c' + if k = i ∧ c' = c then x else 0 := by
  unfold addComp
  rw [getD_set_eq]
  by_cases h : k = i
  · subst h
    by_cases hc : c' = c
    · subst hc; simp [hk]
    · simp [hk, hc, Function.update_noteq hc]
  · simp [h]

theorem length_addComp (f : List (RealVec R)) (i : Nat) (c : Fin 3) (x : R) :
    (addComp f i c x).length = f.length := by
  simp [addComp]

/-- A loop whose body adds a state-independent increment to an observed quantity adds the sum of
the increments. -/
theorem foldl_accumulate {S ι : Type} (Inv : S → Prop) (get : S → R) (step : S → ι → S)
    (inc : ι → R) (hinv : ∀ s a, Inv s → Inv (step s a))
    (hstep : ∀ s a, Inv s → get (step s a) = get s + inc a) (l : List ι) (s : S) (hs : Inv s) :
    Inv (l.foldl step s) ∧ get (l.foldl step s) = get s + (l.map inc).sum := by
  induction l generalizing s with
  | nil => simp [hs]
  | cons a l ih =>
    obtain ⟨h1, h2⟩ := ih (step s a) (hinv s a hs)
    refine ⟨h1, ?_⟩
    simp only [List.foldl_cons, List.map_cons, List.sum_cons]
    rw [h2, hstep s a hs]; ring

/-- A loop whose body preserves an invariant preserves it. -/
theorem foldl_invariant {S ι : Type} (Inv : S → Prop) (step : S → ι → S)
    (hinv : ∀ s a, Inv s → Inv (step s a)) (l : List ι) (s : S) (hs : Inv s) :
    Inv (l.foldl step s) := by
  induction l generalizing s with
  | nil => simpa using hs
  | cons a l ih => exact ih (step s a) (hinv s a hs)

theorem sum_map_loopIndices {M : Type} [AddCommMonoid M] (f : Nat → M) (a n : Nat) :
    ((loopIndices a n).map f).sum = ∑ i ∈ Finset.Ico a n, f i := by
  unfold loopIndices
  by_cases h : a ≤ n
  · obtain ⟨m, rfl⟩ := Nat.exists_eq_add_of_le h
    simp only [Nat.add_sub_cancel_left]
    induction m with
    | zero => simp
    | succ m ih =>
      have ih' := ih (Nat.le_add_right a m)
      rw [List.range'_1_concat, List.map_append, List.sum_append, ih']
      rw [← Nat.add_assoc, Finset.sum_Ico_succ_top (Nat.le_add_right a m)]
      simp
  · have h' : n ≤ a := Nat.le_of_not_le h
    simp [Nat.sub_eq_zero_of_le h', Finset.Ico_eq_empty_of_le h']

theorem sum_map_loopIndices_zero {M : Type} [AddCommMonoid M] (f : Nat → M) (n : Nat) :
    ((loopIndices 0 n).map f).sum = ∑ i ∈ Finset.range n, f i := by
  rw [sum_map_loopIndices, Finset.range_eq_Ico]

theorem mem_loopIndices (a n i : Nat) : i ∈ loopIndices a n ↔ a ≤ i ∧ i < n := by
  unfold loopIndices
  rw [List.mem_range'_1]
  omega

end ListLemmas

end ObcSoftcore

namespace ObcSoftcore

section BornRadiiClosedForm

variable {R : Type} [LinearOrderedField R]

theorem foldl_set_getD {α : Type} (f : Nat → α) (l : List Nat) (init : List α) (k : Nat) (d : α) :
    ((l.foldl (fun acc i => acc.set i (f i)) init).getD k d
      = if k ∈ l ∧ k < init.length then f k else init.getD k d)
    ∧ (l.foldl (fun acc i => acc.set i (f i)) init).length = init.length := by
  induction l generalizing init with
  | nil => simp
  | cons a l ih =>
    obtain ⟨h1, h2⟩ := ih (init.set a (f a))
    simp only [List.foldl_cons]
    refine ⟨?_, by rw [h2]; simp⟩
    rw [h1, getD_set_eq]
    simp only [List.length_set, List.mem_cons]
    by_cases hkl : k ∈ l
    · by_cases hlen : k < init.length
      · simp [hkl, hlen]
      · simp [hkl, hlen]
    · by_cases hka : k = a
      · subst hka
        by_cases hlen : k < init.length
        · simp [hkl, hlen]
        · simp [hkl, hlen]
      · simp [hkl, hka]

/-- One pass of the inner loop of `computeBornRadii` adds the specification pair term. -/
theorem bornRadiiInner_eq (X : Externals R) (P : ObcSoftcoreParameters R)
    (coords : List (RealVec R)) (i : Nat) (s : R) (j : Nat) :
    bornRadiiInner X P coords i (offsetRadius P i) (1 / offsetRadius P i) s j
      = s + if j ≠ i ∧ ¬ cutoffSkips P (pairDist X P coords i j) then
          P.nonPolarScaleFactors.getD j 0
            * specTerm X (offsetRadius P i) (scaledRadius P j) (pairDist X P coords i j)
        else 0 := by
  unfold bornRadiiInner specTerm cutoffSkips pairDist scaledRadius offsetRadius
  by_cases hji : j = i
  · simp [hji]
  · simp only [ne_eq, hji, not_false_eq_true, if_true, true_and]
    by_cases hcut : P.useCutoff = true ∧ (pairDeltaR X P coords i j).r > P.cutoffDistance
    · simp [hcut]
    · simp only [hcut, if_false, not_false_eq_true, if_true]
      by_cases hov : P.atomicRadii.getD i 0 - P.dielectricOffset
          < (pairDeltaR X P coords i j).r
            + (P.atomicRadii.getD j 0 - P.dielectricOffset) * P.scaledRadiusFactors.getD j 0
      · simp only [hov, if_true]
        have hmax : (if P.atomicRadii.getD i 0 - P.dielectricOffset
              > |(pairDeltaR X P coords i j).r
                  - (P.atomicRadii.getD j 0 - P.dielectricOffset) * P.scaledRadiusFactors.getD j 0|
            then P.atomicRadii.getD i 0 - P.dielectricOffset
            else |(pairDeltaR X P coords i j).r
                  - (P.atomicRadii.getD j 0 - P.dielectricOffset) * P.scaledRadiusFactors.getD j 0|)
            = max (P.atomicRadii.getD i 0 - P.dielectricOffset)
                |(pairDeltaR X P coords i j).r
                  - (P.atomicRadii.getD j 0 - P.dielectricOffset)
                    * P.scaledRadiusFactors.getD j 0| := by
          rw [max_def]
          split_ifs with h1 h2 h2
          · exact absurd h2 (not_le.mpr h1)
          · rfl
          · rfl
          · exact absurd (le_of_not_gt h1) h2
        rw [hmax]
        congr 1
        split_ifs with hb
        · ring
        · ring
      · simp only [hov, if_false, add_zero, mul_zero]

theorem bornRadiiInner_fold (X : Externals R) (P : ObcSoftcoreParameters R)
    (coords : List (RealVec R)) (i : Nat) :
    (loopIndices 0 P.numberOfAtoms).foldl
        (bornRadiiInner X P coords i (offsetRadius P i) (1 / offsetRadius P i)) 0
        * (P.nonPolarScaleFactors.getD i 0 * (1 / 2) * offsetRadius P i)
      = specScaledSum X P coords i := by
  have h := (foldl_accumulate (fun _ : R => True) (fun s => s)
    (bornRadiiInner X P coords i (offsetRadius P i) (1 / offsetRadius P i))
    (fun j => if j ≠ i ∧ ¬ cutoffSkips P (pairDist X P coords i j) then
          P.nonPolarScaleFactors.getD j 0
            * specTerm X (offsetRadius P i) (scaledRadius P j) (pairDist X P coords i j)
        else 0)
    (fun _ _ _ => trivial) (fun s a _ => bornRadiiInner_eq X P coords i s a)
    (loopIndices 0 P.numberOfAtoms) 0 trivial).2
  rw [h, sum_map_loopIndices_zero, specScaledSum, Finset.sum_filter]
  ring

/-- One pass of the outer loop of `computeBornRadii` writes the specification values. -/
theorem bornRadiiOuter_eq (X : Externals R) (P : ObcSoftcoreParameters R)
    (coords : List (RealVec R)) (st : List R × List R) (i : Nat) :
    bornRadiiOuter X P coords st i
      = (st.1.set i (specBornRadius X P coords i), st.2.set i (specObcChain X P coords i)) := by
  have hs := bornRadiiInner_fold X P coords i
  unfold offsetRadius at hs
  unfold bornRadiiOuter
  simp only [hs]
  unfold specBornRadius specObcChain specTanh offsetRadius
  refine Prod.ext ?_ ?_
  · simp only
    congr 3
    ring_nf
  · simp only [List.set_set]
    by_cases hlen : i < st.2.length
    · rw [getD_set_eq]
      simp only [hlen, and_self, if_true]
      congr 1
      ring_nf
    · have h1 : ∀ v : R, st.2.set i v = st.2 := fun v =>
        List.set_eq_of_length_le (Nat.le_of_not_lt hlen)
      rw [h1, h1]

theorem computeBornRadii_fold (X : Externals R) (P : ObcSoftcoreParameters R)
    (coords : List (RealVec R)) (l : List Nat) (b c : List R) :
    l.foldl (bornRadiiOuter X P coords) (b, c)
      = (l.foldl (fun acc i => acc.set i (specBornRadius X P coords i)) b,
         l.foldl (fun acc i => acc.set i (specObcChain X P coords i)) c) := by
  induction l generalizing b c with
  | nil => rfl
  | cons a l ih => simp only [List.foldl_cons, bornRadiiOuter_eq, ih]

/-- Closed form of the `bornRadii` array written by `computeBornRadii`. -/
theorem computeBornRadii_bornRadii (X : Externals R) (E : CpuObcSoftcore R)
    (coords : List (RealVec R)) (b : List R) (k : Nat) (d : R) :
    (computeBornRadii X E coords b).1.getD k d
      = if k < E.obcSoftcoreParameters.numberOfAtoms ∧ k < b.length then
          specBornRadius X E.obcSoftcoreParameters coords k
        else b.getD k d := by
  unfold computeBornRadii
  simp only [computeBornRadii_fold]
  rw [(foldl_set_getD _ _ _ _ _).1]
  simp [mem_loopIndices]

theorem computeBornRadii_length (X : Externals R) (E : CpuObcSoftcore R)
    (coords : List (RealVec R)) (b : List R) :
    (computeBornRadii X E coords b).1.length = b.length := by
  unfold computeBornRadii
  simp only [computeBornRadii_fold]
  exact (foldl_set_getD _ _ _ 0 0).2

/-- Closed form of the engine's `obcChain` array after `computeBornRadii`. -/
theorem computeBornRadii_obcChain (X : Externals R) (E : CpuObcSoftcore R)
    (coords : List (RealVec R)) (b : List R) (k : Nat) (d : R) :
    (computeBornRadii X E coords b).2.obcChain.getD k d
      = if k < E.obcSoftcoreParameters.numberOfAtoms ∧ k < E.obcChain.length then
          specObcChain X E.obcSoftcoreParameters coords k
        else E.obcChain.getD k d := by
  unfold computeBornRadii
  simp only [computeBornRadii_fold]
  rw [(foldl_set_getD _ _ _ _ _).1]
  simp [mem_loopIndices]

theorem computeBornRadii_obcChain_length (X : Externals R) (E : CpuObcSoftcore R)
    (coords : List (RealVec R)) (b : List R) :
    (computeBornRadii X E coords b).2.obcChain.length = E.obcChain.length := by
  unfold computeBornRadii
  simp only [computeBornRadii_fold]
  exact (foldl_set_getD _ _ _ 0 0).2

theorem computeBornRadii_params (X : Externals R) (E : CpuObcSoftcore R)
    (coords : List (RealVec R)) (b : List R) :
    (computeBornRadii X E coords b).2.obcSoftcoreParameters = E.obcSoftcoreParameters
      ∧ (computeBornRadii X E coords b).2.includeAceApproximation
          = E.includeAceApproximation := by
  unfold computeBornRadii
  exact ⟨rfl, rfl⟩

end BornRadiiClosedForm

end ObcSoftcore

namespace ObcSoftcore

section LoopClosedForms

variable {R : Type} [LinearOrderedField R]

theorem vec3_apply (a b c : R) (c' : Fin 3) :
    (if c' = 0 then a else 0) + (if c' = 1 then b else 0) + (if c' = 2 then c else 0)
      = ![a, b, c] c' := by
  fin_cases c' <;> simp

/-- The three statements `f[i][0] += dx; f[i][1] += dy; f[i][2] += dz`. -/
theorem getD_addComp3 (f : List (RealVec R)) (i k : Nat) (c' : Fin 3) (dx dy dz : R)
    (hk : k < f.length) :
    (addComp (addComp (addComp f i 0 dx) i 1 dy) i 2 dz).getD k 0 c'
      = f.getD k 0 c' + if k = i then ![dx, dy, dz] c' else 0 := by
  rw [getD_addComp _ _ _ _ _ _ (by simpa [length_addComp] using hk),
    getD_addComp _ _ _ _ _ _ (by simpa [length_addComp] using hk),
    getD_addComp _ _ _ _ _ _ hk]
  by_cases h : k = i
  · simp only [h, true_and, if_true]
    rw [← vec3_apply]; ring
  · simp [h]

theorem length_addComp3 (f : List (RealVec R)) (i : Nat) (dx dy dz : R) :
    (addComp (addComp (addComp f i 0 dx) i 1 dy) i 2 dz).length = f.length := by
  simp [length_addComp]

theorem aceBody_length (X : Externals R) (P : ObcSoftcoreParameters R) (B : List R)
    (st : R × List R) (i : Nat) : (aceBody X P B st i).2.length = st.2.length := by
  unfold aceBody
  split_ifs <;> simp [length_addAt]

theorem aceBody_energy (X : Externals R) (P : ObcSoftcoreParameters R) (B : List R)
    (st : R × List R) (i : Nat) :
    (aceBody X P B st i).1 = st.1 + if B.getD i 0 > 0 then saTerm X P B i else 0 := by
  unfold aceBody saTerm
  split_ifs <;> simp

theorem aceBody_forces (X : Externals R) (P : ObcSoftcoreParameters R) (B : List R)
    (st : R × List R) (i k : Nat) (hk : k < st.2.length) :
    (aceBody X P B st i).2.getD k 0
      = st.2.getD k 0
        + if k = i ∧ B.getD i 0 > 0 then -6 * saTerm X P B i / B.getD i 0 else 0 := by
  unfold aceBody saTerm
  by_cases hB : B.getD i 0 > 0
  · simp only [hB, if_true, and_true]
    rw [getD_addAt _ _ _ _ hk]
  · simp only [hB, if_false, and_false, add_zero]

/-- Closed form of the energy after `computeAceNonPolarForce`. -/
theorem computeAceNonPolarForce_energy (X : Externals R) (P : ObcSoftcoreParameters R)
    (B : List R) (e0 : R) (g0 : List R) :
    (computeAceNonPolarForce X P B e0 g0).1
      = e0 + ∑ i ∈ Finset.range P.numberOfAtoms,
          if B.getD i 0 > 0 then saTerm X P B i else 0 := by
  unfold computeAceNonPolarForce
  rw [(foldl_accumulate (fun _ : R × List R => True) (fun s => s.1) (aceBody X P B)
    (fun i => if B.getD i 0 > 0 then saTerm X P B i else 0)
    (fun _ _ _ => trivial) (fun s a _ => aceBody_energy X P B s a) _ (e0, g0) trivial).2,
    sum_map_loopIndices_zero]

theorem computeAceNonPolarForce_length (X : Externals R) (P : ObcSoftcoreParameters R)
    (B : List R) (e0 : R) (g0 : List R) :
    (computeAceNonPolarForce X P B e0 g0).2.length = g0.length := by
  unfold computeAceNonPolarForce
  exact foldl_invariant (fun s : R × List R => s.2.length = g0.length) (aceBody X P B)
    (fun s a h => (aceBody_length X P B s a).trans h) _ (e0, g0) rfl

/-- Closed form of the `forces` array after `computeAceNonPolarForce`. -/
theorem computeAceNonPolarForce_forces (X : Externals R) (P : ObcSoftcoreParameters R)
    (B : List R) (e0 : R) (g0 : List R) (k : Nat) (hk : k < g0.length) :
    (computeAceNonPolarForce X P B e0 g0).2.getD k 0
      = g0.getD k 0
        + if k < P.numberOfAtoms ∧ B.getD k 0 > 0 then -6 * saTerm X P B k / B.getD k 0
          else 0 := by
  unfold computeAceNonPolarForce
  rw [(foldl_accumulate (fun s : R × List R => s.2.length = g0.length)
    (fun s => s.2.getD k 0) (aceBody X P B)
    (fun i => if k = i ∧ B.getD i 0 > 0 then -6 * saTerm X P B i / B.getD i 0 else 0)
    (fun s a h => (aceBody_length X P B s a).trans h)
    (fun s a h => aceBody_forces X P B s a k (h.symm ▸ hk)) _ (e0, g0) rfl).2,
    sum_map_loopIndices_zero]
  congr 1
  by_cases hkN : k < P.numberOfAtoms
  · rw [Finset.sum_eq_single k]
    · simp [hkN]
    · intro b _ hb
      have : ¬ k = b := fun h => hb h.symm
      simp [this]
    · intro h; exact absurd (Finset.mem_range.mpr hkN) h
  · simp only [hkN, false_and, if_false]
    apply Finset.sum_eq_zero
    intro b hb
    have : ¬ k = b := fun h => hkN (h ▸ Finset.mem_range.mp hb)
    simp [this]

end LoopClosedForms

end ObcSoftcore

namespace ObcSoftcore

section FirstLoop

variable {R : Type} [LinearOrderedField R]

theorem vec3_mul (a b c g : R) (c' : Fin 3) : ![a * g, b * g, c * g] c' = ![a, b, c] c' * g := by
  fin_cases c' <;> simp

theorem vec3_neg (a b c : R) (c' : Fin 3) : ![-a, -b, -c] c' = -(![a, b, c] c') := by
  fin_cases c' <;> simp

theorem getD_pairUpdate (f : List (RealVec R)) (i j k : Nat) (c : Fin 3) (dx dy dz : R)
    (hk : k < f.length) :
    (pairUpdate f i j dx dy dz).getD k 0 c
      = f.getD k 0 c
        + ((if k = i then ![dx, dy, dz] c else 0) - (if k = j then ![dx, dy, dz] c else 0)) := by
  unfold pairUpdate
  rw [getD_addComp3 _ _ _ _ _ _ _ (by rw [length_addComp3]; exact hk),
    getD_addComp3 _ _ _ _ _ _ _ hk, vec3_neg]
  by_cases hkj : k = j
  · simp only [hkj, if_true]; ring
  · simp only [hkj, if_false]; ring

theorem length_pairUpdate (f : List (RealVec R)) (i j : Nat) (dx dy dz : R) :
    (pairUpdate f i j dx dy dz).length = f.length := by
  simp [pairUpdate, length_addComp]

/-- The body of the first main loop written with the named pair quantities. -/
theorem firstLoopInner_eq (X : Externals R) (P : ObcSoftcoreParameters R)
    (coords : List (RealVec R)) (q B : List R) (i : Nat) (st : LoopState R) (j : Nat) :
    firstLoopInner X P coords q B i (preFactor P * q.getD i 0) st j
      = if cutoffSkips P (pairDist X P coords i j) then st
        else if i ≠ j then
          { obcEnergy := st.obcEnergy
              + gpolFn X (pairCharge P q i j) (pairR2 X P coords i j) (B.getD i 0 * B.getD j 0),
            bornForces := addAt (addAt st.bornForces j
                (dGdaFn X (pairCharge P q i j) (pairR2 X P coords i j) (B.getD i 0 * B.getD j 0)
                  * B.getD i 0)) i
                (dGdaFn X (pairCharge P q i j) (pairR2 X P coords i j) (B.getD i 0 * B.getD j 0)
                  * B.getD j 0),
            inputForces := pairUpdate st.inputForces i j
              ((pairDeltaR X P coords i j).x
                * dGdrFn X (pairCharge P q i j) (pairR2 X P coords i j) (B.getD i 0 * B.getD j 0))
              ((pairDeltaR X P coords i j).y
                * dGdrFn X (pairCharge P q i j) (pairR2 X P coords i j) (B.getD i 0 * B.getD j 0))
              ((pairDeltaR X P coords i j).z
                * dGdrFn X (pairCharge P q i j) (pairR2 X P coords i j)
                    (B.getD i 0 * B.getD j 0)) }
        else
          { obcEnergy := st.obcEnergy
              + gpolFn X (pairCharge P q i j) (pairR2 X P coords i j) (B.getD i 0 * B.getD j 0)
                * (1 / 2),
            bornForces := addAt st.bornForces i
                (dGdaFn X (pairCharge P q i j) (pairR2 X P coords i j) (B.getD i 0 * B.getD j 0)
                  * B.getD j 0),
            inputForces := st.inputForces } := rfl

theorem firstLoopInner_lengths (X : Externals R) (P : ObcSoftcoreParameters R)
    (coords : List (RealVec R)) (q B : List R) (i : Nat) (pc : R) (st : LoopState R) (j : Nat) :
    (firstLoopInner X P coords q B i pc st j).bornForces.length = st.bornForces.length
      ∧ (firstLoopInner X P coords q B i pc st j).inputForces.length
          = st.inputForces.length := by
  unfold firstLoopInner
  simp only
  split_ifs <;> simp [length_addAt, length_addComp]

theorem firstLoopInner_energy (X : Externals R) (P : ObcSoftcoreParameters R)
    (coords : List (RealVec R)) (q B : List R) (i : Nat) (st : LoopState R) (j : Nat) :
    (firstLoopInner X P coords q B i (preFactor P * q.getD i 0) st j).obcEnergy
      = st.obcEnergy + energyInc X P coords q B i j := by
  rw [firstLoopInner_eq]
  unfold energyInc
  split_ifs
  · simp
  · rfl
  · rfl

theorem firstLoopInner_bornForces (X : Externals R) (P : ObcSoftcoreParameters R)
    (coords : List (RealVec R)) (q B : List R) (i : Nat) (st : LoopState R) (j k : Nat)
    (hk : k < st.bornForces.length) :
    (firstLoopInner X P coords q B i (preFactor P * q.getD i 0) st j).bornForces.getD k 0
      = st.bornForces.getD k 0 + bornForceInc X P coords q B i j k := by
  rw [firstLoopInner_eq]
  unfold bornForceInc
  by_cases hcut : cutoffSkips P (pairDist X P coords i j)
  · simp only [hcut, if_true, add_zero]
  · simp only [hcut, if_false]
    by_cases hij : i = j
    · subst hij
      simp only [ne_eq, not_true_eq_false, if_false, false_and, zero_add]
      rw [getD_addAt _ _ _ _ hk]
    · simp only [ne_eq, hij, not_false_eq_true, if_true, true_and]
      rw [getD_addAt _ _ _ _ (by rw [length_addAt]; exact hk), getD_addAt _ _ _ _ hk]
      ring

theorem firstLoopInner_forces (X : Externals R) (P : ObcSoftcoreParameters R)
    (coords : List (RealVec R)) (q B : List R) (i : Nat) (st : LoopState R) (j k : Nat)
    (c : Fin 3) (hk : k < st.inputForces.length) :
    (firstLoopInner X P coords q B i (preFactor P * q.getD i 0) st j).inputForces.getD k 0 c
      = st.inputForces.getD k 0 c + directForceInc X P coords q B i j k c := by
  rw [firstLoopInner_eq]
  unfold directForceInc DeltaR.comp
  by_cases hcut : cutoffSkips P (pairDist X P coords i j)
  · simp only [hcut, if_true, add_zero]
  · simp only [hcut, if_false]
    by_cases hij : i = j
    · subst hij
      simp only [ne_eq, not_true_eq_false, if_false, add_zero]
    · simp only [ne_eq, hij, not_false_eq_true, if_true]
      rw [getD_pairUpdate _ _ _ _ _ _ _ _ hk, vec3_mul]

theorem firstLoopInner_inv (X : Externals R) (P : ObcSoftcoreParameters R)
    (coords : List (RealVec R)) (q B : List R) (i : Nat) (pc : R) (nb nf : Nat)
    (st : LoopState R) (j : Nat) (h : FirstLoopInv nb nf st) :
    FirstLoopInv nb nf (firstLoopInner X P coords q B i pc st j) := by
  obtain ⟨h1, h2⟩ := firstLoopInner_lengths X P coords q B i pc st j
  exact ⟨h1.trans h.1, h2.trans h.2⟩

theorem firstLoopOuter_inv (X : Externals R) (P : ObcSoftcoreParameters R)
    (coords : List (RealVec R)) (q B : List R) (pre : R) (nb nf : Nat)
    (st : LoopState R) (i : Nat) (h : FirstLoopInv nb nf st) :
    FirstLoopInv nb nf (firstLoopOuter X P coords q B pre st i) := by
  unfold firstLoopOuter
  exact foldl_invariant (FirstLoopInv nb nf) _
    (fun s a hs => firstLoopInner_inv X P coords q B i _ nb nf s a hs) _ st h

theorem firstLoopOuter_energy (X : Externals R) (P : ObcSoftcoreParameters R)
    (coords : List (RealVec R)) (q B : List R) (st : LoopState R) (i : Nat) :
    (firstLoopOuter X P coords q B (preFactor P) st i).obcEnergy
      = st.obcEnergy + ∑ j ∈ Finset.Ico i P.numberOfAtoms, energyInc X P coords q B i j := by
  unfold firstLoopOuter
  rw [(foldl_accumulate (fun _ : LoopState R => True) (fun s => s.obcEnergy) _
    (fun j => energyInc X P coords q B i j) (fun _ _ _ => trivial)
    (fun s a _ => firstLoopInner_energy X P coords q B i s a) _ st trivial).2,
    sum_map_loopIndices]

theorem firstLoopOuter_bornForces (X : Externals R) (P : ObcSoftcoreParameters R)
    (coords : List (RealVec R)) (q B : List R) (st : LoopState R) (i k : Nat)
    (hk : k < st.bornForces.length) :
    (firstLoopOuter X P coords q B (preFactor P) st i).bornForces.getD k 0
      = st.bornForces.getD k 0
        + ∑ j ∈ Finset.Ico i P.numberOfAtoms, bornForceInc X P coords q B i j k := by
  unfold firstLoopOuter
  rw [(foldl_accumulate (FirstLoopInv st.bornForces.length st.inputForces.length)
    (fun s => s.bornForces.getD k 0) _
    (fun j => bornForceInc X P coords q B i j k)
    (fun s a hs => firstLoopInner_inv X P coords q B i _ _ _ s a hs)
    (fun s a hs => firstLoopInner_bornForces X P coords q B i s a k (hs.1.symm ▸ hk))
    _ st ⟨rfl, rfl⟩).2, sum_map_loopIndices]

theorem firstLoopOuter_forces (X : Externals R) (P : ObcSoftcoreParameters R)
    (coords : List (RealVec R)) (q B : List R) (st : LoopState R) (i k : Nat) (c : Fin 3)
    (hk : k < st.inputForces.length) :
    (firstLoopOuter X P coords q B (preFactor P) st i).inputForces.getD k 0 c
      = st.inputForces.getD k 0 c
        + ∑ j ∈ Finset.Ico i P.numberOfAtoms, directForceInc X P coords q B i j k c := by
  unfold firstLoopOuter
  rw [(foldl_accumulate (FirstLoopInv st.bornForces.length st.inputForces.length)
    (fun s => s.inputForces.getD k 0 c) _
    (fun j => directForceInc X P coords q B i j k c)
    (fun s a hs => firstLoopInner_inv X P coords q B i _ _ _ s a hs)
    (fun s a hs => firstLoopInner_forces X P coords q B i s a k c (hs.2.symm ▸ hk))
    _ st ⟨rfl, rfl⟩).2, sum_map_loopIndices]

theorem firstLoop_inv (X : Externals R) (P : ObcSoftcoreParameters R)
    (coords : List (RealVec R)) (q B : List R) (st : LoopState R) :
    (firstLoop X P coords q B st).bornForces.length = st.bornForces.length
      ∧ (firstLoop X P coords q B st).inputForces.length = st.inputForces.length :=
  foldl_invariant (FirstLoopInv st.bornForces.length st.inputForces.length) _
    (fun s a hs => firstLoopOuter_inv X P coords q B _ _ _ s a hs) _ st ⟨rfl, rfl⟩

theorem firstLoop_energy (X : Externals R) (P : ObcSoftcoreParameters R)
    (coords : List (RealVec R)) (q B : List R) (st : LoopState R) :
    (firstLoop X P coords q B st).obcEnergy
      = st.obcEnergy + ∑ i ∈ Finset.range P.numberOfAtoms,
          ∑ j ∈ Finset.Ico i P.numberOfAtoms, energyInc X P coords q B i j := by
  unfold firstLoop
  rw [(foldl_accumulate (fun _ : LoopState R => True) (fun s => s.obcEnergy) _
    (fun i => ∑ j ∈ Finset.Ico i P.numberOfAtoms, energyInc X P coords q B i j)
    (fun _ _ _ => trivial)
    (fun s a _ => firstLoopOuter_energy X P coords q B s a) _ st trivial).2,
    sum_map_loopIndices_zero]

theorem firstLoop_bornForces (X : Externals R) (P : ObcSoftcoreParameters R)
    (coords : List (RealVec R)) (q B : List R) (st : LoopState R) (k : Nat)
    (hk : k < st.bornForces.length) :
    (firstLoop X P coords q B st).bornForces.getD k 0
      = st.bornForces.getD k 0 + ∑ i ∈ Finset.range P.numberOfAtoms,
          ∑ j ∈ Finset.Ico i P.numberOfAtoms, bornForceInc X P coords q B i j k := by
  unfold firstLoop
  rw [(foldl_accumulate (FirstLoopInv st.bornForces.length st.inputForces.length)
    (fun s => s.bornForces.getD k 0) _
    (fun i => ∑ j ∈ Finset.Ico i P.numberOfAtoms, bornForceInc X P coords q B i j k)
    (fun s a hs => firstLoopOuter_inv X P coords q B _ _ _ s a hs)
    (fun s a hs => firstLoopOuter_bornForces X P coords q B s a k (hs.1.symm ▸ hk))
    _ st ⟨rfl, rfl⟩).2, sum_map_loopIndices_zero]

theorem firstLoop_forces (X : Externals R) (P : ObcSoftcoreParameters R)
    (coords : List (RealVec R)) (q B : List R) (st : LoopState R) (k : Nat) (c : Fin 3)
    (hk : k < st.inputForces.length) :
    (firstLoop X P coords q B st).inputForces.getD k 0 c
      = st.inputForces.getD k 0 c + ∑ i ∈ Finset.range P.numberOfAtoms,
          ∑ j ∈ Finset.Ico i P.numberOfAtoms, directForceInc X P coords q B i j k c := by
  unfold firstLoop
  rw [(foldl_accumulate (FirstLoopInv st.bornForces.length st.inputForces.length)
    (fun s => s.inputForces.getD k 0 c) _
    (fun i => ∑ j ∈ Finset.Ico i P.numberOfAtoms, directForceInc X P coords q B i j k c)
    (fun s a hs => firstLoopOuter_inv X P coords q B _ _ _ s a hs)
    (fun s a hs => firstLoopOuter_forces X P coords q B s a k c (hs.2.symm ▸ hk))
    _ st ⟨rfl, rfl⟩).2, sum_map_loopIndices_zero]

end FirstLoop

end ObcSoftcore

namespace ObcSoftcore

section SecondLoop

variable {R : Type} [LinearOrderedField R]

/-- The body of the second main loop written with the named pair quantities. -/
theorem secondLoopInner_eq (X : Externals R) (P : ObcSoftcoreParameters R)
    (coords : List (RealVec R)) (bf : List R) (i : Nat) (f : List (RealVec R)) (j : Nat) :
    secondLoopInner X P coords bf i (offsetRadius P i) f j
      = if j ≠ i then
          if cutoffSkips P (pairDist X P coords i j) then f
          else if offsetRadius P i < pairDist X P coords i j + scaledRadius P j then
            addComp (addComp (addComp (addComp (addComp (addComp f
              i 0 (-((pairDeltaR X P coords i j).x * chainDe X P coords bf i j)))
              i 1 (-((pairDeltaR X P coords i j).y * chainDe X P coords bf i j)))
              i 2 (-((pairDeltaR X P coords i j).z * chainDe X P coords bf i j)))
              j 0 ((pairDeltaR X P coords i j).x * chainDe X P coords bf i j))
              j 1 ((pairDeltaR X P coords i j).y * chainDe X P coords bf i j))
              j 2 ((pairDeltaR X P coords i j).z * chainDe X P coords bf i j)
          else f
        else f := rfl

theorem secondLoopInner_length (X : Externals R) (P : ObcSoftcoreParameters R)
    (coords : List (RealVec R)) (bf : List R) (i : Nat) (f : List (RealVec R)) (j : Nat) :
    (secondLoopInner X P coords bf i (offsetRadius P i) f j).length = f.length := by
  rw [secondLoopInner_eq]
  split_ifs <;> simp [length_addComp]

theorem secondLoopInner_forces (X : Externals R) (P : ObcSoftcoreParameters R)
    (coords : List (RealVec R)) (bf : List R) (i : Nat) (f : List (RealVec R)) (j k : Nat)
    (c : Fin 3) (hk : k < f.length) :
    (secondLoopInner X P coords bf i (offsetRadius P i) f j).getD k 0 c
      = f.getD k 0 c + chainForceInc X P coords bf i j k c := by
  rw [secondLoopInner_eq]
  unfold chainForceInc DeltaR.comp
  by_cases hji : j = i
  · simp [hji]
  · by_cases hcut : cutoffSkips P (pairDist X P coords i j)
    · simp [hji, hcut]
    · by_cases hov : offsetRadius P i < pairDist X P coords i j + scaledRadius P j
      · simp only [ne_eq, hji, not_false_eq_true, if_true, hcut, if_false, hov, and_self]
        rw [getD_addComp3 _ _ _ _ _ _ _ (by rw [length_addComp3]; exact hk),
          getD_addComp3 _ _ _ _ _ _ _ hk, vec3_mul, vec3_neg, vec3_mul]
        by_cases hki : k = i
        · simp only [hki, if_true]; ring
        · simp only [hki, if_false]; ring
      · simp [hji, hcut, hov]

theorem secondLoopOuter_length (X : Externals R) (P : ObcSoftcoreParameters R)
    (coords : List (RealVec R)) (bf : List R) (f : List (RealVec R)) (i : Nat) :
    (secondLoopOuter X P coords bf f i).length = f.length :=
  foldl_invariant (fun s : List (RealVec R) => s.length = f.length) _
    (fun s a hs => (secondLoopInner_length X P coords bf i s a).trans hs) _ f rfl

theorem secondLoopOuter_forces (X : Externals R) (P : ObcSoftcoreParameters R)
    (coords : List (RealVec R)) (bf : List R) (f : List (RealVec R)) (i k : Nat) (c : Fin 3)
    (hk : k < f.length) :
    (secondLoopOuter X P coords bf f i).getD k 0 c
      = f.getD k 0 c
        + ∑ j ∈ Finset.range P.numberOfAtoms, chainForceInc X P coords bf i j k c := by
  have h := (foldl_accumulate (fun s : List (RealVec R) => s.length = f.length)
    (fun s => s.getD k 0 c) (secondLoopInner X P coords bf i (offsetRadius P i))
    (fun j => chainForceInc X P coords bf i j k c)
    (fun s a hs => (secondLoopInner_length X P coords bf i s a).trans hs)
    (fun s a hs => secondLoopInner_forces X P coords bf i s a k c (hs.symm ▸ hk))
    (loopIndices 0 P.numberOfAtoms) f rfl).2
  rw [sum_map_loopIndices_zero] at h
  exact h

theorem secondLoop_length (X : Externals R) (P : ObcSoftcoreParameters R)
    (coords : List (RealVec R)) (bf : List R) (f : List (RealVec R)) :
    (secondLoop X P coords bf f).length = f.length :=
  foldl_invariant (fun s : List (RealVec R) => s.length = f.length) _
    (fun s a hs => (secondLoopOuter_length X P coords bf s a).trans hs) _ f rfl

theorem secondLoop_forces (X : Externals R) (P : ObcSoftcoreParameters R)
    (coords : List (RealVec R)) (bf : List R) (f : List (RealVec R)) (k : Nat) (c : Fin 3)
    (hk : k < f.length) :
    (secondLoop X P coords bf f).getD k 0 c
      = f.getD k 0 c + ∑ i ∈ Finset.range P.numberOfAtoms,
          ∑ j ∈ Finset.range P.numberOfAtoms, chainForceInc X P coords bf i j k c := by
  have h := (foldl_accumulate (fun s : List (RealVec R) => s.length = f.length)
    (fun s => s.getD k 0 c) (secondLoopOuter X P coords bf)
    (fun i => ∑ j ∈ Finset.range P.numberOfAtoms, chainForceInc X P coords bf i j k c)
    (fun s a hs => (secondLoopOuter_length X P coords bf s a).trans hs)
    (fun s a hs => secondLoopOuter_forces X P coords bf s a k c (hs.symm ▸ hk))
    (loopIndices 0 P.numberOfAtoms) f rfl).2
  rw [sum_map_loopIndices_zero] at h
  exact h

end SecondLoop

end ObcSoftcore

namespace ObcSoftcore

section WholeRoutine

variable {R : Type} [LinearOrderedField R]

theorem getD_replicate_zero (n k : Nat) : (List.replicate n (0 : R)).getD k 0 = 0 := by
  by_cases h : k < n
  · simp [List.getD_eq_getElem?_getD, List.getElem?_replicate, h]
  · simp [List.getD_eq_getElem?_getD, List.getElem?_replicate, h]

theorem zeroBornForces_getD (n k : Nat) : (zeroBornForces n : List R).getD k 0 = 0 := by
  unfold zeroBornForces
  rw [(foldl_set_getD (fun _ => (0 : R)) _ _ _ _).1]
  split_ifs
  · rfl
  · exact getD_replicate_zero n k

theorem zeroBornForces_length (n : Nat) : (zeroBornForces n : List R).length = n := by
  unfold zeroBornForces
  rw [(foldl_set_getD (fun _ => (0 : R)) _ _ 0 0).2]
  simp

theorem bornRadiiOf_length (X : Externals R) (E : CpuObcSoftcore R) (coords : List (RealVec R)) :
    (bornRadiiOf X E coords).length = E.obcSoftcoreParameters.numberOfAtoms := by
  unfold bornRadiiOf
  rw [computeBornRadii_length]
  simp

/-- Entry `k` of the local Born-radius array is the specification value. -/
theorem bornRadiiOf_getD (X : Externals R) (E : CpuObcSoftcore R) (coords : List (RealVec R))
    (k : Nat) (hk : k < E.obcSoftcoreParameters.numberOfAtoms) :
    (bornRadiiOf X E coords).getD k 0 = specBornRadius X E.obcSoftcoreParameters coords k := by
  unfold bornRadiiOf
  rw [computeBornRadii_bornRadii]
  simp [hk]

theorem engineAfter_obcChain_getD (X : Externals R) (E : CpuObcSoftcore R)
    (coords : List (RealVec R)) (k : Nat) (hk : k < E.obcSoftcoreParameters.numberOfAtoms)
    (hlen : k < E.obcChain.length) :
    (engineAfter X E coords).obcChain.getD k 0
      = specObcChain X E.obcSoftcoreParameters coords k := by
  unfold engineAfter
  rw [computeBornRadii_obcChain]
  simp [hk, hlen]

theorem engineAfter_flag (X : Externals R) (E : CpuObcSoftcore R) (coords : List (RealVec R)) :
    (engineAfter X E coords).includeAceApproximation = E.includeAceApproximation := rfl

theorem engineAfter_params (X : Externals R) (E : CpuObcSoftcore R) (coords : List (RealVec R)) :
    (engineAfter X E coords).obcSoftcoreParameters = E.obcSoftcoreParameters := rfl

/-- The routine written with the named intermediate values. -/
theorem computeBornEnergyForces_eq (X : Externals R) (E : CpuObcSoftcore R)
    (coords : List (RealVec R)) (q : List R) (f0 : List (RealVec R)) :
    computeBornEnergyForces X E coords q f0
      = { energy := (stateAfterFirstLoop X E coords q f0).obcEnergy,
          inputForces := secondLoop X E.obcSoftcoreParameters coords
            (scaledBornForces X E coords q f0) (stateAfterFirstLoop X E coords q f0).inputForces,
          engine := engineAfter X E coords,
          bornRadii := bornRadiiOf X E coords } := rfl

theorem aceResult_energy (X : Externals R) (E : CpuObcSoftcore R) (coords : List (RealVec R)) :
    (aceResult X E coords).1 = aceEnergy X E coords := by
  unfold aceResult aceEnergy
  rw [engineAfter_flag]
  split_ifs
  · rw [computeAceNonPolarForce_energy, zero_add]
  · rfl

theorem aceResult_length (X : Externals R) (E : CpuObcSoftcore R) (coords : List (RealVec R)) :
    (aceResult X E coords).2.length = E.obcSoftcoreParameters.numberOfAtoms := by
  unfold aceResult
  split_ifs
  · rw [computeAceNonPolarForce_length, zeroBornForces_length]
  · exact zeroBornForces_length _

theorem aceResult_forces (X : Externals R) (E : CpuObcSoftcore R) (coords : List (RealVec R))
    (k : Nat) (hk : k < E.obcSoftcoreParameters.numberOfAtoms) :
    (aceResult X E coords).2.getD k 0
      = if E.includeAceApproximation ≠ 0 ∧ (bornRadiiOf X E coords).getD k 0 > 0 then
          -6 * saTerm X E.obcSoftcoreParameters (bornRadiiOf X E coords) k
            / (bornRadiiOf X E coords).getD k 0
        else 0 := by
  unfold aceResult
  rw [engineAfter_flag]
  by_cases hflag : E.includeAceApproximation = 0
  · simp only [ne_eq, hflag, not_true_eq_false, if_false, false_and]
    exact zeroBornForces_getD _ k
  · simp only [ne_eq, hflag, not_false_eq_true, if_true, true_and]
    rw [computeAceNonPolarForce_forces _ _ _ _ _ _ (by rw [zeroBornForces_length]; exact hk),
      zeroBornForces_getD, zero_add]
    simp only [hk, true_and]

/-- Closed form of the returned energy. -/
theorem computeBornEnergyForces_energy (X : Externals R) (E : CpuObcSoftcore R)
    (coords : List (RealVec R)) (q : List R) (f0 : List (RealVec R)) :
    (computeBornEnergyForces X E coords q f0).energy = energyClosed X E coords q := by
  rw [computeBornEnergyForces_eq]
  simp only
  unfold stateAfterFirstLoop energyClosed
  rw [firstLoop_energy, aceResult_energy]

theorem stateAfterFirstLoop_bornForces (X : Externals R) (E : CpuObcSoftcore R)
    (coords : List (RealVec R)) (q : List R) (f0 : List (RealVec R)) (k : Nat)
    (hk : k < E.obcSoftcoreParameters.numberOfAtoms) :
    (stateAfterFirstLoop X E coords q f0).bornForces.getD k 0 = rawBornForce X E coords q k := by
  unfold stateAfterFirstLoop rawBornForce
  rw [firstLoop_bornForces _ _ _ _ _ _ _ (by simp only; rw [aceResult_length]; exact hk)]
  simp only
  rw [aceResult_forces _ _ _ _ hk]

theorem stateAfterFirstLoop_lengths (X : Externals R) (E : CpuObcSoftcore R)
    (coords : List (RealVec R)) (q : List R) (f0 : List (RealVec R)) :
    (stateAfterFirstLoop X E coords q f0).bornForces.length
        = E.obcSoftcoreParameters.numberOfAtoms
      ∧ (stateAfterFirstLoop X E coords q f0).inputForces.length = f0.length := by
  unfold stateAfterFirstLoop
  obtain ⟨h1, h2⟩ := firstLoop_inv X E.obcSoftcoreParameters coords q (bornRadiiOf X E coords)
    { obcEnergy := (aceResult X E coords).1, bornForces := (aceResult X E coords).2,
      inputForces := f0 }
  exact ⟨h1.trans (aceResult_length X E coords), h2⟩

/-- A loop `for i < n: v[i] = g i v[i]` rewrites each of the first `n` entries once. -/
theorem foldl_modify_getD (g : Nat → R → R) (n : Nat) (init : List R) (k : Nat) :
    (((loopIndices 0 n).foldl (fun acc i => acc.set i (g i (acc.getD i 0))) init).getD k 0
      = if k < n ∧ k < init.length then g k (init.getD k 0) else init.getD k 0)
    ∧ ((loopIndices 0 n).foldl (fun acc i => acc.set i (g i (acc.getD i 0))) init).length
        = init.length := by
  unfold loopIndices
  simp only [Nat.sub_zero]
  induction n with
  | zero => simp
  | succ n ih =>
    obtain ⟨h1, h2⟩ := ih
    rw [List.range'_1_concat, List.foldl_append]
    simp only [List.foldl_cons, List.foldl_nil, zero_add, List.length_set]
    refine ⟨?_, h2⟩
    rw [getD_set_eq, h2]
    by_cases hkn : k = n
    · subst hkn
      by_cases hlen : k < init.length
      · simp only [hlen, and_self, if_true, Nat.lt_succ_self]
        rw [h1]
        simp
      · simp only [hlen, and_false, if_false]
        rw [h1]
        simp
    · simp only [hkn, false_and, if_false]
      rw [h1]
      have : (k < n + 1) = (k < n) := by
        apply propext; constructor <;> intro h <;> omega
      simp only [this]

theorem scaledBornForces_length (X : Externals R) (E : CpuObcSoftcore R)
    (coords : List (RealVec R)) (q : List R) (f0 : List (RealVec R)) :
    (scaledBornForces X E coords q f0).length = E.obcSoftcoreParameters.numberOfAtoms := by
  unfold scaledBornForces
  have h := (foldl_modify_getD (fun i v => v * ((bornRadiiOf X E coords).getD i 0
    * (bornRadiiOf X E coords).getD i 0 * (engineAfter X E coords).obcChain.getD i 0))
    E.obcSoftcoreParameters.numberOfAtoms (stateAfterFirstLoop X E coords q f0).bornForces 0).2
  exact h.trans (stateAfterFirstLoop_lengths X E coords q f0).1

/-- The scaled Born-force array does not depend on the incoming forces. -/
theorem scaledBornForces_eq (X : Externals R) (E : CpuObcSoftcore R)
    (coords : List (RealVec R)) (q : List R) (f0 : List (RealVec R)) :
    scaledBornForces X E coords q f0 = scaledBornForceList X E coords q := by
  apply List.ext_getElem
  · rw [scaledBornForces_length]; simp [scaledBornForceList]
  · intro k h1 h2
    have hk : k < E.obcSoftcoreParameters.numberOfAtoms := by
      rw [scaledBornForces_length] at h1; exact h1
    have e1 : (scaledBornForces X E coords q f0)[k]
        = (scaledBornForces X E coords q f0).getD k 0 := by
      rw [List.getD_eq_getElem _ _ h1]
    rw [e1]
    unfold scaledBornForces
    have h := (foldl_modify_getD (fun i v => v * ((bornRadiiOf X E coords).getD i 0
      * (bornRadiiOf X E coords).getD i 0 * (engineAfter X E coords).obcChain.getD i 0))
      E.obcSoftcoreParameters.numberOfAtoms (stateAfterFirstLoop X E coords q f0).bornForces k).1
    have hfold : (loopIndices 0 E.obcSoftcoreParameters.numberOfAtoms).foldl
        (scaleBornForces (bornRadiiOf X E coords) (engineAfter X E coords).obcChain)
        (stateAfterFirstLoop X E coords q f0).bornForces
        = (loopIndices 0 E.obcSoftcoreParameters.numberOfAtoms).foldl
          (fun acc i => acc.set i ((fun i v => v * ((bornRadiiOf X E coords).getD i 0
            * (bornRadiiOf X E coords).getD i 0 * (engineAfter X E coords).obcChain.getD i 0))
              i (acc.getD i 0)))
          (stateAfterFirstLoop X E coords q f0).bornForces := rfl
    rw [hfold, h, (stateAfterFirstLoop_lengths X E coords q f0).1]
    simp only [hk, and_self, if_true]
    rw [stateAfterFirstLoop_bornForces _ _ _ _ _ _ hk]
    simp [scaledBornForceList]

/-- Closed form of the output forces: the input plus an increment independent of the input. -/
theorem computeBornEnergyForces_forces (X : Externals R) (E : CpuObcSoftcore R)
    (coords : List (RealVec R)) (q : List R) (f0 : List (RealVec R)) (k : Nat) (c : Fin 3)
    (hk : k < f0.length) :
    (computeBornEnergyForces X E coords q f0).inputForces.getD k 0 c
      = f0.getD k 0 c + forceIncrement X E coords q k c := by
  rw [computeBornEnergyForces_eq]
  simp only
  rw [secondLoop_forces _ _ _ _ _ _ _
    (by rw [(stateAfterFirstLoop_lengths X E coords q f0).2]; exact hk), scaledBornForces_eq]
  unfold stateAfterFirstLoop
  rw [firstLoop_forces _ _ _ _ _ _ _ _ (by simpa using hk)]
  unfold forceIncrement
  ring

theorem computeBornEnergyForces_length (X : Externals R) (E : CpuObcSoftcore R)
    (coords : List (RealVec R)) (q : List R) (f0 : List (RealVec R)) :
    (computeBornEnergyForces X E coords q f0).inputForces.length = f0.length := by
  rw [computeBornEnergyForces_eq]
  simp only
  rw [secondLoop_length, (stateAfterFirstLoop_lengths X E coords q f0).2]

end WholeRoutine

end ObcSoftcore

namespace ObcSoftcore

theorem real_tanh_lt_one (x : ℝ) : Real.tanh x < 1 := by
  rw [Real.tanh_eq_sinh_div_cosh, div_lt_one (Real.cosh_pos x)]
  have h := Real.cosh_sub_sinh x
  have := Real.exp_pos (-x)
  linarith

theorem real_neg_one_lt_tanh (x : ℝ) : -1 < Real.tanh x := by
  rw [Real.tanh_eq_sinh_div_cosh, lt_div_iff₀ (Real.cosh_pos x)]
  have h := Real.cosh_add_sinh x
  have := Real.exp_pos x
  linarith

theorem real_hasDerivAt_tanh (x : ℝ) : HasDerivAt Real.tanh (1 - Real.tanh x ^ 2) x := by
  have h := (Real.hasDerivAt_sinh x).div (Real.hasDerivAt_cosh x) (ne_of_gt (Real.cosh_pos x))
  have heq : (fun y => Real.sinh y / Real.cosh y) = Real.tanh := by
    funext y; rw [Real.tanh_eq_sinh_div_cosh]
  rw [heq] at h
  convert h using 1
  rw [Real.tanh_eq_sinh_div_cosh]
  have hc := ne_of_gt (Real.cosh_pos x)
  field_simp
  have hsq := Real.cosh_sq x
  linarith [hsq, sq (Real.cosh x), sq (Real.sinh x)]

end ObcSoftcore

namespace ObcSoftcore

section Settled

variable {R : Type} [LinearOrderedField R]

/-- C3 (Born-radius formula): for every atom `i` (an index below the atom count that both arrays
hold), `computeBornRadii` writes `bornRadii[i] = 1/(1/offsetRadius_i - t/radius_i)` and
`obcChain[i] = (1 - t^2)*offsetRadius_i*(alpha - 2*beta*s + 3*gamma*s^2)/radius_i`, with `t`, `s`
and the pair term as `specTanh`, `specScaledSum` and `specTerm` word them. -/
theorem computeBornRadii_formula (X : Externals R) (E : CpuObcSoftcore R)
    (coords : List (RealVec R)) (b : List R) (i : Nat)
    (hi : i < E.obcSoftcoreParameters.numberOfAtoms) (hb : i < b.length)
    (hc : i < E.obcChain.length) :
    (computeBornRadii X E coords b).1.getD i 0 = specBornRadius X E.obcSoftcoreParameters coords i
      ∧ (computeBornRadii X E coords b).2.obcChain.getD i 0
          = specObcChain X E.obcSoftcoreParameters coords i := by
  rw [computeBornRadii_bornRadii, computeBornRadii_obcChain]
  simp only [hi, hb, hc, and_self, if_true]

theorem computeBornRadii_formula_witness :
    (0 < (sampleEngine ℝ).obcSoftcoreParameters.numberOfAtoms ∧ 0 < [(0 : ℝ), 0].length
      ∧ 0 < (sampleEngine ℝ).obcChain.length)
    ∧ ((computeBornRadii ⟨Real.sqrt, Real.exp, Real.log, Real.tanh, fun x y => x ^ y,
            fun _ _ _ => ⟨0, 0, 0, 0, 0⟩⟩ (sampleEngine ℝ) (sampleCoordinates ℝ) [0, 0]).1.getD 0 0
          = specBornRadius ⟨Real.sqrt, Real.exp, Real.log, Real.tanh, fun x y => x ^ y,
              fun _ _ _ => ⟨0, 0, 0, 0, 0⟩⟩ (sampleEngine ℝ).obcSoftcoreParameters
              (sampleCoordinates ℝ) 0
      ∧ (computeBornRadii ⟨Real.sqrt, Real.exp, Real.log, Real.tanh, fun x y => x ^ y,
            fun _ _ _ => ⟨0, 0, 0, 0, 0⟩⟩ (sampleEngine ℝ) (sampleCoordinates ℝ)
            [0, 0]).2.obcChain.getD 0 0
          = specObcChain ⟨Real.sqrt, Real.exp, Real.log, Real.tanh, fun x y => x ^ y,
              fun _ _ _ => ⟨0, 0, 0, 0, 0⟩⟩ (sampleEngine ℝ).obcSoftcoreParameters
              (sampleCoordinates ℝ) 0) :=
  ⟨⟨by decide, by decide, by decide⟩,
    computeBornRadii_formula _ (sampleEngine ℝ) (sampleCoordinates ℝ) [0, 0] 0
      (by decide) (by decide) (by decide)⟩

theorem specScaledSum_isolated (X : Externals R) (P : ObcSoftcoreParameters R)
    (coords : List (RealVec R)) (i : Nat)
    (hiso : ∀ j, j < P.numberOfAtoms → j ≠ i → cutoffSkips P (pairDist X P coords i j)) :
    specScaledSum X P coords i = 0 := by
  unfold specScaledSum
  rw [Finset.sum_eq_zero, mul_zero]
  intro j hj
  rw [Finset.mem_filter, Finset.mem_range] at hj
  exact absurd (hiso j hj.1 hj.2.1) hj.2.2

/-- When every pair of distinct atoms is skipped by the cutoff (vacuous for a single atom), the
closed forms of `computeBornRadii` for an atom `i` with `offsetRadius_i ≠ 0` are
`offsetRadius_i` and `alpha*offsetRadius_i/radius_i`. The only fact about `TANH` used is
`tanh 0 = 0`. -/
theorem computeBornRadii_isolated (X : Externals R) (htanh : X.tanh 0 = 0) (E : CpuObcSoftcore R)
    (coords : List (RealVec R)) (b : List R)
    (hiso : ∀ i j, i < E.obcSoftcoreParameters.numberOfAtoms →
      j < E.obcSoftcoreParameters.numberOfAtoms → i ≠ j →
      E.obcSoftcoreParameters.useCutoff = true
        ∧ pairDist X E.obcSoftcoreParameters coords i j
            > E.obcSoftcoreParameters.cutoffDistance)
    (i : Nat) (hi : i < E.obcSoftcoreParameters.numberOfAtoms) (hb : i < b.length)
    (hc : i < E.obcChain.length) (hoff : offsetRadius E.obcSoftcoreParameters i ≠ 0) :
    (computeBornRadii X E coords b).1.getD i 0 = offsetRadius E.obcSoftcoreParameters i
      ∧ (computeBornRadii X E coords b).2.obcChain.getD i 0
          = E.obcSoftcoreParameters.alphaObc * offsetRadius E.obcSoftcoreParameters i
              / E.obcSoftcoreParameters.atomicRadii.getD i 0 := by
  have hs : specScaledSum X E.obcSoftcoreParameters coords i = 0 :=
    specScaledSum_isolated X _ coords i (fun j hj hji => hiso i j hi hj (fun h => hji h.symm))
  have ht : specTanh X E.obcSoftcoreParameters coords i = 0 := by
    unfold specTanh
    rw [hs]
    simpa using htanh
  rw [computeBornRadii_bornRadii, computeBornRadii_obcChain]
  simp only [hi, hb, hc, and_self, if_true]
  unfold specBornRadius specObcChain
  rw [ht, hs]
  constructor
  · field_simp
  · ring

end Settled

end ObcSoftcore

namespace ObcSoftcore

section Settled2

variable {R : Type} [LinearOrderedField R]

theorem specBornRadius_pos (X : Externals R) (htanh : ∀ x, X.tanh x < 1)
    (P : ObcSoftcoreParameters R) (coords : List (RealVec R)) (i : Nat)
    (hoff0 : 0 ≤ P.dielectricOffset) (hoff : P.dielectricOffset < P.atomicRadii.getD i 0) :
    0 < specBornRadius X P coords i := by
  unfold specBornRadius
  have hrad : 0 < P.atomicRadii.getD i 0 := lt_of_le_of_lt hoff0 hoff
  have ho : 0 < offsetRadius P i := by unfold offsetRadius; linarith
  have hle : offsetRadius P i ≤ P.atomicRadii.getD i 0 := by unfold offsetRadius; linarith
  have h1 : specTanh X P coords i / P.atomicRadii.getD i 0 < 1 / P.atomicRadii.getD i 0 := by
    apply div_lt_div_of_pos_right _ hrad
    unfold specTanh
    exact htanh _
  have h2 : 1 / P.atomicRadii.getD i 0 ≤ 1 / offsetRadius P i :=
    one_div_le_one_div_of_le ho hle
  apply one_div_pos.mpr
  linarith

/-- For an atom `i` with `0 ≤ dielectricOffset < radius_i` the closed form of the Born radius
that `computeBornRadii` writes is positive, so the guard `bornRadii[i] > 0` of the nonpolar term
holds inside `computeBornEnergyForces` and the loop body takes its updating branch. The only fact
about `TANH` used is `tanh x < 1`. -/
theorem computeBornRadii_positive (X : Externals R) (htanh : ∀ x, X.tanh x < 1) (E : CpuObcSoftcore R)
    (coords : List (RealVec R)) (q : List R) (f0 : List (RealVec R)) (b : List R) (i : Nat)
    (hi : i < E.obcSoftcoreParameters.numberOfAtoms) (hb : i < b.length)
    (_hrad : 0 < E.obcSoftcoreParameters.atomicRadii.getD i 0)
    (hoff0 : 0 ≤ E.obcSoftcoreParameters.dielectricOffset)
    (hoff : E.obcSoftcoreParameters.dielectricOffset
      < E.obcSoftcoreParameters.atomicRadii.getD i 0) :
    0 < (computeBornRadii X E coords b).1.getD i 0
      ∧ (computeBornEnergyForces X E coords q f0).bornRadii.getD i 0 > 0
      ∧ ∀ st : R × List R,
          aceBody X E.obcSoftcoreParameters (computeBornEnergyForces X E coords q f0).bornRadii
              st i
            = (st.1 + saTerm X E.obcSoftcoreParameters
                  (computeBornEnergyForces X E coords q f0).bornRadii i,
               addAt st.2 i (-6 * saTerm X E.obcSoftcoreParameters
                  (computeBornEnergyForces X E coords q f0).bornRadii i
                  / (computeBornEnergyForces X E coords q f0).bornRadii.getD i 0)) := by
  have hpos := specBornRadius_pos X htanh E.obcSoftcoreParameters coords i hoff0 hoff
  have hB : (computeBornEnergyForces X E coords q f0).bornRadii.getD i 0 > 0 := by
    rw [computeBornEnergyForces_eq]
    simp only
    rw [bornRadiiOf_getD _ _ _ _ hi]
    exact hpos
  refine ⟨?_, hB, ?_⟩
  · rw [computeBornRadii_bornRadii]
    simp only [hi, hb, and_self, if_true]
    exact hpos
  · intro st
    unfold aceBody saTerm
    rw [if_pos hB]

theorem saTerm_eq_specAceTerm (X : Externals R) (hpow : ∀ x, X.pow x 6 = x ^ 6)
    (P : ObcSoftcoreParameters R) (B : List R) (i : Nat) :
    saTerm X P B i = specAceTerm P i (B.getD i 0) := by
  unfold saTerm specAceTerm
  rw [hpow]
  ring

/-- C9 (nonpolar term postcondition with its guard): for every `bornRadii` array, input energy
`e0` and input array `g0`, `computeAceNonPolarForce` leaves
`energy = e0 + Σ_{i < N, bornRadii[i] > 0} term_i`, and for every atom `i` (an index below the
atom count that `g0` holds) leaves `forces[i] = g0[i] - 6*term_i/bornRadii[i]` if
`bornRadii[i] > 0` and `forces[i] = g0[i]` otherwise, where
`term_i = nonPolarScale_i*surfaceAreaFactor*(radius_i+probeRadius)^2*(radius_i/bornRadii[i])^6`;
the array keeps its length. `POW(x, 6.0)` is taken to be `x^6`. -/
theorem computeAceNonPolarForce_postcondition (X : Externals R) (hpow : ∀ x, X.pow x 6 = x ^ 6)
    (P : ObcSoftcoreParameters R) (B : List R) (e0 : R) (g0 : List R) :
    (computeAceNonPolarForce X P B e0 g0).1
        = e0 + ∑ i ∈ (Finset.range P.numberOfAtoms).filter (fun i => B.getD i 0 > 0),
            specAceTerm P i (B.getD i 0)
      ∧ (computeAceNonPolarForce X P B e0 g0).2.length = g0.length
      ∧ ∀ i, i < P.numberOfAtoms → i < g0.length →
          (computeAceNonPolarForce X P B e0 g0).2.getD i 0
            = if B.getD i 0 > 0 then
                g0.getD i 0 - 6 * specAceTerm P i (B.getD i 0) / B.getD i 0
              else g0.getD i 0 := by
  refine ⟨?_, computeAceNonPolarForce_length X P B e0 g0, ?_⟩
  · rw [computeAceNonPolarForce_energy, Finset.sum_filter]
    congr 1
    apply Finset.sum_congr rfl
    intro i _
    rw [saTerm_eq_specAceTerm X hpow]
  · intro i hi hlen
    rw [computeAceNonPolarForce_forces _ _ _ _ _ _ hlen, saTerm_eq_specAceTerm X hpow]
    by_cases hB : B.getD i 0 > 0
    · simp only [hi, hB, and_self, if_true]
      ring
    · simp only [hB, and_false, if_false, add_zero]

theorem computeAceNonPolarForce_postcondition_witness :
    (∀ x : ℝ, (fun x y : ℝ => x ^ y) x 6 = x ^ 6)
    ∧ ((computeAceNonPolarForce ⟨Real.sqrt, Real.exp, Real.log, Real.tanh, fun x y => x ^ y,
            fun _ _ _ => ⟨0, 0, 0, 0, 0⟩⟩ (sampleParameters ℝ) [1 / 5, -1] 0 [0, 0]).1
        = 0 + ∑ i ∈ (Finset.range (sampleParameters ℝ).numberOfAtoms).filter
              (fun i => [(1 / 5 : ℝ), -1].getD i 0 > 0),
            specAceTerm (sampleParameters ℝ) i ([(1 / 5 : ℝ), -1].getD i 0)
      ∧ (computeAceNonPolarForce ⟨Real.sqrt, Real.exp, Real.log, Real.tanh, fun x y => x ^ y,
            fun _ _ _ => ⟨0, 0, 0, 0, 0⟩⟩ (sampleParameters ℝ) [1 / 5, -1] 0 [0, 0]).2.length
          = [(0 : ℝ), 0].length
      ∧ ∀ i, i < (sampleParameters ℝ).numberOfAtoms → i < [(0 : ℝ), 0].length →
          (computeAceNonPolarForce ⟨Real.sqrt, Real.exp, Real.log, Real.tanh, fun x y => x ^ y,
              fun _ _ _ => ⟨0, 0, 0, 0, 0⟩⟩ (sampleParameters ℝ) [1 / 5, -1] 0 [0, 0]).2.getD i 0
            = if [(1 / 5 : ℝ), -1].getD i 0 > 0 then
                [(0 : ℝ), 0].getD i 0
                  - 6 * specAceTerm (sampleParameters ℝ) i ([(1 / 5 : ℝ), -1].getD i 0)
                    / [(1 / 5 : ℝ), -1].getD i 0
              else [(0 : ℝ), 0].getD i 0) :=
  have hpow : ∀ x : ℝ, (fun x y : ℝ => x ^ y) x 6 = x ^ 6 := fun x => by
    show x ^ (6 : ℝ) = x ^ 6
    exact_mod_cast Real.rpow_natCast x 6
  ⟨hpow, computeAceNonPolarForce_postcondition _ hpow (sampleParameters ℝ) [1 / 5, -1] 0 [0, 0]⟩

end Settled2

end ObcSoftcore

namespace ObcSoftcore

section Settled3

variable {R : Type} [LinearOrderedField R]

/-- C6 (forces are only incremented): for every positions, charges and parameters there are an
increment array `D` and an energy `e`, fixed before the incoming force array is chosen, such that
for every input force array `f0` the routine returns energy `e`, keeps the length of the array and
leaves `f0[k][c] + D k c` in every entry `k` that `f0` holds. -/
theorem forces_only_incremented (X : Externals R) (E : CpuObcSoftcore R)
    (coords : List (RealVec R)) (q : List R) :
    ∃ (D : Nat → Fin 3 → R) (e : R), ∀ f0 : List (RealVec R),
      (computeBornEnergyForces X E coords q f0).energy = e
        ∧ (computeBornEnergyForces X E coords q f0).inputForces.length = f0.length
        ∧ ∀ k c, k < f0.length →
            (computeBornEnergyForces X E coords q f0).inputForces.getD k 0 c
              = f0.getD k 0 c + D k c :=
  ⟨forceIncrement X E coords q, energyClosed X E coords q, fun f0 =>
    ⟨computeBornEnergyForces_energy X E coords q f0,
      computeBornEnergyForces_length X E coords q f0,
      fun k c hk => computeBornEnergyForces_forces X E coords q f0 k c hk⟩⟩

end Settled3

end ObcSoftcore

namespace ObcSoftcore

section Settled4

variable {R : Type} [LinearOrderedField R]

theorem foldl_congr_mem {S ι : Type} (f g : S → ι → S) (l : List ι)
    (h : ∀ s a, a ∈ l → f s a = g s a) (s : S) : l.foldl f s = l.foldl g s := by
  induction l generalizing s with
  | nil => rfl
  | cons a l ih =>
    simp only [List.foldl_cons]
    rw [h s a (List.mem_cons_self a l)]
    exact ih (fun s b hb => h s b (List.mem_cons_of_mem a hb)) (g s a)

theorem getD_translate (v : RealVec R) (coords : List (RealVec R)) (i : Nat)
    (hi : i < coords.length) : (translate v coords).getD i 0 = coords.getD i 0 + v := by
  unfold translate
  rw [List.getD_eq_getElem _ _ (by simpa using hi), List.getD_eq_getElem _ _ hi]
  simp

theorem pairDeltaR_translate (X : Externals R) (P : ObcSoftcoreParameters R)
    (hper : P.periodic = false) (v : RealVec R) (coords : List (RealVec R)) (i j : Nat)
    (hi : i < coords.length) (hj : j < coords.length) :
    pairDeltaR X P (translate v coords) i j = pairDeltaR X P coords i j := by
  unfold pairDeltaR getDeltaR
  rw [getD_translate v coords i hi, getD_translate v coords j hj]
  simp [hper]

/-- Two coordinate arrays that give every pair of atoms the same `deltaR`. -/
theorem computeBornRadii_congr (X : Externals R) (E : CpuObcSoftcore R)
    (c1 c2 : List (RealVec R))
    (h : ∀ i j, i < E.obcSoftcoreParameters.numberOfAtoms →
      j < E.obcSoftcoreParameters.numberOfAtoms →
      pairDeltaR X E.obcSoftcoreParameters c1 i j = pairDeltaR X E.obcSoftcoreParameters c2 i j)
    (b : List R) : computeBornRadii X E c1 b = computeBornRadii X E c2 b := by
  unfold computeBornRadii
  simp only
  rw [foldl_congr_mem (bornRadiiOuter X E.obcSoftcoreParameters c1)
    (bornRadiiOuter X E.obcSoftcoreParameters c2)]
  intro st i hi
  unfold bornRadiiOuter
  simp only
  rw [foldl_congr_mem (bornRadiiInner X E.obcSoftcoreParameters c1 i _ _)
    (bornRadiiInner X E.obcSoftcoreParameters c2 i _ _)]
  intro s j hj
  unfold bornRadiiInner
  rw [h i j ((mem_loopIndices _ _ _).mp hi).2 ((mem_loopIndices _ _ _).mp hj).2]

theorem firstLoop_congr (X : Externals R) (P : ObcSoftcoreParameters R)
    (c1 c2 : List (RealVec R))
    (h : ∀ i j, i < P.numberOfAtoms → j < P.numberOfAtoms →
      pairDeltaR X P c1 i j = pairDeltaR X P c2 i j)
    (q B : List R) (st : LoopState R) : firstLoop X P c1 q B st = firstLoop X P c2 q B st := by
  unfold firstLoop
  apply foldl_congr_mem
  intro s i hi
  unfold firstLoopOuter
  apply foldl_congr_mem
  intro s' j hj
  unfold firstLoopInner
  rw [h i j ((mem_loopIndices _ _ _).mp hi).2 ((mem_loopIndices _ _ _).mp hj).2]

theorem secondLoop_congr (X : Externals R) (P : ObcSoftcoreParameters R)
    (c1 c2 : List (RealVec R))
    (h : ∀ i j, i < P.numberOfAtoms → j < P.numberOfAtoms →
      pairDeltaR X P c1 i j = pairDeltaR X P c2 i j)
    (bf : List R) (f : List (RealVec R)) : secondLoop X P c1 bf f = secondLoop X P c2 bf f := by
  unfold secondLoop
  apply foldl_congr_mem
  intro s i hi
  unfold secondLoopOuter
  apply foldl_congr_mem
  intro s' j hj
  unfold secondLoopInner
  rw [h i j ((mem_loopIndices _ _ _).mp hi).2 ((mem_loopIndices _ _ _).mp hj).2]

theorem computeBornEnergyForces_congr (X : Externals R) (E : CpuObcSoftcore R)
    (c1 c2 : List (RealVec R))
    (h : ∀ i j, i < E.obcSoftcoreParameters.numberOfAtoms →
      j < E.obcSoftcoreParameters.numberOfAtoms →
      pairDeltaR X E.obcSoftcoreParameters c1 i j = pairDeltaR X E.obcSoftcoreParameters c2 i j)
    (q : List R) (f0 : List (RealVec R)) :
    computeBornEnergyForces X E c1 q f0 = computeBornEnergyForces X E c2 q f0 := by
  have hB : bornRadiiOf X E c1 = bornRadiiOf X E c2 := by
    unfold bornRadiiOf; rw [computeBornRadii_congr X E c1 c2 h]
  have hE : engineAfter X E c1 = engineAfter X E c2 := by
    unfold engineAfter; rw [computeBornRadii_congr X E c1 c2 h]
  have hA : aceResult X E c1 = aceResult X E c2 := by
    unfold aceResult; rw [hB, hE]
  have hS : stateAfterFirstLoop X E c1 q f0 = stateAfterFirstLoop X E c2 q f0 := by
    unfold stateAfterFirstLoop; rw [hB, hA, firstLoop_congr X _ c1 c2 h]
  have hF : scaledBornForces X E c1 q f0 = scaledBornForces X E c2 q f0 := by
    unfold scaledBornForces; rw [hB, hE, hS]
  rw [computeBornEnergyForces_eq, computeBornEnergyForces_eq, hB, hE, hS, hF,
    secondLoop_congr X _ c1 c2 h]

/-- C8 (translation invariance): in the non-periodic case, for every constant vector `v` and every
positions (one per atom), charges, parameters and input forces, `computeBornEnergyForces` on the
positions each shifted by `v` gives the same result record (energy, output forces, the engine with
its `obcChain`, and the local Born radii) as on the unshifted positions; likewise
`computeBornRadii` alone. -/
theorem translation_invariance (X : Externals R) (E : CpuObcSoftcore R)
    (coords : List (RealVec R)) (q : List R) (f0 : List (RealVec R)) (v : RealVec R)
    (hper : E.obcSoftcoreParameters.periodic = false)
    (hlen : E.obcSoftcoreParameters.numberOfAtoms ≤ coords.length) :
    computeBornEnergyForces X E (translate v coords) q f0
        = computeBornEnergyForces X E coords q f0
      ∧ ∀ b, computeBornRadii X E (translate v coords) b = computeBornRadii X E coords b := by
  have h : ∀ i j, i < E.obcSoftcoreParameters.numberOfAtoms →
      j < E.obcSoftcoreParameters.numberOfAtoms →
      pairDeltaR X E.obcSoftcoreParameters (translate v coords) i j
        = pairDeltaR X E.obcSoftcoreParameters coords i j := fun i j hi hj =>
    pairDeltaR_translate X _ hper v coords i j (lt_of_lt_of_le hi hlen) (lt_of_lt_of_le hj hlen)
  exact ⟨computeBornEnergyForces_congr X E _ _ h q f0, computeBornRadii_congr X E _ _ h⟩

theorem translation_invariance_witness :
    ((sampleEngine ℝ).obcSoftcoreParameters.periodic = false
      ∧ (sampleEngine ℝ).obcSoftcoreParameters.numberOfAtoms ≤ (sampleCoordinates ℝ).length)
    ∧ computeBornEnergyForces ⟨Real.sqrt, Real.exp, Real.log, Real.tanh, fun x y => x ^ y,
          fun _ _ _ => ⟨0, 0, 0, 0, 0⟩⟩ (sampleEngine ℝ) (translate ![1, 2, 3] (sampleCoordinates ℝ))
          (sampleCharges ℝ) (zeroForces 2)
        = computeBornEnergyForces ⟨Real.sqrt, Real.exp, Real.log, Real.tanh, fun x y => x ^ y,
          fun _ _ _ => ⟨0, 0, 0, 0, 0⟩⟩ (sampleEngine ℝ) (sampleCoordinates ℝ)
          (sampleCharges ℝ) (zeroForces 2) :=
  ⟨⟨rfl, by decide⟩,
    (translation_invariance _ (sampleEngine ℝ) (sampleCoordinates ℝ) (sampleCharges ℝ)
      (zeroForces 2) ![1, 2, 3] rfl (by decide)).1⟩

theorem engineAfter_obcChain_eq (X : Externals R) (E : CpuObcSoftcore R)
    (coords : List (RealVec R))
    (hlen : E.obcChain.length = E.obcSoftcoreParameters.numberOfAtoms) :
    (engineAfter X E coords).obcChain
      = (List.range E.obcSoftcoreParameters.numberOfAtoms).map
          (specObcChain X E.obcSoftcoreParameters coords) := by
  have hl : (engineAfter X E coords).obcChain.length = E.obcSoftcoreParameters.numberOfAtoms := by
    unfold engineAfter; rw [computeBornRadii_obcChain_length, hlen]
  apply List.ext_getElem
  · rw [hl]; simp
  · intro k h1 h2
    have hk : k < E.obcSoftcoreParameters.numberOfAtoms := hl ▸ h1
    have e1 : (engineAfter X E coords).obcChain[k]
        = (engineAfter X E coords).obcChain.getD k 0 := by
      rw [List.getD_eq_getElem _ _ h1]
    rw [e1, engineAfter_obcChain_getD X E coords k hk (hlen ▸ hk)]
    simp

theorem bornRadiiOf_eq (X : Externals R) (E : CpuObcSoftcore R) (coords : List (RealVec R)) :
    bornRadiiOf X E coords
      = (List.range E.obcSoftcoreParameters.numberOfAtoms).map
          (specBornRadius X E.obcSoftcoreParameters coords) := by
  apply List.ext_getElem
  · rw [bornRadiiOf_length]; simp
  · intro k h1 h2
    have hk : k < E.obcSoftcoreParameters.numberOfAtoms := bornRadiiOf_length X E coords ▸ h1
    have e1 : (bornRadiiOf X E coords)[k] = (bornRadiiOf X E coords).getD k 0 := by
      rw [List.getD_eq_getElem _ _ h1]
    rw [e1, bornRadiiOf_getD X E coords k hk]
    simp

/-- C10 (stale cached state is not visible): two engine states with the same parameters and the
same ACE flag but arbitrary cached `obcChain` arrays of length `N` give, on the same positions,
charges and input forces, the same energy and the same output forces, and afterwards `obcChain`
in both states is the list of chain values `computeBornRadii` defines for those positions. -/
theorem stale_chain_not_visible (X : Externals R) (E1 E2 : CpuObcSoftcore R)
    (hP : E1.obcSoftcoreParameters = E2.obcSoftcoreParameters)
    (hflag : E1.includeAceApproximation = E2.includeAceApproximation)
    (h1 : E1.obcChain.length = E1.obcSoftcoreParameters.numberOfAtoms)
    (h2 : E2.obcChain.length = E2.obcSoftcoreParameters.numberOfAtoms)
    (coords : List (RealVec R)) (q : List R) (f0 : List (RealVec R)) :
    (computeBornEnergyForces X E1 coords q f0).energy
        = (computeBornEnergyForces X E2 coords q f0).energy
      ∧ (computeBornEnergyForces X E1 coords q f0).inputForces
        = (computeBornEnergyForces X E2 coords q f0).inputForces
      ∧ (computeBornEnergyForces X E1 coords q f0).engine.obcChain
        = (List.range E1.obcSoftcoreParameters.numberOfAtoms).map
            (specObcChain X E1.obcSoftcoreParameters coords)
      ∧ (computeBornEnergyForces X E2 coords q f0).engine.obcChain
        = (List.range E1.obcSoftcoreParameters.numberOfAtoms).map
            (specObcChain X E1.obcSoftcoreParameters coords) := by
  have hc1 := engineAfter_obcChain_eq X E1 coords h1
  have hc2 := engineAfter_obcChain_eq X E2 coords h2
  rw [← hP] at hc2
  have hB : bornRadiiOf X E1 coords = bornRadiiOf X E2 coords := by
    rw [bornRadiiOf_eq, bornRadiiOf_eq, hP]
  have hA : aceResult X E1 coords = aceResult X E2 coords := by
    unfold aceResult
    rw [engineAfter_flag, engineAfter_flag, hB, hP, hflag]
  have hS : stateAfterFirstLoop X E1 coords q f0 = stateAfterFirstLoop X E2 coords q f0 := by
    unfold stateAfterFirstLoop; rw [hB, hA, hP]
  have hF : scaledBornForces X E1 coords q f0 = scaledBornForces X E2 coords q f0 := by
    unfold scaledBornForces; rw [hB, hS, hc1, hc2, hP]
  rw [computeBornEnergyForces_eq, computeBornEnergyForces_eq]
  simp only
  refine ⟨by rw [hS], by rw [hS, hF, hP], hc1, hc2⟩

theorem stale_chain_not_visible_witness :
    ((sampleEngine ℝ).obcSoftcoreParameters
        = ({ sampleEngine ℝ with obcChain := [7, -3] } : CpuObcSoftcore ℝ).obcSoftcoreParameters
      ∧ (sampleEngine ℝ).includeAceApproximation
        = ({ sampleEngine ℝ with obcChain := [7, -3] } : CpuObcSoftcore ℝ).includeAceApproximation
      ∧ (sampleEngine ℝ).obcChain.length = (sampleEngine ℝ).obcSoftcoreParameters.numberOfAtoms
      ∧ ({ sampleEngine ℝ with obcChain := [7, -3] } : CpuObcSoftcore ℝ).obcChain.length
        = ({ sampleEngine ℝ with obcChain := [7, -3] } :
            CpuObcSoftcore ℝ).obcSoftcoreParameters.numberOfAtoms)
    ∧ (computeBornEnergyForces ⟨Real.sqrt, Real.exp, Real.log, Real.tanh, fun x y => x ^ y,
          fun _ _ _ => ⟨0, 0, 0, 0, 0⟩⟩ (sampleEngine ℝ) (sampleCoordinates ℝ)
          (sampleCharges ℝ) (zeroForces 2)).energy
        = (computeBornEnergyForces ⟨Real.sqrt, Real.exp, Real.log, Real.tanh, fun x y => x ^ y,
          fun _ _ _ => ⟨0, 0, 0, 0, 0⟩⟩ { sampleEngine ℝ with obcChain := [7, -3] }
          (sampleCoordinates ℝ) (sampleCharges ℝ) (zeroForces 2)).energy :=
  ⟨⟨rfl, rfl, rfl, rfl⟩,
    (stale_chain_not_visible _ (sampleEngine ℝ) { sampleEngine ℝ with obcChain := [7, -3] }
      rfl rfl rfl rfl (sampleCoordinates ℝ) (sampleCharges ℝ) (zeroForces 2)).1⟩

end Settled4

end ObcSoftcore

namespace ObcSoftcore

section Settled5

theorem pairDist_self (X : Externals ℝ) (hX : IsRealMath X) (hperX : PeriodicConsistent X)
    (P : ObcSoftcoreParameters ℝ) (coords : List (RealVec ℝ)) (i : Nat) :
    pairDist X P coords i i = 0 := by
  unfold pairDist pairDeltaR
  split_ifs
  · exact (hperX (coords.getD i 0) (coords.getD i 0) _).2
  · unfold getDeltaR
    simp [hX.1]

theorem pairR2_eq_sq (X : Externals ℝ) (hX : IsRealMath X) (hperX : PeriodicConsistent X)
    (P : ObcSoftcoreParameters ℝ) (coords : List (RealVec ℝ)) (i j : Nat) :
    pairR2 X P coords i j = pairDist X P coords i j ^ 2 := by
  unfold pairR2 pairDist pairDeltaR
  split_ifs
  · exact (hperX _ _ _).1
  · unfold getDeltaR
    simp only [hX.1]
    rw [Real.sq_sqrt]
    exact add_nonneg (add_nonneg (mul_self_nonneg _) (mul_self_nonneg _)) (mul_self_nonneg _)

theorem energyInc_self (X : Externals ℝ) (hX : IsRealMath X) (hperX : PeriodicConsistent X)
    (P : ObcSoftcoreParameters ℝ) (coords : List (RealVec ℝ)) (q B : List ℝ) (i : Nat)
    (hcut : P.useCutoff = false ∨ 0 ≤ P.cutoffDistance) :
    energyInc X P coords q B i i
      = (1 / 2) * preFactor P * q.getD i 0 ^ 2 / X.sqrt (B.getD i 0 ^ 2) := by
  have hskip : ¬ cutoffSkips P (pairDist X P coords i i) := by
    rw [pairDist_self X hX hperX]
    unfold cutoffSkips
    rintro ⟨h1, h2⟩
    rcases hcut with h | h
    · rw [h] at h1; exact Bool.noConfusion h1
    · linarith
  unfold energyInc
  rw [if_neg hskip, if_neg (by simp)]
  rw [pairR2_eq_sq X hX hperX, pairDist_self X hX hperX]
  unfold gpolFn pairCharge
  rw [hX.2.1]
  simp only [ne_eq, OfNat.ofNat_ne_zero, not_false_eq_true, zero_pow, zero_div, neg_zero,
    Real.exp_zero, mul_one, zero_add]
  ring_nf

theorem energyInc_pair (X : Externals ℝ) (hX : IsRealMath X) (hperX : PeriodicConsistent X)
    (P : ObcSoftcoreParameters ℝ) (coords : List (RealVec ℝ)) (q B : List ℝ) (i j : Nat)
    (hij : i < j) :
    energyInc X P coords q B i j
      = if ¬ cutoffSkips P (pairDist X P coords i j) then
          preFactor P * q.getD i 0 * q.getD j 0
            / X.sqrt (pairDist X P coords i j ^ 2
                + B.getD i 0 * B.getD j 0
                  * X.exp (-(pairDist X P coords i j ^ 2) / (4 * (B.getD i 0 * B.getD j 0))))
        else 0 := by
  unfold energyInc
  by_cases hskip : cutoffSkips P (pairDist X P coords i j)
  · simp [hskip]
  · rw [if_neg hskip, if_pos (ne_of_lt hij), if_pos hskip]
    unfold gpolFn pairCharge
    rw [pairR2_eq_sq X hX hperX, neg_div]

theorem filter_lt_range (n i : Nat) :
    (Finset.range n).filter (fun j => i < j) = Finset.Ico (i + 1) n := by
  ext j
  simp only [Finset.mem_filter, Finset.mem_range, Finset.mem_Ico]
  omega

/-- The closed form of the returned energy is the formula `A + S + P`. -/
theorem energyClosed_eq_specEnergy (X : Externals ℝ) (hX : IsRealMath X)
    (hperX : PeriodicConsistent X) (E : CpuObcSoftcore ℝ) (coords : List (RealVec ℝ))
    (q : List ℝ)
    (hcut : E.obcSoftcoreParameters.useCutoff = false
      ∨ 0 ≤ E.obcSoftcoreParameters.cutoffDistance) :
    energyClosed X E coords q = specEnergy X E coords q := by
  have hpow : ∀ x, X.pow x 6 = x ^ 6 := by
    intro x
    rw [hX.2.2.2.2]
    show x ^ (6 : ℝ) = x ^ 6
    exact_mod_cast Real.rpow_natCast x 6
  unfold energyClosed specEnergy
  have hA : aceEnergy X E coords
      = specA E (fun i => (computeBornRadii X E coords
          (List.replicate E.obcSoftcoreParameters.numberOfAtoms 0)).1.getD i 0) := by
    unfold aceEnergy specA bornRadiiOf
    split_ifs
    · rw [Finset.sum_filter]
      apply Finset.sum_congr rfl
      intro i _
      rw [saTerm_eq_specAceTerm X hpow]
    · rfl
  rw [hA, add_assoc]
  congr 1
  unfold specS specP
  rw [← Finset.sum_add_distrib]
  apply Finset.sum_congr rfl
  intro i hi
  rw [Finset.sum_eq_sum_Ico_succ_bot (Finset.mem_range.mp hi),
    energyInc_self X hX hperX _ coords q _ i hcut]
  unfold bornRadiiOf
  congr 1
  rw [← Finset.filter_filter, filter_lt_range, Finset.sum_filter]
  apply Finset.sum_congr rfl
  intro j hj
  rw [energyInc_pair X hX hperX _ coords q _ i j (by have := (Finset.mem_Ico.mp hj).1; omega)]

/-- C2 (energy formula), amended: when the cutoff is disabled or the cutoff distance is
non-negative, the value `computeBornEnergyForces` returns equals `A + S + P` as the claim words
them (`specEnergy`). The math macros are the real functions; of the external periodic displacement
the proof uses that its `r2` is `r^2` and that an atom is at distance zero from itself. -/
theorem energy_formula (X : Externals ℝ) (hX : IsRealMath X) (hperX : PeriodicConsistent X)
    (E : CpuObcSoftcore ℝ) (coords : List (RealVec ℝ)) (q : List ℝ) (f0 : List (RealVec ℝ))
    (hcut : E.obcSoftcoreParameters.useCutoff = false
      ∨ 0 ≤ E.obcSoftcoreParameters.cutoffDistance) :
    (computeBornEnergyForces X E coords q f0).energy = specEnergy X E coords q := by
  rw [computeBornEnergyForces_energy]
  exact energyClosed_eq_specEnergy X hX hperX E coords q hcut

theorem energy_formula_witness :
    (IsRealMath ⟨Real.sqrt, Real.exp, Real.log, Real.tanh, fun x y => x ^ y,
        fun _ _ _ => ⟨0, 0, 0, 0, 0⟩⟩
      ∧ PeriodicConsistent (⟨Real.sqrt, Real.exp, Real.log, Real.tanh, fun x y => x ^ y,
        fun _ _ _ => ⟨0, 0, 0, 0, 0⟩⟩ : Externals ℝ)
      ∧ ((sampleEngine ℝ).obcSoftcoreParameters.useCutoff = false
        ∨ 0 ≤ (sampleEngine ℝ).obcSoftcoreParameters.cutoffDistance))
    ∧ (computeBornEnergyForces ⟨Real.sqrt, Real.exp, Real.log, Real.tanh, fun x y => x ^ y,
          fun _ _ _ => ⟨0, 0, 0, 0, 0⟩⟩ (sampleEngine ℝ) (sampleCoordinates ℝ)
          (sampleCharges ℝ) (zeroForces 2)).energy
        = specEnergy ⟨Real.sqrt, Real.exp, Real.log, Real.tanh, fun x y => x ^ y,
          fun _ _ _ => ⟨0, 0, 0, 0, 0⟩⟩ (sampleEngine ℝ) (sampleCoordinates ℝ)
          (sampleCharges ℝ) :=
  have hX : IsRealMath ⟨Real.sqrt, Real.exp, Real.log, Real.tanh, fun x y => x ^ y,
      fun _ _ _ => ⟨0, 0, 0, 0, 0⟩⟩ := ⟨rfl, rfl, rfl, rfl, rfl⟩
  have hperX : PeriodicConsistent (⟨Real.sqrt, Real.exp, Real.log, Real.tanh,
      fun x y => x ^ y, fun _ _ _ => ⟨0, 0, 0, 0, 0⟩⟩ : Externals ℝ) :=
    fun _ _ _ => ⟨by norm_num, rfl⟩
  ⟨⟨hX, hperX, Or.inl rfl⟩,
    energy_formula _ hX hperX (sampleEngine ℝ) (sampleCoordinates ℝ) (sampleCharges ℝ)
      (zeroForces 2) (Or.inl rfl)⟩

end Settled5

end ObcSoftcore

namespace ObcSoftcore

section Settled5b

theorem negativeCutoff_energy_values :
    (computeBornEnergyForces ⟨Real.sqrt, Real.exp, Real.log, Real.tanh, fun x y => x ^ y,
        fun _ _ _ => ⟨0, 0, 0, 0, 0⟩⟩ (negativeCutoffEngine ℝ) [0] [1] [0]).energy = 0
      ∧ 0 < specEnergy ⟨Real.sqrt, Real.exp, Real.log, Real.tanh, fun x y => x ^ y,
        fun _ _ _ => ⟨0, 0, 0, 0, 0⟩⟩ (negativeCutoffEngine ℝ) [0] [1] := by
  constructor
  · rw [computeBornEnergyForces_energy]
    unfold energyClosed
    have hN : (negativeCutoffEngine ℝ).obcSoftcoreParameters.numberOfAtoms = 1 := rfl
    have hA : aceEnergy ⟨Real.sqrt, Real.exp, Real.log, Real.tanh, fun x y => x ^ y,
        fun _ _ _ => ⟨0, 0, 0, 0, 0⟩⟩ (negativeCutoffEngine ℝ) [0] = 0 := by
      unfold aceEnergy
      rw [if_neg]
      simp [negativeCutoffEngine]
    rw [hA, hN, Finset.sum_range_one, Nat.Ico_succ_singleton, Finset.sum_singleton, zero_add]
    unfold energyInc
    rw [if_pos]
    refine ⟨rfl, ?_⟩
    have h0 : (negativeCutoffEngine ℝ).obcSoftcoreParameters.cutoffDistance = -1 := rfl
    rw [h0]
    unfold pairDist pairDeltaR
    rw [if_neg (by simp [negativeCutoffEngine])]
    unfold getDeltaR
    simp only
    have := Real.sqrt_nonneg (((([0] : List (RealVec ℝ)).getD 0 0) 0
        - (([0] : List (RealVec ℝ)).getD 0 0) 0)
      * ((([0] : List (RealVec ℝ)).getD 0 0) 0 - (([0] : List (RealVec ℝ)).getD 0 0) 0)
      + ((([0] : List (RealVec ℝ)).getD 0 0) 1 - (([0] : List (RealVec ℝ)).getD 0 0) 1)
      * ((([0] : List (RealVec ℝ)).getD 0 0) 1 - (([0] : List (RealVec ℝ)).getD 0 0) 1)
      + ((([0] : List (RealVec ℝ)).getD 0 0) 2 - (([0] : List (RealVec ℝ)).getD 0 0) 2)
      * ((([0] : List (RealVec ℝ)).getD 0 0) 2 - (([0] : List (RealVec ℝ)).getD 0 0) 2))
    linarith
  · unfold specEnergy
    have hN : (negativeCutoffEngine ℝ).obcSoftcoreParameters.numberOfAtoms = 1 := rfl
    have hA : ∀ B, specA (negativeCutoffEngine ℝ) B = 0 := by
      intro B
      unfold specA
      rw [if_neg]
      simp [negativeCutoffEngine]
    have hP : ∀ X B, specP X (negativeCutoffEngine ℝ).obcSoftcoreParameters [0] [1] B = 0 := by
      intro X B
      unfold specP
      rw [hN, Finset.sum_range_one]
      apply Finset.sum_eq_zero
      intro j hj
      rw [Finset.mem_filter, Finset.mem_range] at hj
      omega
    rw [hA, hP, zero_add, add_zero]
    unfold specS
    rw [hN, Finset.sum_range_one]
    have hB : 0 < (computeBornRadii ⟨Real.sqrt, Real.exp, Real.log, Real.tanh,
        fun x y => x ^ y, fun _ _ _ => ⟨0, 0, 0, 0, 0⟩⟩ (negativeCutoffEngine ℝ) [0]
        (List.replicate 1 0)).1.getD 0 0 := by
      rw [computeBornRadii_bornRadii]
      rw [if_pos ⟨by decide, by decide⟩]
      apply specBornRadius_pos _ real_tanh_lt_one
      · simp [negativeCutoffEngine]
      · simp [negativeCutoffEngine]
    have hpre : preFactor (negativeCutoffEngine ℝ).obcSoftcoreParameters = 1 := by
      simp [preFactor, negativeCutoffEngine]
      norm_num
    rw [hpre]
    simp only
    rw [Real.sqrt_sq (le_of_lt hB)]
    have hq : ([1] : List ℝ).getD 0 0 = 1 := rfl
    rw [hq]
    positivity

/-- C2 as stated fails: with the cutoff enabled at the negative distance `-1`, the self pair of
the single atom of `negativeCutoffEngine` is skipped (`r = 0 > -1`), so the routine returns `0`,
while the formula `A + S + P` contains the positive self term `S`. -/
theorem energy_formula_counterexample :
    (computeBornEnergyForces ⟨Real.sqrt, Real.exp, Real.log, Real.tanh, fun x y => x ^ y,
        fun _ _ _ => ⟨0, 0, 0, 0, 0⟩⟩ (negativeCutoffEngine ℝ) [0] [1] [0]).energy
      ≠ specEnergy ⟨Real.sqrt, Real.exp, Real.log, Real.tanh, fun x y => x ^ y,
        fun _ _ _ => ⟨0, 0, 0, 0, 0⟩⟩ (negativeCutoffEngine ℝ) [0] [1] := by
  rw [negativeCutoff_energy_values.1]
  exact ne_of_lt negativeCutoff_energy_values.2

end Settled5b

end ObcSoftcore

namespace ObcSoftcore

section PairTermCalculus

open Filter Topology

/-- Derivative of the closed form of the pair term along functions `l` and `u` of the distance. -/
theorem hasDerivAt_closedForm (s r : ℝ) (l u : ℝ → ℝ) (l' u' : ℝ)
    (hl : HasDerivAt l l' r) (hu : HasDerivAt u u' r) (hr : 0 < r) (hl0 : 0 < l r)
    (hu0 : 0 < u r) :
    HasDerivAt
      (fun ρ => l ρ - u ρ + ρ * (u ρ ^ 2 - l ρ ^ 2) / 4 + Real.log (u ρ / l ρ) / (2 * ρ)
        + s ^ 2 * (l ρ ^ 2 - u ρ ^ 2) / (4 * ρ))
      (l' - u' + ((u r ^ 2 - l r ^ 2) + r * (2 * u r * u' - 2 * l r * l')) / 4
        + ((u' / u r - l' / l r) * (2 * r) - Real.log (u r / l r) * 2) / (2 * r) ^ 2
        + s ^ 2 * ((2 * l r * l' - 2 * u r * u') * (4 * r) - (l r ^ 2 - u r ^ 2) * 4)
            / (4 * r) ^ 2) r := by
  have hid := hasDerivAt_id r
  have hr0 : r ≠ 0 := ne_of_gt hr
  have hl0' : l r ≠ 0 := ne_of_gt hl0
  have hu0' : u r ≠ 0 := ne_of_gt hu0
  have hu2 := hu.pow 2
  have hl2 := hl.pow 2
  have hlog := (hu.div hl hl0').log (div_ne_zero hu0' hl0')
  have h2r : HasDerivAt (fun ρ : ℝ => 2 * ρ) 2 r := by
    simpa using hid.const_mul (2 : ℝ)
  have h4r : HasDerivAt (fun ρ : ℝ => 4 * ρ) 4 r := by
    simpa using hid.const_mul (4 : ℝ)
  have hA := (hid.mul (hu2.sub hl2)).div_const 4
  have hB := hlog.div h2r (by positivity : (2 * r) ≠ 0)
  have hC := ((hl2.sub hu2).const_mul (s ^ 2)).div h4r (by positivity : (4 * r) ≠ 0)
  have h := (((hl.sub hu).add hA).add hB).add hC
  convert h using 1
  simp only [id, Nat.cast_ofNat, Nat.add_one_sub_one, pow_one, Nat.reduceSub]
  field_simp
  ring

end PairTermCalculus

end ObcSoftcore

namespace ObcSoftcore

section PairTermCalculus2

open Filter Topology

theorem specTerm_far (X : Externals ℝ) (off s r : ℝ) (h : r + s < off) :
    HasDerivAt (fun ρ => specTerm X off s ρ) 0 r := by
  have hc : ContinuousAt (fun ρ : ℝ => ρ + s) r := by fun_prop
  have hev : ∀ᶠ ρ in 𝓝 r, ρ + s < off := hc.eventually (eventually_lt_nhds h)
  refine (hasDerivAt_const r (0 : ℝ)).congr_of_eventuallyEq ?_
  filter_upwards [hev] with ρ hρ
  unfold specTerm
  rw [if_neg (not_lt.mpr (le_of_lt hρ))]

/-- Regime `|r - s| < offsetRadius_i < r + s`: `l_ij = 1/offsetRadius_i`. -/
theorem specTerm_regime1 (X : Externals ℝ) (hX : IsRealMath X) (off s r : ℝ) (hoff : 0 < off)
    (hr : 0 < r) (h1 : off < r + s) (h2 : |r - s| < off) :
    HasDerivAt (fun ρ => specTerm X off s ρ) (-2 * t3Fn X off s r) r := by
  have hc1 : ContinuousAt (fun ρ : ℝ => ρ + s) r := by fun_prop
  have hc2 : ContinuousAt (fun ρ : ℝ => |ρ - s|) r := by fun_prop
  have hev1 : ∀ᶠ ρ in 𝓝 r, off < ρ + s := hc1.eventually (eventually_gt_nhds h1)
  have hev2 : ∀ᶠ ρ in 𝓝 r, |ρ - s| < off := hc2.eventually (eventually_lt_nhds h2)
  have hrs : 0 < r + s := lt_trans hoff h1
  have hu : HasDerivAt (fun ρ : ℝ => 1 / (ρ + s)) (-1 / (r + s) ^ 2) r := by
    have := (hasDerivAt_const r (1 : ℝ)).div ((hasDerivAt_id r).add_const s) (ne_of_gt hrs)
    convert this using 1
    simp
  have hl : HasDerivAt (fun _ : ℝ => 1 / off) 0 r := hasDerivAt_const r _
  have h := hasDerivAt_closedForm s r _ _ _ _ hl hu hr (by positivity) (by positivity)
  refine (h.congr_of_eventuallyEq ?_).congr_deriv ?_
  · filter_upwards [hev1, hev2] with ρ hρ1 hρ2
    unfold specTerm
    rw [if_pos hρ1, hX.2.2.1]
    simp only
    rw [max_eq_left (le_of_lt hρ2), if_neg, add_zero]
    rw [not_lt]
    have := neg_abs_le (ρ - s)
    linarith
  · unfold t3Fn lFn
    rw [if_pos h2, hX.2.2.1]
    generalize Real.log (1 / (r + s) / (1 / off)) = Lg
    field_simp
    ring

/-- Regime `offsetRadius_i < r - s`: `l_ij = 1/(r - s)`. -/
theorem specTerm_regime2 (X : Externals ℝ) (hX : IsRealMath X) (off s r : ℝ) (hoff : 0 < off)
    (hr : 0 < r) (h1 : off < r + s) (h2 : off < r - s) :
    HasDerivAt (fun ρ => specTerm X off s ρ) (-2 * t3Fn X off s r) r := by
  have hc1 : ContinuousAt (fun ρ : ℝ => ρ + s) r := by fun_prop
  have hc2 : ContinuousAt (fun ρ : ℝ => ρ - s) r := by fun_prop
  have hev1 : ∀ᶠ ρ in 𝓝 r, off < ρ + s := hc1.eventually (eventually_gt_nhds h1)
  have hev2 : ∀ᶠ ρ in 𝓝 r, off < ρ - s := hc2.eventually (eventually_gt_nhds h2)
  have hrs : 0 < r + s := lt_trans hoff h1
  have hrs' : 0 < r - s := lt_trans hoff h2
  have hu : HasDerivAt (fun ρ : ℝ => 1 / (ρ + s)) (-1 / (r + s) ^ 2) r := by
    have := (hasDerivAt_const r (1 : ℝ)).div ((hasDerivAt_id r).add_const s) (ne_of_gt hrs)
    convert this using 1
    simp
  have hl : HasDerivAt (fun ρ : ℝ => 1 / (ρ - s)) (-1 / (r - s) ^ 2) r := by
    have := (hasDerivAt_const r (1 : ℝ)).div ((hasDerivAt_id r).sub_const s) (ne_of_gt hrs')
    convert this using 1
    simp
  have h := hasDerivAt_closedForm s r _ _ _ _ hl hu hr (by positivity) (by positivity)
  have habs : |r - s| = r - s := abs_of_pos hrs'
  refine (h.congr_of_eventuallyEq ?_).congr_deriv ?_
  · filter_upwards [hev1, hev2] with ρ hρ1 hρ2
    unfold specTerm
    have hpos : 0 < ρ - s := lt_trans hoff hρ2
    rw [if_pos hρ1, hX.2.2.1]
    simp only
    rw [abs_of_pos hpos, max_eq_right (le_of_lt hρ2), if_neg, add_zero]
    rw [not_lt]
    linarith
  · unfold t3Fn lFn
    rw [habs, if_neg (not_lt.mpr (le_of_lt h2)), hX.2.2.1]
    generalize Real.log (1 / (r + s) / (1 / (r - s))) = Lg
    have e1 : r + s ≠ 0 := ne_of_gt hrs
    have e2 : r - s ≠ 0 := ne_of_gt hrs'
    field_simp
    ring

/-- Regime `offsetRadius_i < s - r` (atom `i` inside atom `j`): `l_ij = 1/(s - r)` and the
correction term is present. -/
theorem specTerm_regime3 (X : Externals ℝ) (hX : IsRealMath X) (off s r : ℝ) (hoff : 0 < off)
    (hr : 0 < r) (h2 : off < s - r) :
    HasDerivAt (fun ρ => specTerm X off s ρ) (-2 * t3Fn X off s r) r := by
  have h1 : off < r + s := by linarith
  have hc1 : ContinuousAt (fun ρ : ℝ => ρ + s) r := by fun_prop
  have hc2 : ContinuousAt (fun ρ : ℝ => s - ρ) r := by fun_prop
  have hev1 : ∀ᶠ ρ in 𝓝 r, off < ρ + s := hc1.eventually (eventually_gt_nhds h1)
  have hev2 : ∀ᶠ ρ in 𝓝 r, off < s - ρ := hc2.eventually (eventually_gt_nhds h2)
  have hrs : 0 < r + s := lt_trans hoff h1
  have hrs' : 0 < s - r := lt_trans hoff h2
  have hu : HasDerivAt (fun ρ : ℝ => 1 / (ρ + s)) (-1 / (r + s) ^ 2) r := by
    have := (hasDerivAt_const r (1 : ℝ)).div ((hasDerivAt_id r).add_const s) (ne_of_gt hrs)
    convert this using 1
    simp
  have hl : HasDerivAt (fun ρ : ℝ => 1 / (s - ρ)) (1 / (s - r) ^ 2) r := by
    have := (hasDerivAt_const r (1 : ℝ)).div ((hasDerivAt_id r).const_sub s) (ne_of_gt hrs')
    convert this using 1
    simp
  have h := (hasDerivAt_closedForm s r _ _ _ _ hl hu hr (by positivity) (by positivity)).add
    (((hasDerivAt_const r (1 / off)).sub hl).const_mul 2)
  have habs : |r - s| = s - r := by rw [abs_sub_comm]; exact abs_of_pos hrs'
  refine (h.congr_of_eventuallyEq ?_).congr_deriv ?_
  · filter_upwards [hev1, hev2] with ρ hρ1 hρ2
    unfold specTerm
    have hpos : 0 < s - ρ := lt_trans hoff hρ2
    have habs' : |ρ - s| = s - ρ := by rw [abs_sub_comm]; exact abs_of_pos hpos
    rw [if_pos hρ1, hX.2.2.1]
    simp only
    rw [habs', max_eq_right (le_of_lt hρ2), if_pos hρ2]
  · unfold t3Fn lFn
    rw [habs, if_neg (not_lt.mpr (le_of_lt h2)), hX.2.2.1]
    generalize Real.log (1 / (r + s) / (1 / (s - r))) = Lg
    have e1 : r + s ≠ 0 := ne_of_gt hrs
    have e2 : s - r ≠ 0 := ne_of_gt hrs'
    field_simp
    ring

/-- Derivative of the pair term of `computeBornRadii` with respect to the distance, away from the
two branch thresholds. -/
theorem hasDerivAt_specTerm (X : Externals ℝ) (hX : IsRealMath X) (off s r : ℝ) (hoff : 0 < off)
    (hr : 0 < r) (h1 : off ≠ r + s) (h2 : off ≠ |r - s|) :
    HasDerivAt (fun ρ => specTerm X off s ρ)
      (if off < r + s then -2 * t3Fn X off s r else 0) r := by
  by_cases hov : off < r + s
  · rw [if_pos hov]
    rcases lt_or_gt_of_ne h2 with h | h
    · rcases le_or_lt s r with hsr | hsr
      · rw [abs_of_nonneg (by linarith)] at h
        exact specTerm_regime2 X hX off s r hoff hr hov h
      · rw [abs_of_neg (by linarith)] at h
        exact specTerm_regime3 X hX off s r hoff hr (by linarith)
    · exact specTerm_regime1 X hX off s r hoff hr hov h
  · rw [if_neg hov]
    exact specTerm_far X off s r (lt_of_le_of_ne (not_lt.mp hov) (Ne.symm h1))

end PairTermCalculus2

end ObcSoftcore

namespace ObcSoftcore

section PathGeometry

open Filter Topology

theorem getD_pathCoords (x : List (RealVec ℝ)) (k : Nat) (c : Fin 3) (t : ℝ) (i : Nat)
    (c' : Fin 3) (hk : k < x.length) :
    (pathCoords x k c t).getD i 0 c' = if i = k ∧ c' = c then t else x.getD i 0 c' := by
  unfold pathCoords
  rw [getD_set_eq]
  by_cases hik : i = k
  · subst hik
    by_cases hc : c' = c
    · subst hc; simp [hk]
    · simp [hk, hc, Function.update_noteq hc]
  · simp [hik]

theorem pathCoords_self (x : List (RealVec ℝ)) (k : Nat) (c : Fin 3) :
    pathCoords x k c (x.getD k 0 c) = x := by
  unfold pathCoords
  rw [Function.update_eq_self]
  apply List.ext_getElem
  · simp
  · intro n h1 h2
    rw [List.getElem_set]
    split_ifs with h
    · subst h
      rw [List.getD_eq_getElem _ _ h2]
    · rfl

theorem hasDerivAt_coord (x : List (RealVec ℝ)) (k : Nat) (c : Fin 3) (i : Nat) (c' : Fin 3)
    (hk : k < x.length) (t0 : ℝ) :
    HasDerivAt (fun t => (pathCoords x k c t).getD i 0 c') (if i = k ∧ c' = c then 1 else 0)
      t0 := by
  have hf : (fun t => (pathCoords x k c t).getD i 0 c')
      = fun t => if i = k ∧ c' = c then t else x.getD i 0 c' := by
    funext t; exact getD_pathCoords x k c t i c' hk
  rw [hf]
  split_ifs
  · exact hasDerivAt_id t0
  · exact hasDerivAt_const t0 _

theorem hasDerivAt_delta (x : List (RealVec ℝ)) (k : Nat) (c : Fin 3) (i j : Nat) (c' : Fin 3)
    (hk : k < x.length) (t0 : ℝ) :
    HasDerivAt
      (fun t => (pathCoords x k c t).getD j 0 c' - (pathCoords x k c t).getD i 0 c')
      ((if j = k ∧ c' = c then 1 else 0) - (if i = k ∧ c' = c then 1 else 0)) t0 :=
  (hasDerivAt_coord x k c j c' hk t0).sub (hasDerivAt_coord x k c i c' hk t0)

theorem pairR2_nonperiodic (X : Externals ℝ) (P : ObcSoftcoreParameters ℝ)
    (hper : P.periodic = false) (y : List (RealVec ℝ)) (i j : Nat) :
    pairR2 X P y i j
      = (y.getD j 0 0 - y.getD i 0 0) * (y.getD j 0 0 - y.getD i 0 0)
        + (y.getD j 0 1 - y.getD i 0 1) * (y.getD j 0 1 - y.getD i 0 1)
        + (y.getD j 0 2 - y.getD i 0 2) * (y.getD j 0 2 - y.getD i 0 2) := by
  unfold pairR2 pairDeltaR getDeltaR
  rw [if_neg (by simp [hper])]

theorem pairComp_nonperiodic (X : Externals ℝ) (P : ObcSoftcoreParameters ℝ)
    (hper : P.periodic = false) (y : List (RealVec ℝ)) (i j : Nat) (c : Fin 3) :
    (pairDeltaR X P y i j).comp c = y.getD j 0 c - y.getD i 0 c := by
  unfold DeltaR.comp pairDeltaR getDeltaR
  rw [if_neg (by simp [hper])]
  fin_cases c <;> simp

theorem pairDist_nonperiodic (X : Externals ℝ) (hX : IsRealMath X) (P : ObcSoftcoreParameters ℝ)
    (hper : P.periodic = false) (y : List (RealVec ℝ)) (i j : Nat) :
    pairDist X P y i j = Real.sqrt (pairR2 X P y i j) := by
  unfold pairDist pairR2 pairDeltaR getDeltaR
  rw [if_neg (by simp [hper]), hX.1]

theorem pairR2_nonneg (X : Externals ℝ) (P : ObcSoftcoreParameters ℝ)
    (hper : P.periodic = false) (y : List (RealVec ℝ)) (i j : Nat) : 0 ≤ pairR2 X P y i j := by
  rw [pairR2_nonperiodic X P hper]
  exact add_nonneg (add_nonneg (mul_self_nonneg _) (mul_self_nonneg _)) (mul_self_nonneg _)

/-- Derivative of the squared distance of a pair along the path. -/
theorem hasDerivAt_pairR2 (X : Externals ℝ) (P : ObcSoftcoreParameters ℝ)
    (hper : P.periodic = false) (x : List (RealVec ℝ)) (k : Nat) (c : Fin 3) (i j : Nat)
    (hk : k < x.length) (t0 : ℝ) :
    HasDerivAt (fun t => pairR2 X P (pathCoords x k c t) i j)
      (r2Deriv X P (pathCoords x k c t0) i j k c) t0 := by
  unfold r2Deriv
  have hf : (fun t => pairR2 X P (pathCoords x k c t) i j)
      = fun t => ((pathCoords x k c t).getD j 0 0 - (pathCoords x k c t).getD i 0 0)
          * ((pathCoords x k c t).getD j 0 0 - (pathCoords x k c t).getD i 0 0)
        + ((pathCoords x k c t).getD j 0 1 - (pathCoords x k c t).getD i 0 1)
          * ((pathCoords x k c t).getD j 0 1 - (pathCoords x k c t).getD i 0 1)
        + ((pathCoords x k c t).getD j 0 2 - (pathCoords x k c t).getD i 0 2)
          * ((pathCoords x k c t).getD j 0 2 - (pathCoords x k c t).getD i 0 2) := by
    funext t; exact pairR2_nonperiodic X P hper _ i j
  rw [hf, pairComp_nonperiodic X P hper]
  have h0 := hasDerivAt_delta x k c i j 0 hk t0
  have h1 := hasDerivAt_delta x k c i j 1 hk t0
  have h2 := hasDerivAt_delta x k c i j 2 hk t0
  refine (((h0.mul h0).add (h1.mul h1)).add (h2.mul h2)).congr_deriv ?_
  fin_cases c <;> by_cases hj : j = k <;> by_cases hi : i = k <;> simp [hj, hi] <;> ring

/-- Derivative of the distance of a pair along the path, for a pair at positive distance. -/
theorem hasDerivAt_pairDist (X : Externals ℝ) (hX : IsRealMath X) (P : ObcSoftcoreParameters ℝ)
    (hper : P.periodic = false) (x : List (RealVec ℝ)) (k : Nat) (c : Fin 3) (i j : Nat)
    (hk : k < x.length) (t0 : ℝ) (hr : 0 < pairDist X P (pathCoords x k c t0) i j) :
    HasDerivAt (fun t => pairDist X P (pathCoords x k c t) i j)
      (distDeriv X P (pathCoords x k c t0) i j k c) t0 := by
  have hf : (fun t => pairDist X P (pathCoords x k c t) i j)
      = fun t => Real.sqrt (pairR2 X P (pathCoords x k c t) i j) := by
    funext t; exact pairDist_nonperiodic X hX P hper _ i j
  have hr2 : pairR2 X P (pathCoords x k c t0) i j ≠ 0 := by
    intro h0
    rw [pairDist_nonperiodic X hX P hper, h0, Real.sqrt_zero] at hr
    exact lt_irrefl _ hr
  rw [hf]
  refine ((hasDerivAt_pairR2 X P hper x k c i j hk t0).sqrt hr2).congr_deriv ?_
  unfold distDeriv r2Deriv
  rw [pairDist_nonperiodic X hX P hper]
  have hs : Real.sqrt (pairR2 X P (pathCoords x k c t0) i j) ≠ 0 := by
    rw [← pairDist_nonperiodic X hX P hper]; exact ne_of_gt hr
  field_simp
  ring

end PathGeometry

end ObcSoftcore

namespace ObcSoftcore

section BornRadiusCalculus

open Filter Topology

theorem not_cutoffSkips (P : ObcSoftcoreParameters ℝ) (hcut : P.useCutoff = false) (r : ℝ) :
    ¬ cutoffSkips P r := by
  unfold cutoffSkips
  rw [hcut]
  simp

theorem specScaledSum_noCutoff (X : Externals ℝ) (P : ObcSoftcoreParameters ℝ)
    (hcut : P.useCutoff = false) (y : List (RealVec ℝ)) (i : Nat) :
    specScaledSum X P y i
      = P.nonPolarScaleFactors.getD i 0 * (offsetRadius P i / 2)
        * ∑ j ∈ Finset.range P.numberOfAtoms,
            if j ≠ i then
              P.nonPolarScaleFactors.getD j 0
                * specTerm X (offsetRadius P i) (scaledRadius P j) (pairDist X P y i j)
            else 0 := by
  unfold specScaledSum
  rw [Finset.sum_filter]
  congr 1
  apply Finset.sum_congr rfl
  intro j _
  by_cases hji : j = i
  · simp [hji]
  · simp [hji, not_cutoffSkips P hcut]

/-- Derivative of the scaled sum of atom `i` along the path. -/
theorem hasDerivAt_specScaledSum (X : Externals ℝ) (hX : IsRealMath X)
    (P : ObcSoftcoreParameters ℝ) (hper : P.periodic = false) (hcut : P.useCutoff = false)
    (hval : ValidRadii P) (x : List (RealVec ℝ)) (k : Nat) (c : Fin 3) (hk : k < x.length)
    (t0 : ℝ) (hoff : OffThreshold X P (pathCoords x k c t0)) (i : Nat)
    (hi : i < P.numberOfAtoms) :
    HasDerivAt (fun t => specScaledSum X P (pathCoords x k c t) i)
      (scaledSumDeriv X P (pathCoords x k c t0) i k c) t0 := by
  have hf : (fun t => specScaledSum X P (pathCoords x k c t) i)
      = fun t => P.nonPolarScaleFactors.getD i 0 * (offsetRadius P i / 2)
        * ∑ j ∈ Finset.range P.numberOfAtoms,
            if j ≠ i then
              P.nonPolarScaleFactors.getD j 0
                * specTerm X (offsetRadius P i) (scaledRadius P j)
                    (pairDist X P (pathCoords x k c t) i j)
            else 0 := by
    funext t; exact specScaledSum_noCutoff X P hcut _ i
  rw [hf]
  unfold scaledSumDeriv
  apply HasDerivAt.const_mul
  apply HasDerivAt.sum
  intro j hj
  by_cases hji : j = i
  · simp only [hji, ne_eq, not_true_eq_false, if_false]
    exact hasDerivAt_const t0 _
  · simp only [ne_eq, hji, not_false_eq_true, if_true]
    obtain ⟨hr, h1, h2⟩ := hoff i j hi (Finset.mem_range.mp hj) (fun h => hji h.symm)
    have ho : 0 < offsetRadius P i := by
      unfold offsetRadius; linarith [hval.2 i hi]
    have hterm := hasDerivAt_specTerm X hX (offsetRadius P i) (scaledRadius P j)
      (pairDist X P (pathCoords x k c t0) i j) ho hr h1 h2
    have hdist := hasDerivAt_pairDist X hX P hper x k c i j hk t0 hr
    exact (HasDerivAt.comp t0 hterm hdist).const_mul _

theorem bornDenominator_pos (X : Externals ℝ) (hX : IsRealMath X) (P : ObcSoftcoreParameters ℝ)
    (hval : ValidRadii P) (y : List (RealVec ℝ)) (i : Nat) (hi : i < P.numberOfAtoms) :
    0 < 1 / offsetRadius P i - specTanh X P y i / P.atomicRadii.getD i 0 := by
  have hoff := hval.2 i hi
  have hrad : 0 < P.atomicRadii.getD i 0 := lt_of_le_of_lt hval.1 hoff
  have ho : 0 < offsetRadius P i := by unfold offsetRadius; linarith
  have hle : offsetRadius P i ≤ P.atomicRadii.getD i 0 := by unfold offsetRadius; linarith [hval.1]
  have h1 : specTanh X P y i / P.atomicRadii.getD i 0 < 1 / P.atomicRadii.getD i 0 := by
    apply div_lt_div_of_pos_right _ hrad
    unfold specTanh
    rw [hX.2.2.2.1]
    exact real_tanh_lt_one _
  have h2 : 1 / P.atomicRadii.getD i 0 ≤ 1 / offsetRadius P i :=
    one_div_le_one_div_of_le ho hle
  linarith

theorem specBornRadius_pos_real (X : Externals ℝ) (hX : IsRealMath X)
    (P : ObcSoftcoreParameters ℝ) (hval : ValidRadii P) (y : List (RealVec ℝ)) (i : Nat)
    (hi : i < P.numberOfAtoms) : 0 < specBornRadius X P y i := by
  unfold specBornRadius
  exact one_div_pos.mpr (bornDenominator_pos X hX P hval y i hi)

/-- Derivative of the OBC map `s ↦ 1/(1/off - tanh(alpha*s - beta*s^2 + gamma*s^3)/rad)` along a
differentiable `s`. -/
theorem hasDerivAt_obcMap (off rad al be ga : ℝ) (s : ℝ → ℝ) (s' t0 : ℝ)
    (hs : HasDerivAt s s' t0) (hoff : off ≠ 0) (hrad : rad ≠ 0)
    (hden : 1 / off
      - Real.tanh (al * s t0 - be * s t0 ^ 2 + ga * s t0 ^ 3) / rad ≠ 0) :
    HasDerivAt (fun t => 1 / (1 / off - Real.tanh (al * s t - be * s t ^ 2 + ga * s t ^ 3) / rad))
      ((1 / (1 / off - Real.tanh (al * s t0 - be * s t0 ^ 2 + ga * s t0 ^ 3) / rad)) ^ 2
        * ((1 - Real.tanh (al * s t0 - be * s t0 ^ 2 + ga * s t0 ^ 3) ^ 2) * off
            * (al - 2 * be * s t0 + 3 * ga * s t0 ^ 2) / rad) / off * s') t0 := by
  have hpoly := ((hs.const_mul al).sub ((hs.pow 2).const_mul be)).add ((hs.pow 3).const_mul ga)
  have htanh := HasDerivAt.comp t0 (real_hasDerivAt_tanh _) hpoly
  have hB := (hasDerivAt_const t0 (1 : ℝ)).div
    ((hasDerivAt_const t0 (1 / off)).sub (htanh.div_const rad)) hden
  refine hB.congr_deriv ?_
  simp only [Function.comp_apply]
  clear hB htanh hpoly
  generalize Real.tanh (al * s t0 - be * s t0 ^ 2 + ga * s t0 ^ 3) = th at *
  generalize s t0 = s0 at *
  generalize 1 / off - th / rad = den at *
  field_simp
  ring

/-- Derivative of the Born radius of atom `i` along the path: the chain value times the derivative
of the scaled sum. -/
theorem hasDerivAt_specBornRadius (X : Externals ℝ) (hX : IsRealMath X)
    (P : ObcSoftcoreParameters ℝ) (hper : P.periodic = false) (hcut : P.useCutoff = false)
    (hval : ValidRadii P) (x : List (RealVec ℝ)) (k : Nat) (c : Fin 3) (hk : k < x.length)
    (t0 : ℝ) (hoff : OffThreshold X P (pathCoords x k c t0)) (i : Nat)
    (hi : i < P.numberOfAtoms) :
    HasDerivAt (fun t => specBornRadius X P (pathCoords x k c t) i)
      (bornRadiusDeriv X P (pathCoords x k c t0) i k c) t0 := by
  have hs := hasDerivAt_specScaledSum X hX P hper hcut hval x k c hk t0 hoff i hi
  have hden := bornDenominator_pos X hX P hval (pathCoords x k c t0) i hi
  have hoffi := hval.2 i hi
  have hrad : 0 < P.atomicRadii.getD i 0 := lt_of_le_of_lt hval.1 hoffi
  have ho : 0 < offsetRadius P i := by unfold offsetRadius; linarith
  unfold specTanh at hden
  rw [hX.2.2.2.1] at hden
  have h := hasDerivAt_obcMap (offsetRadius P i) (P.atomicRadii.getD i 0) P.alphaObc P.betaObc
    P.gammaObc _ _ t0 hs (ne_of_gt ho) (ne_of_gt hrad) (ne_of_gt hden)
  have hf : (fun t => specBornRadius X P (pathCoords x k c t) i)
      = fun t => 1 / (1 / offsetRadius P i
          - Real.tanh (P.alphaObc * specScaledSum X P (pathCoords x k c t) i
              - P.betaObc * specScaledSum X P (pathCoords x k c t) i ^ 2
              + P.gammaObc * specScaledSum X P (pathCoords x k c t) i ^ 3)
            / P.atomicRadii.getD i 0) := by
    funext t
    unfold specBornRadius specTanh
    rw [hX.2.2.2.1]
  rw [hf]
  refine h.congr_deriv ?_
  unfold bornRadiusDeriv specBornRadius specObcChain specTanh
  rw [hX.2.2.2.1]

end BornRadiusCalculus

end ObcSoftcore

namespace ObcSoftcore

section EnergyCalculus

open Filter Topology

/-- Derivative of the pair energy `Gpol` along differentiable `r2` and `alpha2_ij`: the two
partial derivatives computed by the first main loop. -/
theorem hasDerivAt_gpolFn (X : Externals ℝ) (hX : IsRealMath X) (C : ℝ) (ρ a : ℝ → ℝ)
    (ρ' a' t0 : ℝ) (hρ : HasDerivAt ρ ρ' t0) (ha : HasDerivAt a a' t0) (hρ0 : 0 ≤ ρ t0)
    (ha0 : 0 < a t0) :
    HasDerivAt (fun t => gpolFn X C (ρ t) (a t))
      (dGdrFn X C (ρ t0) (a t0) * (ρ' / 2) + dGdaFn X C (ρ t0) (a t0) * a') t0 := by
  have ha0' : a t0 ≠ 0 := ne_of_gt ha0
  have h4a : (4 * a t0) ≠ 0 := by positivity
  have hu := (hρ.div (ha.const_mul 4) h4a).neg.exp
  have hden := hρ.add (ha.mul hu)
  have hdpos : 0 < ρ t0 + a t0 * Real.exp (-(ρ t0 / (4 * a t0))) := by positivity
  have hsqrt := hden.sqrt (ne_of_gt hdpos)
  have hspos : 0 < Real.sqrt (ρ t0 + a t0 * Real.exp (-(ρ t0 / (4 * a t0)))) :=
    Real.sqrt_pos.mpr hdpos
  have hG := (hasDerivAt_const t0 C).div hsqrt (ne_of_gt hspos)
  have hf : (fun t => gpolFn X C (ρ t) (a t))
      = fun t => C / Real.sqrt (ρ t + a t * Real.exp (-(ρ t / (4 * a t)))) := by
    funext t
    unfold gpolFn
    rw [hX.1, hX.2.1]
  rw [hf]
  refine hG.congr_deriv ?_
  unfold dGdrFn dGdaFn gpolFn
  rw [hX.1, hX.2.1]
  have hS2 : ρ t0 + a t0 * Real.exp (-(ρ t0 / (4 * a t0)))
      = Real.sqrt (ρ t0 + a t0 * Real.exp (-(ρ t0 / (4 * a t0)))) ^ 2 :=
    (Real.sq_sqrt (le_of_lt hdpos)).symm
  clear hG hsqrt hden hu hf
  generalize Real.sqrt (ρ t0 + a t0 * Real.exp (-(ρ t0 / (4 * a t0)))) = S at *
  generalize Real.exp (-(ρ t0 / (4 * a t0))) = e at *
  generalize ρ t0 = r2 at *
  generalize a t0 = a0 at *
  rw [hS2]
  have hS : S ≠ 0 := ne_of_gt hspos
  field_simp
  ring

end EnergyCalculus

end ObcSoftcore

namespace ObcSoftcore

section EnergyAlongPath

open Filter Topology

/-- The returned energy written with the specification Born radii, when no pair is skipped by the
cutoff and the radii are valid. -/
theorem energyClosed_real (X : Externals ℝ) (hX : IsRealMath X) (E : CpuObcSoftcore ℝ)
    (hcut : E.obcSoftcoreParameters.useCutoff = false) (hval : ValidRadii E.obcSoftcoreParameters)
    (y : List (RealVec ℝ)) (q : List ℝ) :
    energyClosed X E y q
      = (if E.includeAceApproximation ≠ 0 then
          ∑ i ∈ Finset.range E.obcSoftcoreParameters.numberOfAtoms,
            saTermOf X E.obcSoftcoreParameters i (specBornRadius X E.obcSoftcoreParameters y i)
        else 0)
        + ∑ i ∈ Finset.range E.obcSoftcoreParameters.numberOfAtoms,
            ∑ j ∈ Finset.Ico i E.obcSoftcoreParameters.numberOfAtoms,
              if i ≠ j then
                gpolFn X (pairCharge E.obcSoftcoreParameters q i j)
                  (pairR2 X E.obcSoftcoreParameters y i j)
                  (specBornRadius X E.obcSoftcoreParameters y i
                    * specBornRadius X E.obcSoftcoreParameters y j)
              else
                gpolFn X (pairCharge E.obcSoftcoreParameters q i j)
                  (pairR2 X E.obcSoftcoreParameters y i j)
                  (specBornRadius X E.obcSoftcoreParameters y i
                    * specBornRadius X E.obcSoftcoreParameters y j) * (1 / 2) := by
  unfold energyClosed aceEnergy
  congr 1
  · split_ifs
    · apply Finset.sum_congr rfl
      intro i hi
      have hi' := Finset.mem_range.mp hi
      rw [if_pos (by rw [bornRadiiOf_getD X E y i hi']
                     exact specBornRadius_pos_real X hX _ hval y i hi')]
      unfold saTerm saTermOf
      rw [bornRadiiOf_getD X E y i hi']
    · rfl
  · apply Finset.sum_congr rfl
    intro i hi
    apply Finset.sum_congr rfl
    intro j hj
    unfold energyInc
    rw [if_neg (not_cutoffSkips _ hcut _), bornRadiiOf_getD X E y i (Finset.mem_range.mp hi),
      bornRadiiOf_getD X E y j (Finset.mem_Ico.mp hj).2]

/-- Derivative of the nonpolar term of one atom along a differentiable positive Born radius. -/
theorem hasDerivAt_saTermOf (X : Externals ℝ) (hX : IsRealMath X) (P : ObcSoftcoreParameters ℝ)
    (i : Nat) (b : ℝ → ℝ) (b' t0 : ℝ) (hb : HasDerivAt b b' t0) (hb0 : 0 < b t0) :
    HasDerivAt (fun t => saTermOf X P i (b t)) (-6 * saTermOf X P i (b t0) / b t0 * b') t0 := by
  have hpow : ∀ x : ℝ, X.pow x 6 = x ^ 6 := by
    intro x
    rw [hX.2.2.2.2]
    show x ^ (6 : ℝ) = x ^ 6
    exact_mod_cast Real.rpow_natCast x 6
  have hf : (fun t => saTermOf X P i (b t))
      = fun t => P.nonPolarScaleFactors.getD i 0 * P.pi4Asolv
          * (P.atomicRadii.getD i 0 + P.probeRadius) * (P.atomicRadii.getD i 0 + P.probeRadius)
          * (P.atomicRadii.getD i 0 / b t) ^ 6 := by
    funext t
    unfold saTermOf
    rw [hpow]
  rw [hf]
  have h := ((((hasDerivAt_const t0 (P.atomicRadii.getD i 0)).div hb (ne_of_gt hb0)).pow 6).const_mul
    (P.nonPolarScaleFactors.getD i 0 * P.pi4Asolv
      * (P.atomicRadii.getD i 0 + P.probeRadius) * (P.atomicRadii.getD i 0 + P.probeRadius)))
  refine h.congr_deriv ?_
  unfold saTermOf
  rw [hpow]
  have hb0' := ne_of_gt hb0
  generalize b t0 = b0 at *
  field_simp
  ring

/-- Derivative of the returned energy along the path. -/
theorem hasDerivAt_energyClosed (X : Externals ℝ) (hX : IsRealMath X) (E : CpuObcSoftcore ℝ)
    (hper : E.obcSoftcoreParameters.periodic = false)
    (hcut : E.obcSoftcoreParameters.useCutoff = false) (hval : ValidRadii E.obcSoftcoreParameters)
    (x : List (RealVec ℝ)) (q : List ℝ) (k : Nat) (c : Fin 3) (hk : k < x.length) (t0 : ℝ)
    (hoff : OffThreshold X E.obcSoftcoreParameters (pathCoords x k c t0)) :
    HasDerivAt (fun t => energyClosed X E (pathCoords x k c t) q)
      (energyDeriv X E (pathCoords x k c t0) q k c) t0 := by
  have hf : (fun t => energyClosed X E (pathCoords x k c t) q) = fun t =>
      (if E.includeAceApproximation ≠ 0 then
          ∑ i ∈ Finset.range E.obcSoftcoreParameters.numberOfAtoms,
            saTermOf X E.obcSoftcoreParameters i
              (specBornRadius X E.obcSoftcoreParameters (pathCoords x k c t) i)
        else 0)
        + ∑ i ∈ Finset.range E.obcSoftcoreParameters.numberOfAtoms,
            ∑ j ∈ Finset.Ico i E.obcSoftcoreParameters.numberOfAtoms,
              if i ≠ j then
                gpolFn X (pairCharge E.obcSoftcoreParameters q i j)
                  (pairR2 X E.obcSoftcoreParameters (pathCoords x k c t) i j)
                  (specBornRadius X E.obcSoftcoreParameters (pathCoords x k c t) i
                    * specBornRadius X E.obcSoftcoreParameters (pathCoords x k c t) j)
              else
                gpolFn X (pairCharge E.obcSoftcoreParameters q i j)
                  (pairR2 X E.obcSoftcoreParameters (pathCoords x k c t) i j)
                  (specBornRadius X E.obcSoftcoreParameters (pathCoords x k c t) i
                    * specBornRadius X E.obcSoftcoreParameters (pathCoords x k c t) j)
                  * (1 / 2) := by
    funext t
    exact energyClosed_real X hX E hcut hval _ q
  rw [hf]
  unfold energyDeriv
  have hB : ∀ i, i < E.obcSoftcoreParameters.numberOfAtoms →
      HasDerivAt (fun t => specBornRadius X E.obcSoftcoreParameters (pathCoords x k c t) i)
        (bornRadiusDeriv X E.obcSoftcoreParameters (pathCoords x k c t0) i k c) t0 :=
    fun i hi => hasDerivAt_specBornRadius X hX _ hper hcut hval x k c hk t0 hoff i hi
  have hBpos : ∀ i, i < E.obcSoftcoreParameters.numberOfAtoms →
      0 < specBornRadius X E.obcSoftcoreParameters (pathCoords x k c t0) i :=
    fun i hi => specBornRadius_pos_real X hX _ hval _ i hi
  apply HasDerivAt.add
  · split_ifs
    · apply HasDerivAt.sum
      intro i hi
      exact hasDerivAt_saTermOf X hX _ i _ _ t0 (hB i (Finset.mem_range.mp hi))
        (hBpos i (Finset.mem_range.mp hi))
    · exact hasDerivAt_const t0 _
  · apply HasDerivAt.sum
    intro i hi
    apply HasDerivAt.sum
    intro j hj
    have hi' := Finset.mem_range.mp hi
    have hj' := (Finset.mem_Ico.mp hj).2
    have hG := hasDerivAt_gpolFn X hX (pairCharge E.obcSoftcoreParameters q i j) _ _ _ _ t0
      (hasDerivAt_pairR2 X E.obcSoftcoreParameters hper x k c i j hk t0)
      ((hB i hi').mul (hB j hj')) (pairR2_nonneg X _ hper _ i j)
      (mul_pos (hBpos i hi') (hBpos j hj'))
    unfold pairEnergyDeriv
    split_ifs
    · exact hG
    · exact hG.mul_const (1 / 2)

end EnergyAlongPath

end ObcSoftcore

namespace ObcSoftcore

section ForceMatchesGradient

/-- What the inner loop of the second main loop adds to `inputForces[k][c]` for one `i`, when the
Born-force entry of atom `i` is the raw one times `bornRadii[i]^2 * obcChain[i]`: minus the raw
entry times the derivative of the Born radius. -/
theorem chainForceInc_sum_j (X : Externals ℝ) (P : ObcSoftcoreParameters ℝ)
    (hcut : P.useCutoff = false) (x : List (RealVec ℝ)) (bf : List ℝ) (i k : Nat) (c : Fin 3)
    (raw : ℝ)
    (hbf : bf.getD i 0
      = raw * (specBornRadius X P x i * specBornRadius X P x i * specObcChain X P x i))
    (ho : offsetRadius P i ≠ 0) :
    ∑ j ∈ Finset.range P.numberOfAtoms, chainForceInc X P x bf i j k c
      = -(raw * bornRadiusDeriv X P x i k c) := by
  unfold bornRadiusDeriv scaledSumDeriv
  rw [Finset.mul_sum, Finset.mul_sum, Finset.mul_sum, ← Finset.sum_neg_distrib]
  apply Finset.sum_congr rfl
  intro j _
  unfold chainForceInc
  by_cases hji : j = i
  · simp [hji]
  · simp only [ne_eq, hji, not_false_eq_true, not_cutoffSkips P hcut, true_and, if_true]
    by_cases hov : offsetRadius P i < pairDist X P x i j + scaledRadius P j
    · simp only [hov, if_true]
      unfold chainDe distDeriv
      rw [hbf]
      have e1 : (if k = j then (pairDeltaR X P x i j).comp c
            * (raw * (specBornRadius X P x i * specBornRadius X P x i * specObcChain X P x i)
              * (t3Fn X (offsetRadius P i) (scaledRadius P j) (pairDist X P x i j)
                * (P.nonPolarScaleFactors.getD i 0 * P.nonPolarScaleFactors.getD j 0))
              * (1 / pairDist X P x i j)) else 0)
          = (if j = k then 1 else 0) * ((pairDeltaR X P x i j).comp c
            * (raw * (specBornRadius X P x i * specBornRadius X P x i * specObcChain X P x i)
              * (t3Fn X (offsetRadius P i) (scaledRadius P j) (pairDist X P x i j)
                * (P.nonPolarScaleFactors.getD i 0 * P.nonPolarScaleFactors.getD j 0))
              * (1 / pairDist X P x i j))) := by
        by_cases h : k = j
        · simp [h]
        · have h' : ¬ j = k := fun e => h e.symm
          simp [h, h']
      have e2 : (if k = i then (pairDeltaR X P x i j).comp c
            * (raw * (specBornRadius X P x i * specBornRadius X P x i * specObcChain X P x i)
              * (t3Fn X (offsetRadius P i) (scaledRadius P j) (pairDist X P x i j)
                * (P.nonPolarScaleFactors.getD i 0 * P.nonPolarScaleFactors.getD j 0))
              * (1 / pairDist X P x i j)) else 0)
          = (if i = k then 1 else 0) * ((pairDeltaR X P x i j).comp c
            * (raw * (specBornRadius X P x i * specBornRadius X P x i * specObcChain X P x i)
              * (t3Fn X (offsetRadius P i) (scaledRadius P j) (pairDist X P x i j)
                * (P.nonPolarScaleFactors.getD i 0 * P.nonPolarScaleFactors.getD j 0))
              * (1 / pairDist X P x i j))) := by
        by_cases h : k = i
        · simp [h]
        · have h' : ¬ i = k := fun e => h e.symm
          simp [h, h']
      rw [e1, e2]
      generalize (if j = k then (1 : ℝ) else 0) = dj
      generalize (if i = k then (1 : ℝ) else 0) = di
      simp only [one_div, div_eq_mul_inv]
      generalize (pairDist X P x i j)⁻¹ = ri
      generalize t3Fn X (offsetRadius P i) (scaledRadius P j) (pairDist X P x i j) = t3
      generalize offsetRadius P i = off at *
      clear e1 e2
      field_simp
      ring
    · simp only [hov, if_false, zero_mul, mul_zero, neg_zero]

/-- The direct-force increments of the first main loop are minus the part of the pair-energy
derivative that goes through `r2`. -/
theorem directForceInc_eq (X : Externals ℝ) (P : ObcSoftcoreParameters ℝ)
    (hcut : P.useCutoff = false) (x : List (RealVec ℝ)) (q B : List ℝ) (i j k : Nat)
    (c : Fin 3) :
    directForceInc X P x q B i j k c
      = -(if i ≠ j then
            dGdrFn X (pairCharge P q i j) (pairR2 X P x i j) (B.getD i 0 * B.getD j 0)
              * (r2Deriv X P x i j k c / 2)
          else
            dGdrFn X (pairCharge P q i j) (pairR2 X P x i j) (B.getD i 0 * B.getD j 0)
              * (r2Deriv X P x i j k c / 2) * (1 / 2)) := by
  unfold directForceInc r2Deriv
  rw [if_neg (not_cutoffSkips P hcut _)]
  by_cases hij : i = j
  · subst hij
    simp
  · simp only [ne_eq, hij, not_false_eq_true, if_true]
    by_cases hki : k = i <;> by_cases hkj : k = j
    · exact absurd (hki.symm.trans hkj) hij
    · have h1 : i = k := hki.symm
      have h2 : ¬ j = k := fun e => hkj e.symm
      simp only [hki, if_true, h2]
      subst h1
      simp [hkj, h2, hij]
      ring
    · have h1 : j = k := hkj.symm
      have h2 : ¬ i = k := fun e => hki e.symm
      subst h1
      simp [hki, h2, hij]
      ring
    · have h1 : ¬ j = k := fun e => hkj e.symm
      have h2 : ¬ i = k := fun e => hki e.symm
      simp [hki, hkj, h1, h2]

/-- Summing a Born-radius derivative against what one pass `(a, b)` of the first main loop adds
to the Born-force array gives the part of the pair-energy derivative that goes through the Born
radii. -/
theorem bornForceInc_sum (X : Externals ℝ) (P : ObcSoftcoreParameters ℝ)
    (hcut : P.useCutoff = false) (x : List (RealVec ℝ)) (q B : List ℝ) (a b : Nat)
    (ha : a < P.numberOfAtoms) (hb : b < P.numberOfAtoms) (Bd : Nat → ℝ) :
    ∑ i ∈ Finset.range P.numberOfAtoms, bornForceInc X P x q B a b i * Bd i
      = if a ≠ b then
          dGdaFn X (pairCharge P q a b) (pairR2 X P x a b) (B.getD a 0 * B.getD b 0)
            * (Bd a * B.getD b 0 + B.getD a 0 * Bd b)
        else
          dGdaFn X (pairCharge P q a b) (pairR2 X P x a b) (B.getD a 0 * B.getD b 0)
            * (Bd a * B.getD b 0 + B.getD a 0 * Bd b) * (1 / 2) := by
  unfold bornForceInc
  simp only [if_neg (not_cutoffSkips P hcut _), add_mul, Finset.sum_add_distrib, ite_mul,
    zero_mul]
  by_cases hab : a = b
  · subst hab
    simp only [ne_eq, not_true_eq_false, false_and, if_false, Finset.sum_const_zero, zero_add]
    rw [Finset.sum_ite_eq' (Finset.range P.numberOfAtoms) a]
    simp only [Finset.mem_range, ha, if_true]
    ring
  · simp only [ne_eq, hab, not_false_eq_true, true_and, if_true]
    rw [Finset.sum_ite_eq' (Finset.range P.numberOfAtoms) b,
      Finset.sum_ite_eq' (Finset.range P.numberOfAtoms) a]
    simp only [Finset.mem_range, ha, hb, if_true]
    ring

end ForceMatchesGradient

end ObcSoftcore

namespace ObcSoftcore

section ForceMatchesGradient2

theorem scaledBornForceList_getD (X : Externals ℝ) (E : CpuObcSoftcore ℝ) (x : List (RealVec ℝ))
    (q : List ℝ) (i : Nat) (hi : i < E.obcSoftcoreParameters.numberOfAtoms)
    (hchain : E.obcChain.length = E.obcSoftcoreParameters.numberOfAtoms) :
    (scaledBornForceList X E x q).getD i 0
      = rawBornForce X E x q i
        * (specBornRadius X E.obcSoftcoreParameters x i
            * specBornRadius X E.obcSoftcoreParameters x i
            * specObcChain X E.obcSoftcoreParameters x i) := by
  unfold scaledBornForceList
  rw [List.getD_eq_getElem _ _ (by simpa using hi)]
  simp only [List.getElem_map, List.getElem_range]
  rw [bornRadiiOf_getD X E x i hi, engineAfter_obcChain_getD X E x i hi (hchain ▸ hi)]

/-- The increment the routine applies to `inputForces[k][c]` is minus the closed form of the
partial derivative of the returned energy. -/
theorem energyDeriv_eq_neg_forceIncrement (X : Externals ℝ) (hX : IsRealMath X)
    (E : CpuObcSoftcore ℝ) (hcut : E.obcSoftcoreParameters.useCutoff = false)
    (hval : ValidRadii E.obcSoftcoreParameters)
    (hchain : E.obcChain.length = E.obcSoftcoreParameters.numberOfAtoms)
    (x : List (RealVec ℝ)) (q : List ℝ) (k : Nat) (c : Fin 3) :
    energyDeriv X E x q k c = -forceIncrement X E x q k c := by
  have hBget : ∀ i, i < E.obcSoftcoreParameters.numberOfAtoms →
      (bornRadiiOf X E x).getD i 0 = specBornRadius X E.obcSoftcoreParameters x i :=
    fun i hi => bornRadiiOf_getD X E x i hi
  have hBpos : ∀ i, i < E.obcSoftcoreParameters.numberOfAtoms →
      0 < specBornRadius X E.obcSoftcoreParameters x i :=
    fun i hi => specBornRadius_pos_real X hX _ hval x i hi
  have hD1 : ∑ i ∈ Finset.range E.obcSoftcoreParameters.numberOfAtoms,
      ∑ j ∈ Finset.Ico i E.obcSoftcoreParameters.numberOfAtoms,
        directForceInc X E.obcSoftcoreParameters x q (bornRadiiOf X E x) i j k c
      = -∑ i ∈ Finset.range E.obcSoftcoreParameters.numberOfAtoms,
          ∑ j ∈ Finset.Ico i E.obcSoftcoreParameters.numberOfAtoms,
            if i ≠ j then
              dGdrFn X (pairCharge E.obcSoftcoreParameters q i j)
                  (pairR2 X E.obcSoftcoreParameters x i j)
                  (specBornRadius X E.obcSoftcoreParameters x i
                    * specBornRadius X E.obcSoftcoreParameters x j)
                * (r2Deriv X E.obcSoftcoreParameters x i j k c / 2)
            else
              dGdrFn X (pairCharge E.obcSoftcoreParameters q i j)
                  (pairR2 X E.obcSoftcoreParameters x i j)
                  (specBornRadius X E.obcSoftcoreParameters x i
                    * specBornRadius X E.obcSoftcoreParameters x j)
                * (r2Deriv X E.obcSoftcoreParameters x i j k c / 2) * (1 / 2) := by
    rw [← Finset.sum_neg_distrib]
    apply Finset.sum_congr rfl
    intro i hi
    rw [← Finset.sum_neg_distrib]
    apply Finset.sum_congr rfl
    intro j hj
    rw [directForceInc_eq X _ hcut, hBget i (Finset.mem_range.mp hi),
      hBget j (Finset.mem_Ico.mp hj).2]
  have hoff : ∀ i, i < E.obcSoftcoreParameters.numberOfAtoms →
      offsetRadius E.obcSoftcoreParameters i ≠ 0 := by
    intro i hi
    have := hval.2 i hi
    unfold offsetRadius
    intro h
    linarith
  have hD2 : ∑ i ∈ Finset.range E.obcSoftcoreParameters.numberOfAtoms,
      ∑ j ∈ Finset.range E.obcSoftcoreParameters.numberOfAtoms,
        chainForceInc X E.obcSoftcoreParameters x (scaledBornForceList X E x q) i j k c
      = -∑ i ∈ Finset.range E.obcSoftcoreParameters.numberOfAtoms,
          rawBornForce X E x q i * bornRadiusDeriv X E.obcSoftcoreParameters x i k c := by
    rw [← Finset.sum_neg_distrib]
    apply Finset.sum_congr rfl
    intro i hi
    exact chainForceInc_sum_j X _ hcut x _ i k c _
      (scaledBornForceList_getD X E x q i (Finset.mem_range.mp hi) hchain)
      (hoff i (Finset.mem_range.mp hi))
  have hraw : ∑ i ∈ Finset.range E.obcSoftcoreParameters.numberOfAtoms,
      rawBornForce X E x q i * bornRadiusDeriv X E.obcSoftcoreParameters x i k c
      = (if E.includeAceApproximation ≠ 0 then
          ∑ i ∈ Finset.range E.obcSoftcoreParameters.numberOfAtoms,
            -6 * saTermOf X E.obcSoftcoreParameters i
                (specBornRadius X E.obcSoftcoreParameters x i)
              / specBornRadius X E.obcSoftcoreParameters x i
              * bornRadiusDeriv X E.obcSoftcoreParameters x i k c
        else 0)
        + ∑ a ∈ Finset.range E.obcSoftcoreParameters.numberOfAtoms,
            ∑ b ∈ Finset.Ico a E.obcSoftcoreParameters.numberOfAtoms,
              if a ≠ b then
                dGdaFn X (pairCharge E.obcSoftcoreParameters q a b)
                    (pairR2 X E.obcSoftcoreParameters x a b)
                    (specBornRadius X E.obcSoftcoreParameters x a
                      * specBornRadius X E.obcSoftcoreParameters x b)
                  * (bornRadiusDeriv X E.obcSoftcoreParameters x a k c
                      * specBornRadius X E.obcSoftcoreParameters x b
                    + specBornRadius X E.obcSoftcoreParameters x a
                      * bornRadiusDeriv X E.obcSoftcoreParameters x b k c)
              else
                dGdaFn X (pairCharge E.obcSoftcoreParameters q a b)
                    (pairR2 X E.obcSoftcoreParameters x a b)
                    (specBornRadius X E.obcSoftcoreParameters x a
                      * specBornRadius X E.obcSoftcoreParameters x b)
                  * (bornRadiusDeriv X E.obcSoftcoreParameters x a k c
                      * specBornRadius X E.obcSoftcoreParameters x b
                    + specBornRadius X E.obcSoftcoreParameters x a
                      * bornRadiusDeriv X E.obcSoftcoreParameters x b k c) * (1 / 2) := by
    unfold rawBornForce
    simp only [add_mul, Finset.sum_add_distrib]
    congr 1
    · by_cases hflag : E.includeAceApproximation = 0
      · simp [hflag]
      · simp only [ne_eq, hflag, not_false_eq_true, true_and, if_true]
        apply Finset.sum_congr rfl
        intro i hi
        have hi' := Finset.mem_range.mp hi
        rw [hBget i hi', if_pos (hBpos i hi')]
        unfold saTerm saTermOf
        rw [hBget i hi']
    · simp only [Finset.sum_mul]
      rw [Finset.sum_comm]
      apply Finset.sum_congr rfl
      intro a ha
      rw [Finset.sum_comm]
      apply Finset.sum_congr rfl
      intro b hb
      rw [bornForceInc_sum X _ hcut x q _ a b (Finset.mem_range.mp ha) (Finset.mem_Ico.mp hb).2,
        hBget a (Finset.mem_range.mp ha), hBget b (Finset.mem_Ico.mp hb).2]
  unfold forceIncrement energyDeriv
  rw [hD1, hD2, hraw]
  unfold pairEnergyDeriv
  have hsplit : ∀ (u v : ℝ) (p : Prop) [Decidable p],
      (if p then u + v else (u + v) * (1 / 2))
        = (if p then u else u * (1 / 2)) + (if p then v else v * (1 / 2)) := by
    intro u v p _
    split_ifs
    · rfl
    · ring
  simp only [hsplit, Finset.sum_add_distrib]
  ring

end ForceMatchesGradient2

end ObcSoftcore

namespace ObcSoftcore

section Settled6

/-- C1 (force is the negative energy gradient): over real arithmetic, with no cutoff and no
periodicity (`getDeltaR a b = b - a`), `radius_i > dielectricOffset ≥ 0` for every atom, an engine
whose chain array has one entry per atom, one position and one force vector per atom, and a
configuration in which distinct atoms are at distance `r > 0` and no ordered pair `(i, j)` lies on
a branch threshold (`offsetRadius_i = r + scaledRadius_j` or `offsetRadius_i = |r - scaledRadius_j|`):
for every atom `k` and coordinate `c`, the energy `computeBornEnergyForces` returns, as a function
of that coordinate, has at the configuration a derivative equal to minus the amount the routine
adds to `inputForces[k][c]`. The ACE flag is arbitrary (enabled or disabled). -/
theorem force_is_negative_energy_gradient (X : Externals ℝ) (hX : IsRealMath X)
    (E : CpuObcSoftcore ℝ) (hper : E.obcSoftcoreParameters.periodic = false)
    (hcut : E.obcSoftcoreParameters.useCutoff = false)
    (hoffset : 0 ≤ E.obcSoftcoreParameters.dielectricOffset)
    (hradii : ∀ i, i < E.obcSoftcoreParameters.numberOfAtoms →
      E.obcSoftcoreParameters.dielectricOffset < E.obcSoftcoreParameters.atomicRadii.getD i 0)
    (hchain : E.obcChain.length = E.obcSoftcoreParameters.numberOfAtoms)
    (x : List (RealVec ℝ)) (q : List ℝ) (f0 : List (RealVec ℝ))
    (hx : x.length = E.obcSoftcoreParameters.numberOfAtoms)
    (hf : f0.length = E.obcSoftcoreParameters.numberOfAtoms)
    (hconf : ∀ i j, i < E.obcSoftcoreParameters.numberOfAtoms →
      j < E.obcSoftcoreParameters.numberOfAtoms → i ≠ j →
      0 < pairDist X E.obcSoftcoreParameters x i j
        ∧ offsetRadius E.obcSoftcoreParameters i
            ≠ pairDist X E.obcSoftcoreParameters x i j + scaledRadius E.obcSoftcoreParameters j
        ∧ offsetRadius E.obcSoftcoreParameters i
            ≠ |pairDist X E.obcSoftcoreParameters x i j - scaledRadius E.obcSoftcoreParameters j|)
    (k : Nat) (hk : k < E.obcSoftcoreParameters.numberOfAtoms) (c : Fin 3) :
    HasDerivAt
      (fun t => (computeBornEnergyForces X E (pathCoords x k c t) q f0).energy)
      (-((computeBornEnergyForces X E x q f0).inputForces.getD k 0 c - f0.getD k 0 c))
      (x.getD k 0 c) := by
  have hval : ValidRadii E.obcSoftcoreParameters := ⟨hoffset, hradii⟩
  have hoff : OffThreshold X E.obcSoftcoreParameters (pathCoords x k c (x.getD k 0 c)) := by
    rw [pathCoords_self]
    exact hconf
  have h := hasDerivAt_energyClosed X hX E hper hcut hval x q k c (hx ▸ hk) (x.getD k 0 c) hoff
  rw [pathCoords_self] at h
  have hfun : (fun t => (computeBornEnergyForces X E (pathCoords x k c t) q f0).energy)
      = fun t => energyClosed X E (pathCoords x k c t) q := by
    funext t
    exact computeBornEnergyForces_energy X E _ q f0
  rw [hfun]
  refine h.congr_deriv ?_
  rw [computeBornEnergyForces_forces X E x q f0 k c (hf ▸ hk),
    energyDeriv_eq_neg_forceIncrement X hX E hcut hval hchain x q k c]
  ring

theorem sample_pairDist (i j : Nat) (hi : i < 2) (hj : j < 2) (hij : i ≠ j) :
    pairDist ⟨Real.sqrt, Real.exp, Real.log, Real.tanh, fun x y => x ^ y,
        fun _ _ _ => ⟨0, 0, 0, 0, 0⟩⟩ (sampleEngine ℝ).obcSoftcoreParameters
      (sampleCoordinates ℝ) i j = 3 / 10 := by
  have h1 : Real.sqrt ((3 / 10 : ℝ) * (3 / 10)) = 3 / 10 := Real.sqrt_mul_self (by norm_num)
  interval_cases i <;> interval_cases j
  · exact absurd rfl hij
  · simp [pairDist, pairDeltaR, getDeltaR, sampleEngine, sampleParameters, sampleCoordinates, h1]
  · simp [pairDist, pairDeltaR, getDeltaR, sampleEngine, sampleParameters, sampleCoordinates, h1]
  · exact absurd rfl hij

theorem sample_offThreshold (i j : Nat)
    (hi : i < (sampleEngine ℝ).obcSoftcoreParameters.numberOfAtoms)
    (hj : j < (sampleEngine ℝ).obcSoftcoreParameters.numberOfAtoms) (hij : i ≠ j) :
    0 < pairDist ⟨Real.sqrt, Real.exp, Real.log, Real.tanh, fun x y => x ^ y,
          fun _ _ _ => ⟨0, 0, 0, 0, 0⟩⟩ (sampleEngine ℝ).obcSoftcoreParameters
        (sampleCoordinates ℝ) i j
      ∧ offsetRadius (sampleEngine ℝ).obcSoftcoreParameters i
          ≠ pairDist ⟨Real.sqrt, Real.exp, Real.log, Real.tanh, fun x y => x ^ y,
              fun _ _ _ => ⟨0, 0, 0, 0, 0⟩⟩ (sampleEngine ℝ).obcSoftcoreParameters
            (sampleCoordinates ℝ) i j + scaledRadius (sampleEngine ℝ).obcSoftcoreParameters j
      ∧ offsetRadius (sampleEngine ℝ).obcSoftcoreParameters i
          ≠ |pairDist ⟨Real.sqrt, Real.exp, Real.log, Real.tanh, fun x y => x ^ y,
              fun _ _ _ => ⟨0, 0, 0, 0, 0⟩⟩ (sampleEngine ℝ).obcSoftcoreParameters
            (sampleCoordinates ℝ) i j - scaledRadius (sampleEngine ℝ).obcSoftcoreParameters j| := by
  have hi2 : i < 2 := hi
  have hj2 : j < 2 := hj
  rw [sample_pairDist i j hi2 hj2 hij]
  have hoff : offsetRadius (sampleEngine ℝ).obcSoftcoreParameters i = 141 / 1000 := by
    interval_cases i <;> simp [offsetRadius, sampleEngine, sampleParameters] <;> norm_num
  have hs : scaledRadius (sampleEngine ℝ).obcSoftcoreParameters j = 1128 / 10000 := by
    interval_cases j <;> simp [scaledRadius, sampleEngine, sampleParameters] <;> norm_num
  rw [hoff, hs]
  refine ⟨by norm_num, by norm_num, ?_⟩
  rw [abs_of_pos (by norm_num)]
  norm_num

theorem sample_radii (i : Nat) (hi : i < (sampleEngine ℝ).obcSoftcoreParameters.numberOfAtoms) :
    (sampleEngine ℝ).obcSoftcoreParameters.dielectricOffset
      < (sampleEngine ℝ).obcSoftcoreParameters.atomicRadii.getD i 0 := by
  have hi2 : i < 2 := hi
  interval_cases i <;> simp [sampleEngine, sampleParameters] <;> norm_num

theorem force_is_negative_energy_gradient_witness :
    (IsRealMath ⟨Real.sqrt, Real.exp, Real.log, Real.tanh, fun x y => x ^ y,
        fun _ _ _ => ⟨0, 0, 0, 0, 0⟩⟩
      ∧ (sampleEngine ℝ).obcSoftcoreParameters.periodic = false
      ∧ (sampleEngine ℝ).obcSoftcoreParameters.useCutoff = false
      ∧ 0 ≤ (sampleEngine ℝ).obcSoftcoreParameters.dielectricOffset
      ∧ (∀ i, i < (sampleEngine ℝ).obcSoftcoreParameters.numberOfAtoms →
          (sampleEngine ℝ).obcSoftcoreParameters.dielectricOffset
            < (sampleEngine ℝ).obcSoftcoreParameters.atomicRadii.getD i 0)
      ∧ (sampleEngine ℝ).obcChain.length = (sampleEngine ℝ).obcSoftcoreParameters.numberOfAtoms
      ∧ (sampleCoordinates ℝ).length = (sampleEngine ℝ).obcSoftcoreParameters.numberOfAtoms
      ∧ (zeroForces 2 : List (RealVec ℝ)).length
          = (sampleEngine ℝ).obcSoftcoreParameters.numberOfAtoms
      ∧ (∀ i j, i < (sampleEngine ℝ).obcSoftcoreParameters.numberOfAtoms →
          j < (sampleEngine ℝ).obcSoftcoreParameters.numberOfAtoms → i ≠ j →
          0 < pairDist ⟨Real.sqrt, Real.exp, Real.log, Real.tanh, fun x y => x ^ y,
                fun _ _ _ => ⟨0, 0, 0, 0, 0⟩⟩ (sampleEngine ℝ).obcSoftcoreParameters
              (sampleCoordinates ℝ) i j
            ∧ offsetRadius (sampleEngine ℝ).obcSoftcoreParameters i
                ≠ pairDist ⟨Real.sqrt, Real.exp, Real.log, Real.tanh, fun x y => x ^ y,
                    fun _ _ _ => ⟨0, 0, 0, 0, 0⟩⟩ (sampleEngine ℝ).obcSoftcoreParameters
                  (sampleCoordinates ℝ) i j
                  + scaledRadius (sampleEngine ℝ).obcSoftcoreParameters j
            ∧ offsetRadius (sampleEngine ℝ).obcSoftcoreParameters i
                ≠ |pairDist ⟨Real.sqrt, Real.exp, Real.log, Real.tanh, fun x y => x ^ y,
                    fun _ _ _ => ⟨0, 0, 0, 0, 0⟩⟩ (sampleEngine ℝ).obcSoftcoreParameters
                  (sampleCoordinates ℝ) i j
                  - scaledRadius (sampleEngine ℝ).obcSoftcoreParameters j|)
      ∧ 0 < (sampleEngine ℝ).obcSoftcoreParameters.numberOfAtoms)
    ∧ HasDerivAt
        (fun t => (computeBornEnergyForces ⟨Real.sqrt, Real.exp, Real.log, Real.tanh,
            fun x y => x ^ y, fun _ _ _ => ⟨0, 0, 0, 0, 0⟩⟩ (sampleEngine ℝ)
            (pathCoords (sampleCoordinates ℝ) 0 0 t) (sampleCharges ℝ) (zeroForces 2)).energy)
        (-((computeBornEnergyForces ⟨Real.sqrt, Real.exp, Real.log, Real.tanh,
            fun x y => x ^ y, fun _ _ _ => ⟨0, 0, 0, 0, 0⟩⟩ (sampleEngine ℝ)
            (sampleCoordinates ℝ) (sampleCharges ℝ) (zeroForces 2)).inputForces.getD 0 0 0
          - (zeroForces 2 : List (RealVec ℝ)).getD 0 0 0))
        ((sampleCoordinates ℝ).getD 0 0 0) :=
  have hX : IsRealMath ⟨Real.sqrt, Real.exp, Real.log, Real.tanh, fun x y => x ^ y,
      fun _ _ _ => ⟨0, 0, 0, 0, 0⟩⟩ := ⟨rfl, rfl, rfl, rfl, rfl⟩
  have h0 : 0 ≤ (sampleEngine ℝ).obcSoftcoreParameters.dielectricOffset := by
    simp [sampleEngine, sampleParameters]
    norm_num
  ⟨⟨hX, rfl, rfl, h0, sample_radii, rfl, rfl, rfl, sample_offThreshold, by decide⟩,
    force_is_negative_energy_gradient _ hX (sampleEngine ℝ) rfl rfl h0 sample_radii rfl
      (sampleCoordinates ℝ) (sampleCharges ℝ) (zeroForces 2) rfl rfl sample_offThreshold 0
      (by decide) 0⟩

end Settled6

end ObcSoftcore

namespace ObcSoftcore

section Settled7

theorem lFn_eq_max (off s r : ℝ) : lFn off s r = 1 / max off |r - s| := by
  unfold lFn
  congr 1
  rw [max_def]
  split_ifs with h1 h2 h2
  · exact absurd h2 (not_le.mpr h1)
  · rfl
  · rfl
  · exact absurd (le_of_not_gt h1) h2

theorem t3Fn_eq_specT3 (X : Externals ℝ) (off s r : ℝ) : t3Fn X off s r = specT3 X off s r := by
  unfold t3Fn specT3
  rw [lFn_eq_max]
  generalize X.ln (1 / (r + s) / (1 / max off |r - s|)) = Lg
  ring

/-- C18 (the second-loop factor `t3` is the full derivative of the Born-radius pair term): for
`offsetRadius_i > 0`, `scaledRadius_j > 0`, `r > 0` with `offsetRadius_i < r + scaledRadius_j` and
`offsetRadius_i ≠ |r - scaledRadius_j|`, the pair term of `computeBornRadii` (closed form with the
complete-burial correction, `l_ij` and `u_ij` the functions of `r` the code uses) has derivative
`-2*[(1 + scaledRadius_j^2/r^2)*(l_ij^2 - u_ij^2)/8 + ln(u_ij/l_ij)/(4*r^2)]` with respect to `r`,
and the bracket is the value `t3` the second main loop computes (before the scale factors): for
a pair `(i, j)` with these values that is not skipped, the pass of the inner loop of
`computeBornRadii` adds `nonPolarScale_j` times this pair term to the sum of atom `i`, and the
pass of the second main loop adds the displacement times
`de = bornForces[i] * (bracket * nonPolarScale_i * nonPolarScale_j) / r` to `inputForces[j]` and
subtracts it from `inputForces[i]`. -/
theorem pair_term_derivative (X : Externals ℝ) (hX : IsRealMath X) (off s r : ℝ) (hoff : 0 < off)
    (_hs : 0 < s) (hr : 0 < r) (hov : off < r + s) (hne : off ≠ |r - s|) :
    HasDerivAt (fun ρ => specTerm X off s ρ)
        (-2 * ((1 + s ^ 2 / r ^ 2) * ((1 / max off |r - s|) ^ 2 - (1 / (r + s)) ^ 2) / 8
          + Real.log (1 / (r + s) / (1 / max off |r - s|)) / (4 * r ^ 2))) r
      ∧ t3Fn X off s r
        = (1 + s ^ 2 / r ^ 2) * ((1 / max off |r - s|) ^ 2 - (1 / (r + s)) ^ 2) / 8
          + Real.log (1 / (r + s) / (1 / max off |r - s|)) / (4 * r ^ 2)
      ∧ ∀ (P : ObcSoftcoreParameters ℝ) (x : List (RealVec ℝ)) (bf : List ℝ)
          (f : List (RealVec ℝ)) (sum : ℝ) (i j k : Nat) (c : Fin 3),
          j ≠ i → ¬ cutoffSkips P (pairDist X P x i j) → offsetRadius P i = off →
          scaledRadius P j = s → pairDist X P x i j = r → k < f.length →
          bornRadiiInner X P x i (offsetRadius P i) (1 / offsetRadius P i) sum j
              = sum + P.nonPolarScaleFactors.getD j 0 * specTerm X off s r
            ∧ (secondLoopInner X P x bf i (offsetRadius P i) f j).getD k 0 c
              = f.getD k 0 c
                + ((if k = j then
                      (pairDeltaR X P x i j).comp c
                        * (bf.getD i 0
                          * (((1 + s ^ 2 / r ^ 2)
                                * ((1 / max off |r - s|) ^ 2 - (1 / (r + s)) ^ 2) / 8
                              + Real.log (1 / (r + s) / (1 / max off |r - s|)) / (4 * r ^ 2))
                            * (P.nonPolarScaleFactors.getD i 0
                              * P.nonPolarScaleFactors.getD j 0))
                          * (1 / r))
                    else 0)
                  - (if k = i then
                      (pairDeltaR X P x i j).comp c
                        * (bf.getD i 0
                          * (((1 + s ^ 2 / r ^ 2)
                                * ((1 / max off |r - s|) ^ 2 - (1 / (r + s)) ^ 2) / 8
                              + Real.log (1 / (r + s) / (1 / max off |r - s|)) / (4 * r ^ 2))
                            * (P.nonPolarScaleFactors.getD i 0
                              * P.nonPolarScaleFactors.getD j 0))
                          * (1 / r))
                    else 0)) := by
  have h := hasDerivAt_specTerm X hX off s r hoff hr (ne_of_lt hov) hne
  rw [if_pos hov, t3Fn_eq_specT3] at h
  have e : specT3 X off s r
      = (1 + s ^ 2 / r ^ 2) * ((1 / max off |r - s|) ^ 2 - (1 / (r + s)) ^ 2) / 8
        + Real.log (1 / (r + s) / (1 / max off |r - s|)) / (4 * r ^ 2) := by
    unfold specT3
    rw [hX.2.2.1]
  rw [e] at h
  have ht3 : t3Fn X off s r
      = (1 + s ^ 2 / r ^ 2) * ((1 / max off |r - s|) ^ 2 - (1 / (r + s)) ^ 2) / 8
        + Real.log (1 / (r + s) / (1 / max off |r - s|)) / (4 * r ^ 2) := by
    rw [t3Fn_eq_specT3, e]
  refine ⟨h, ht3, ?_⟩
  intro P x bf f sum i j k c hji hcut ho hsP hrP hk
  constructor
  · rw [bornRadiiInner_eq, if_pos ⟨hji, hcut⟩, ho, hsP, hrP]
  · rw [secondLoopInner_forces X P x bf i f j k c hk]
    unfold chainForceInc chainDe
    rw [if_pos ⟨hji, hcut, by rw [ho, hsP, hrP]; exact hov⟩, ho, hsP, hrP, ht3]

theorem pair_term_derivative_witness :
    (IsRealMath ⟨Real.sqrt, Real.exp, Real.log, Real.tanh, fun x y => x ^ y,
        fun _ _ _ => ⟨0, 0, 0, 0, 0⟩⟩
      ∧ (0 : ℝ) < 141 / 1000 ∧ (0 : ℝ) < 2 ∧ (0 : ℝ) < 1 ∧ (141 / 1000 : ℝ) < 1 + 2
      ∧ (141 / 1000 : ℝ) ≠ |1 - 2|)
    ∧ HasDerivAt (fun ρ => specTerm ⟨Real.sqrt, Real.exp, Real.log, Real.tanh,
          fun x y => x ^ y, fun _ _ _ => ⟨0, 0, 0, 0, 0⟩⟩ (141 / 1000) 2 ρ)
        (-2 * ((1 + (2 : ℝ) ^ 2 / 1 ^ 2)
            * ((1 / max (141 / 1000) |(1 : ℝ) - 2|) ^ 2 - (1 / (1 + 2)) ^ 2) / 8
          + Real.log (1 / (1 + 2) / (1 / max (141 / 1000) |(1 : ℝ) - 2|)) / (4 * 1 ^ 2))) 1 :=
  have hX : IsRealMath ⟨Real.sqrt, Real.exp, Real.log, Real.tanh, fun x y => x ^ y,
      fun _ _ _ => ⟨0, 0, 0, 0, 0⟩⟩ := ⟨rfl, rfl, rfl, rfl, rfl⟩
  have hne : (141 / 1000 : ℝ) ≠ |1 - 2| := by
    rw [abs_of_neg (by norm_num)]
    norm_num
  ⟨⟨hX, by norm_num, by norm_num, by norm_num, by norm_num, hne⟩,
    (pair_term_derivative _ hX (141 / 1000) 2 1 (by norm_num) (by norm_num) (by norm_num)
      (by norm_num) hne).1⟩

theorem obc_denominator_pos (off rad th : ℝ) (hoff : 0 < off) (hle : off ≤ rad) (hth : th < 1) :
    0 < 1 / off - th / rad := by
  have hrad : 0 < rad := lt_of_lt_of_le hoff hle
  have h1 : th / rad < 1 / rad := div_lt_div_of_pos_right hth hrad
  have h2 : 1 / rad ≤ 1 / off := one_div_le_one_div_of_le hoff hle
  linarith

/-- C19 (the OBC chain value is the Born-radius derivative): for `radius_i > 0`,
`0 < offsetRadius_i ≤ radius_i` and every real `s`, with `B` and `chain` the functions of the
scaled sum that `computeBornRadii` evaluates, `dB/ds = B(s)^2 * chain(s) / offsetRadius_i`; so the
factor `bornRadii[i]^2 * obcChain[i]` that multiplies `bornForces[i]` before the second main loop
is `offsetRadius_i * dB_i/ds`; the values of the specification wording are these functions at
the scaled sum of the atom; and for every atom `i` with `0 < offsetRadius_i ≤ radius_i` the values
`computeBornRadii` writes to `bornRadii[i]` and `obcChain[i]` are `B` and `chain` at the scaled
sum `s_i` of the atom, `B` has derivative `bornRadii[i]^2 * obcChain[i] / offsetRadius_i` there,
and the scaling loop before the second main loop replaces `bornForces[i]` by
`bornForces[i] * offsetRadius_i * dB_i/ds`. -/
theorem chain_value_is_born_radius_derivative (X : Externals ℝ) (hX : IsRealMath X)
    (off rad al be ga s : ℝ) (_hrad : 0 < rad) (hoff : 0 < off) (hle : off ≤ rad) :
    HasDerivAt (fun σ => obcBornRadius X off rad al be ga σ)
        (obcBornRadius X off rad al be ga s ^ 2 * obcChainValue X off rad al be ga s / off) s
      ∧ obcBornRadius X off rad al be ga s * obcBornRadius X off rad al be ga s
          * obcChainValue X off rad al be ga s
        = off * (obcBornRadius X off rad al be ga s ^ 2 * obcChainValue X off rad al be ga s
            / off)
      ∧ (∀ (P : ObcSoftcoreParameters ℝ) (coords : List (RealVec ℝ)) (i : Nat),
          specBornRadius X P coords i
              = obcBornRadius X (offsetRadius P i) (P.atomicRadii.getD i 0) P.alphaObc P.betaObc
                  P.gammaObc (specScaledSum X P coords i)
            ∧ specObcChain X P coords i
              = obcChainValue X (offsetRadius P i) (P.atomicRadii.getD i 0) P.alphaObc P.betaObc
                  P.gammaObc (specScaledSum X P coords i))
      ∧ ∀ (E : CpuObcSoftcore ℝ) (coords : List (RealVec ℝ)) (b bf : List ℝ) (i : Nat),
          i < E.obcSoftcoreParameters.numberOfAtoms → i < b.length → i < E.obcChain.length →
          i < bf.length → 0 < offsetRadius E.obcSoftcoreParameters i →
          offsetRadius E.obcSoftcoreParameters i ≤ E.obcSoftcoreParameters.atomicRadii.getD i 0 →
          (computeBornRadii X E coords b).1.getD i 0
              = obcBornRadius X (offsetRadius E.obcSoftcoreParameters i)
                  (E.obcSoftcoreParameters.atomicRadii.getD i 0) E.obcSoftcoreParameters.alphaObc
                  E.obcSoftcoreParameters.betaObc E.obcSoftcoreParameters.gammaObc
                  (specScaledSum X E.obcSoftcoreParameters coords i)
            ∧ (computeBornRadii X E coords b).2.obcChain.getD i 0
              = obcChainValue X (offsetRadius E.obcSoftcoreParameters i)
                  (E.obcSoftcoreParameters.atomicRadii.getD i 0) E.obcSoftcoreParameters.alphaObc
                  E.obcSoftcoreParameters.betaObc E.obcSoftcoreParameters.gammaObc
                  (specScaledSum X E.obcSoftcoreParameters coords i)
            ∧ HasDerivAt
                (fun σ => obcBornRadius X (offsetRadius E.obcSoftcoreParameters i)
                  (E.obcSoftcoreParameters.atomicRadii.getD i 0) E.obcSoftcoreParameters.alphaObc
                  E.obcSoftcoreParameters.betaObc E.obcSoftcoreParameters.gammaObc σ)
                ((computeBornRadii X E coords b).1.getD i 0 ^ 2
                  * (computeBornRadii X E coords b).2.obcChain.getD i 0
                  / offsetRadius E.obcSoftcoreParameters i)
                (specScaledSum X E.obcSoftcoreParameters coords i)
            ∧ (scaleBornForces (computeBornRadii X E coords b).1
                  (computeBornRadii X E coords b).2.obcChain bf i).getD i 0
              = bf.getD i 0
                * (offsetRadius E.obcSoftcoreParameters i
                  * ((computeBornRadii X E coords b).1.getD i 0 ^ 2
                    * (computeBornRadii X E coords b).2.obcChain.getD i 0
                    / offsetRadius E.obcSoftcoreParameters i)) := by
  have hpoly : ∀ a b g σ : ℝ, a * σ - b * (σ * σ) + g * (σ * (σ * σ))
      = a * σ - b * σ ^ 2 + g * σ ^ 3 := fun a b g σ => by ring
  have hderiv : ∀ o ra a1 b1 g1 σ0 : ℝ, 0 < o → o ≤ ra →
      HasDerivAt (fun σ => obcBornRadius X o ra a1 b1 g1 σ)
        (obcBornRadius X o ra a1 b1 g1 σ0 ^ 2 * obcChainValue X o ra a1 b1 g1 σ0 / o) σ0 := by
    intro o ra a1 b1 g1 σ0 ho hle0
    have hden : 1 / o - Real.tanh (a1 * σ0 - b1 * σ0 ^ 2 + g1 * σ0 ^ 3) / ra ≠ 0 :=
      ne_of_gt (obc_denominator_pos o ra _ ho hle0 (real_tanh_lt_one _))
    have h := hasDerivAt_obcMap o ra a1 b1 g1 (fun σ => σ) 1 σ0 (hasDerivAt_id σ0)
      (ne_of_gt ho) (ne_of_gt (lt_of_lt_of_le ho hle0)) hden
    have hf : (fun σ => obcBornRadius X o ra a1 b1 g1 σ)
        = fun σ => 1 / (1 / o - Real.tanh (a1 * σ - b1 * σ ^ 2 + g1 * σ ^ 3) / ra) := by
      funext σ
      unfold obcBornRadius
      rw [hX.2.2.2.1, hpoly]
    rw [hf]
    refine h.congr_deriv ?_
    unfold obcBornRadius obcChainValue
    rw [hX.2.2.2.1, hpoly]
    ring
  have hspec : ∀ (P : ObcSoftcoreParameters ℝ) (coords : List (RealVec ℝ)) (i : Nat),
      specBornRadius X P coords i
          = obcBornRadius X (offsetRadius P i) (P.atomicRadii.getD i 0) P.alphaObc P.betaObc
              P.gammaObc (specScaledSum X P coords i)
        ∧ specObcChain X P coords i
          = obcChainValue X (offsetRadius P i) (P.atomicRadii.getD i 0) P.alphaObc P.betaObc
              P.gammaObc (specScaledSum X P coords i) := by
    intro P coords i
    unfold specBornRadius specObcChain specTanh obcBornRadius obcChainValue
    rw [hpoly]
    constructor
    · rfl
    · ring
  refine ⟨hderiv off rad al be ga s hoff hle, ?_, hspec, ?_⟩
  · have ho := ne_of_gt hoff
    rw [mul_comm off, div_mul_cancel₀ _ ho]
    ring
  · intro E coords b bf i hi hb hc hbf ho hle0
    have hB : (computeBornRadii X E coords b).1.getD i 0
        = obcBornRadius X (offsetRadius E.obcSoftcoreParameters i)
            (E.obcSoftcoreParameters.atomicRadii.getD i 0) E.obcSoftcoreParameters.alphaObc
            E.obcSoftcoreParameters.betaObc E.obcSoftcoreParameters.gammaObc
            (specScaledSum X E.obcSoftcoreParameters coords i) := by
      rw [computeBornRadii_bornRadii, if_pos ⟨hi, hb⟩]
      exact (hspec _ coords i).1
    have hC : (computeBornRadii X E coords b).2.obcChain.getD i 0
        = obcChainValue X (offsetRadius E.obcSoftcoreParameters i)
            (E.obcSoftcoreParameters.atomicRadii.getD i 0) E.obcSoftcoreParameters.alphaObc
            E.obcSoftcoreParameters.betaObc E.obcSoftcoreParameters.gammaObc
            (specScaledSum X E.obcSoftcoreParameters coords i) := by
      rw [computeBornRadii_obcChain, if_pos ⟨hi, hc⟩]
      exact (hspec _ coords i).2
    refine ⟨hB, hC, ?_, ?_⟩
    · rw [hB, hC]
      exact hderiv _ _ _ _ _ _ ho hle0
    · unfold scaleBornForces
      rw [getD_set_eq, if_pos ⟨rfl, hbf⟩, mul_comm (offsetRadius E.obcSoftcoreParameters i),
        div_mul_cancel₀ _ (ne_of_gt ho)]
      ring

theorem chain_value_is_born_radius_derivative_witness :
    (IsRealMath ⟨Real.sqrt, Real.exp, Real.log, Real.tanh, fun x y => x ^ y,
        fun _ _ _ => ⟨0, 0, 0, 0, 0⟩⟩
      ∧ (0 : ℝ) < 15 / 100 ∧ (0 : ℝ) < 141 / 1000 ∧ (141 / 1000 : ℝ) ≤ 15 / 100)
    ∧ HasDerivAt (fun σ => obcBornRadius ⟨Real.sqrt, Real.exp, Real.log, Real.tanh,
          fun x y => x ^ y, fun _ _ _ => ⟨0, 0, 0, 0, 0⟩⟩ (141 / 1000) (15 / 100) 1 (8 / 10)
          (485 / 100) σ)
        (obcBornRadius ⟨Real.sqrt, Real.exp, Real.log, Real.tanh, fun x y => x ^ y,
            fun _ _ _ => ⟨0, 0, 0, 0, 0⟩⟩ (141 / 1000) (15 / 100) 1 (8 / 10) (485 / 100) 2 ^ 2
          * obcChainValue ⟨Real.sqrt, Real.exp, Real.log, Real.tanh, fun x y => x ^ y,
            fun _ _ _ => ⟨0, 0, 0, 0, 0⟩⟩ (141 / 1000) (15 / 100) 1 (8 / 10) (485 / 100) 2
          / (141 / 1000)) 2 :=
  have hX : IsRealMath ⟨Real.sqrt, Real.exp, Real.log, Real.tanh, fun x y => x ^ y,
      fun _ _ _ => ⟨0, 0, 0, 0, 0⟩⟩ := ⟨rfl, rfl, rfl, rfl, rfl⟩
  ⟨⟨hX, by norm_num, by norm_num, by norm_num⟩,
    (chain_value_is_born_radius_derivative _ hX (141 / 1000) (15 / 100) 1 (8 / 10) (485 / 100) 2
      (by norm_num) (by norm_num) (by norm_num)).1⟩

end Settled7

end ObcSoftcore

namespace ObcSoftcore

section Settled8

theorem gpolFn_real (X : Externals ℝ) (hX : IsRealMath X) (C r2 a : ℝ) :
    gpolFn X C r2 a = C / Real.sqrt (r2 + a * Real.exp (-r2 / (4 * a))) := by
  unfold gpolFn
  rw [hX.1, hX.2.1, neg_div]

theorem pairDenominator_pos (r2 a : ℝ) (hr2 : 0 ≤ r2) (ha : 0 < a) :
    0 < r2 + a * Real.exp (-r2 / (4 * a)) := by
  have := Real.exp_pos (-r2 / (4 * a))
  positivity

/-- C16 (the Born-force accumulator holds dE/dB): with
`G(r2, a2) = C/sqrt(r2 + a2*exp(-r2/(4*a2)))` for `r2 ≥ 0` and `a2 > 0`, the value
`dGpol_dalpha2_ij` of the first main loop is the partial derivative of `G` with respect to `a2` and
equals `-Gpol*expTerm*(1 + D)/(2*denom^2)`; hence, for Born radii with `B_i*B_j > 0`,
`dGpol_dalpha2_ij*B_j` and `dGpol_dalpha2_ij*B_i` are the partial derivatives of `Gpol_ij` with
respect to `B_i` and `B_j`; and these are the amounts a pass `i ≠ j` that is not skipped adds to
`bornForces[i]` and `bornForces[j]`. -/
theorem born_force_accumulator_is_dE_dB (X : Externals ℝ) (hX : IsRealMath X) (C r2 a : ℝ)
    (hr2 : 0 ≤ r2) (ha : 0 < a) :
    HasDerivAt (fun a2 => C / Real.sqrt (r2 + a2 * Real.exp (-r2 / (4 * a2))))
        (dGdaFn X C r2 a) a
      ∧ dGdaFn X C r2 a
        = -(C / Real.sqrt (r2 + a * Real.exp (-r2 / (4 * a)))) * Real.exp (-r2 / (4 * a))
            * (1 + r2 / (4 * a)) / (2 * Real.sqrt (r2 + a * Real.exp (-r2 / (4 * a))) ^ 2)
      ∧ (∀ Bi Bj : ℝ, Bi * Bj = a →
          HasDerivAt (fun b => gpolFn X C r2 (b * Bj)) (dGdaFn X C r2 (Bi * Bj) * Bj) Bi
            ∧ HasDerivAt (fun b => gpolFn X C r2 (Bi * b)) (dGdaFn X C r2 (Bi * Bj) * Bi) Bj)
      ∧ ∀ (P : ObcSoftcoreParameters ℝ) (x : List (RealVec ℝ)) (q B : List ℝ)
          (st : LoopState ℝ) (i j : Nat), i ≠ j → ¬ cutoffSkips P (pairDist X P x i j) →
          (firstLoopInner X P x q B i (preFactor P * q.getD i 0) st j).bornForces
            = addAt (addAt st.bornForces j
                (dGdaFn X (pairCharge P q i j) (pairR2 X P x i j) (B.getD i 0 * B.getD j 0)
                  * B.getD i 0)) i
                (dGdaFn X (pairCharge P q i j) (pairR2 X P x i j) (B.getD i 0 * B.getD j 0)
                  * B.getD j 0) := by
  have hG : ∀ (α : ℝ → ℝ) (α' t0 : ℝ), HasDerivAt α α' t0 → 0 < α t0 →
      HasDerivAt (fun t => gpolFn X C r2 (α t)) (dGdaFn X C r2 (α t0) * α') t0 := by
    intro α α' t0 hα hpos
    have h := hasDerivAt_gpolFn X hX C (fun _ => r2) α 0 α' t0 (hasDerivAt_const t0 r2) hα hr2 hpos
    simpa using h
  refine ⟨?_, ?_, ?_, ?_⟩
  · have h := hG (fun t => t) 1 a (hasDerivAt_id a) ha
    have hf : (fun t => gpolFn X C r2 t)
        = fun a2 => C / Real.sqrt (r2 + a2 * Real.exp (-r2 / (4 * a2))) := by
      funext t; exact gpolFn_real X hX C r2 t
    rw [hf] at h
    simpa using h
  · unfold dGdaFn
    rw [gpolFn_real X hX, hX.2.1, ← neg_div, Real.sq_sqrt (le_of_lt (pairDenominator_pos r2 a hr2 ha))]
    have hd := ne_of_gt (pairDenominator_pos r2 a hr2 ha)
    field_simp
    left
    ring
  · intro Bi Bj hB
    constructor
    · have h := hG (fun b => b * Bj) Bj Bi (by simpa using (hasDerivAt_id Bi).mul_const Bj)
        (by simp only; rw [hB]; exact ha)
      exact h
    · have h := hG (fun b => Bi * b) Bi Bj (by simpa using (hasDerivAt_id Bj).const_mul Bi)
        (by simp only; rw [hB]; exact ha)
      exact h
  · intro P x q B st i j hij hskip
    rw [firstLoopInner_eq, if_neg hskip, if_pos hij]

theorem born_force_accumulator_is_dE_dB_witness :
    (IsRealMath ⟨Real.sqrt, Real.exp, Real.log, Real.tanh, fun x y => x ^ y,
        fun _ _ _ => ⟨0, 0, 0, 0, 0⟩⟩ ∧ (0 : ℝ) ≤ 1 ∧ (0 : ℝ) < 2)
    ∧ HasDerivAt (fun a2 : ℝ => 3 / Real.sqrt (1 + a2 * Real.exp (-1 / (4 * a2))))
        (dGdaFn ⟨Real.sqrt, Real.exp, Real.log, Real.tanh, fun x y => x ^ y,
          fun _ _ _ => ⟨0, 0, 0, 0, 0⟩⟩ 3 1 2) 2 :=
  have hX : IsRealMath ⟨Real.sqrt, Real.exp, Real.log, Real.tanh, fun x y => x ^ y,
      fun _ _ _ => ⟨0, 0, 0, 0, 0⟩⟩ := ⟨rfl, rfl, rfl, rfl, rfl⟩
  ⟨⟨hX, by norm_num, by norm_num⟩,
    (born_force_accumulator_is_dE_dB _ hX 3 1 2 (by norm_num) (by norm_num)).1⟩

/-- C17 (the direct pair force is the fixed-radius gradient): in the non-periodic case
(`getDeltaR x_i x_j = x_j - x_i`), for a pair `i ≠ j` of atoms with `B_i*B_j > 0`, the pair energy
`Gpol_ij` with the Born radii held fixed has, with respect to coordinate `c` of `x_i`, the
derivative `-(delta_c * dGpol_dr)`; a pass that is not skipped adds `delta_c * dGpol_dr` to
`inputForces[i][c]`, minus the gradient, and the exact negative of that to `inputForces[j][c]`. -/
theorem direct_force_is_fixed_radius_gradient (X : Externals ℝ) (hX : IsRealMath X)
    (P : ObcSoftcoreParameters ℝ) (hper : P.periodic = false) (x : List (RealVec ℝ))
    (q B : List ℝ) (i j : Nat) (hij : i ≠ j) (hi : i < x.length)
    (hB : 0 < B.getD i 0 * B.getD j 0) (c : Fin 3) :
    HasDerivAt
        (fun t => gpolFn X (pairCharge P q i j) (pairR2 X P (pathCoords x i c t) i j)
          (B.getD i 0 * B.getD j 0))
        (-((pairDeltaR X P x i j).comp c
            * dGdrFn X (pairCharge P q i j) (pairR2 X P x i j) (B.getD i 0 * B.getD j 0)))
        (x.getD i 0 c)
      ∧ ∀ st : LoopState ℝ, ¬ cutoffSkips P (pairDist X P x i j) →
          i < st.inputForces.length → j < st.inputForces.length →
          (firstLoopInner X P x q B i (preFactor P * q.getD i 0) st j).inputForces.getD i 0 c
              = st.inputForces.getD i 0 c
                + (pairDeltaR X P x i j).comp c
                  * dGdrFn X (pairCharge P q i j) (pairR2 X P x i j) (B.getD i 0 * B.getD j 0)
            ∧ (firstLoopInner X P x q B i (preFactor P * q.getD i 0) st j).inputForces.getD j 0 c
              = st.inputForces.getD j 0 c
                - (pairDeltaR X P x i j).comp c
                  * dGdrFn X (pairCharge P q i j) (pairR2 X P x i j)
                      (B.getD i 0 * B.getD j 0) := by
  constructor
  · have h := hasDerivAt_gpolFn X hX (pairCharge P q i j) _ (fun _ => B.getD i 0 * B.getD j 0) _ 0
      (x.getD i 0 c) (hasDerivAt_pairR2 X P hper x i c i j hi (x.getD i 0 c))
      (hasDerivAt_const _ _) (pairR2_nonneg X P hper _ i j) hB
    rw [pathCoords_self] at h
    refine h.congr_deriv ?_
    unfold r2Deriv
    have hji : ¬ j = i := fun e => hij e.symm
    simp only [hji, if_false, if_true, mul_zero, add_zero]
    ring
  · intro st hskip hli hlj
    have hji : ¬ j = i := fun e => hij e.symm
    rw [firstLoopInner_forces X P x q B i st j i c hli,
      firstLoopInner_forces X P x q B i st j j c hlj]
    unfold directForceInc
    have hij' : ¬ i = j := hij
    simp only [if_neg hskip, if_pos hij, if_true, hji, hij', if_false, sub_zero, zero_sub]
    exact ⟨trivial, by ring⟩

theorem direct_force_is_fixed_radius_gradient_witness :
    (IsRealMath ⟨Real.sqrt, Real.exp, Real.log, Real.tanh, fun x y => x ^ y,
        fun _ _ _ => ⟨0, 0, 0, 0, 0⟩⟩
      ∧ (sampleParameters ℝ).periodic = false ∧ (0 : Nat) ≠ 1
      ∧ 0 < (sampleCoordinates ℝ).length
      ∧ 0 < ([1, 2] : List ℝ).getD 0 0 * ([1, 2] : List ℝ).getD 1 0)
    ∧ HasDerivAt
        (fun t => gpolFn ⟨Real.sqrt, Real.exp, Real.log, Real.tanh, fun x y => x ^ y,
            fun _ _ _ => ⟨0, 0, 0, 0, 0⟩⟩ (pairCharge (sampleParameters ℝ) (sampleCharges ℝ) 0 1)
          (pairR2 ⟨Real.sqrt, Real.exp, Real.log, Real.tanh, fun x y => x ^ y,
            fun _ _ _ => ⟨0, 0, 0, 0, 0⟩⟩ (sampleParameters ℝ)
            (pathCoords (sampleCoordinates ℝ) 0 0 t) 0 1)
          (([1, 2] : List ℝ).getD 0 0 * ([1, 2] : List ℝ).getD 1 0))
        (-((pairDeltaR ⟨Real.sqrt, Real.exp, Real.log, Real.tanh, fun x y => x ^ y,
              fun _ _ _ => ⟨0, 0, 0, 0, 0⟩⟩ (sampleParameters ℝ) (sampleCoordinates ℝ) 0 1).comp 0
            * dGdrFn ⟨Real.sqrt, Real.exp, Real.log, Real.tanh, fun x y => x ^ y,
                fun _ _ _ => ⟨0, 0, 0, 0, 0⟩⟩
              (pairCharge (sampleParameters ℝ) (sampleCharges ℝ) 0 1)
              (pairR2 ⟨Real.sqrt, Real.exp, Real.log, Real.tanh, fun x y => x ^ y,
                fun _ _ _ => ⟨0, 0, 0, 0, 0⟩⟩ (sampleParameters ℝ) (sampleCoordinates ℝ) 0 1)
              (([1, 2] : List ℝ).getD 0 0 * ([1, 2] : List ℝ).getD 1 0)))
        ((sampleCoordinates ℝ).getD 0 0 0) :=
  have hX : IsRealMath ⟨Real.sqrt, Real.exp, Real.log, Real.tanh, fun x y => x ^ y,
      fun _ _ _ => ⟨0, 0, 0, 0, 0⟩⟩ := ⟨rfl, rfl, rfl, rfl, rfl⟩
  have hB : 0 < ([1, 2] : List ℝ).getD 0 0 * ([1, 2] : List ℝ).getD 1 0 := by norm_num
  ⟨⟨hX, rfl, by decide, by decide, hB⟩,
    (direct_force_is_fixed_radius_gradient _ hX (sampleParameters ℝ) rfl (sampleCoordinates ℝ)
      (sampleCharges ℝ) [1, 2] 0 1 (by decide) (by decide) hB 0).1⟩

end Settled8

end ObcSoftcore

namespace ObcSoftcore

section Settled9

theorem pairR2_self (X : Externals ℝ) (hX : IsRealMath X) (hperX : PeriodicConsistent X)
    (P : ObcSoftcoreParameters ℝ) (coords : List (RealVec ℝ)) (i : Nat) :
    pairR2 X P coords i i = 0 := by
  rw [pairR2_eq_sq X hX hperX, pairDist_self X hX hperX]
  norm_num

theorem not_cutoffSkips_self (X : Externals ℝ) (hX : IsRealMath X) (hperX : PeriodicConsistent X)
    (P : ObcSoftcoreParameters ℝ) (coords : List (RealVec ℝ)) (i : Nat)
    (hcut : P.useCutoff = false ∨ 0 ≤ P.cutoffDistance) :
    ¬ cutoffSkips P (pairDist X P coords i i) := by
  rw [pairDist_self X hX hperX]
  unfold cutoffSkips
  rintro ⟨h1, h2⟩
  rcases hcut with h | h
  · rw [h] at h1; exact Bool.noConfusion h1
  · linarith

theorem gpolFn_self (X : Externals ℝ) (hX : IsRealMath X) (C B : ℝ) (hB : 0 < B) :
    gpolFn X C 0 (B * B) = C / B := by
  unfold gpolFn
  rw [hX.1, hX.2.1]
  simp only [zero_div, neg_zero, Real.exp_zero, mul_one, zero_add]
  rw [Real.sqrt_mul_self (le_of_lt hB)]

theorem dGdaFn_self (X : Externals ℝ) (hX : IsRealMath X) (C B : ℝ) (hB : 0 < B) :
    dGdaFn X C 0 (B * B) * B = -C / (2 * B ^ 2) := by
  unfold dGdaFn
  rw [gpolFn_self X hX C B hB, hX.2.1]
  simp only [zero_div, neg_zero, Real.exp_zero, mul_one, zero_add, add_zero]
  have := ne_of_gt hB
  field_simp
  ring

/-- C15 (self-pair handling), amended: when the self pair is not skipped by the cutoff (the cutoff
is disabled or the cutoff distance is non-negative), for every atom `i` with
`bornRadii[i] = B > 0` the `i = j` pass of the first main loop adds exactly
`preFactor*q_i^2/(2B)` to the energy, leaves every Cartesian force as it was, and adds to
`bornForces[i]`, once, the amount `-preFactor*q_i^2/(2*B^2)`, which is the derivative with respect
to `B` of the halved self energy `preFactor*q_i^2/(2B)`. -/
theorem self_pair_handling (X : Externals ℝ) (hX : IsRealMath X) (hperX : PeriodicConsistent X)
    (P : ObcSoftcoreParameters ℝ) (hcut : P.useCutoff = false ∨ 0 ≤ P.cutoffDistance)
    (x : List (RealVec ℝ)) (q Bl : List ℝ) (st : LoopState ℝ) (i : Nat)
    (hB : 0 < Bl.getD i 0) :
    (firstLoopInner X P x q Bl i (preFactor P * q.getD i 0) st i).obcEnergy
        = st.obcEnergy + preFactor P * q.getD i 0 ^ 2 / (2 * Bl.getD i 0)
      ∧ (firstLoopInner X P x q Bl i (preFactor P * q.getD i 0) st i).inputForces
        = st.inputForces
      ∧ (firstLoopInner X P x q Bl i (preFactor P * q.getD i 0) st i).bornForces
        = addAt st.bornForces i (-(preFactor P * q.getD i 0 ^ 2) / (2 * Bl.getD i 0 ^ 2))
      ∧ HasDerivAt (fun b => preFactor P * q.getD i 0 ^ 2 / (2 * b))
          (-(preFactor P * q.getD i 0 ^ 2) / (2 * Bl.getD i 0 ^ 2)) (Bl.getD i 0) := by
  have hskip := not_cutoffSkips_self X hX hperX P x i hcut
  have hne := ne_of_gt hB
  rw [firstLoopInner_eq, if_neg hskip, if_neg (by simp)]
  simp only
  rw [pairR2_self X hX hperX, gpolFn_self X hX _ _ hB, dGdaFn_self X hX _ _ hB]
  refine ⟨?_, trivial, ?_, ?_⟩
  · unfold pairCharge
    congr 1
    field_simp
    ring
  · unfold pairCharge
    congr 2
    ring
  · have h := (hasDerivAt_const (Bl.getD i 0) (preFactor P * q.getD i 0 ^ 2)).div
      ((hasDerivAt_id (Bl.getD i 0)).const_mul 2) (by positivity)
    refine h.congr_deriv ?_
    simp only [id]
    field_simp
    ring

theorem self_pair_handling_witness :
    (IsRealMath ⟨Real.sqrt, Real.exp, Real.log, Real.tanh, fun x y => x ^ y,
        fun _ _ _ => ⟨0, 0, 0, 0, 0⟩⟩
      ∧ PeriodicConsistent (⟨Real.sqrt, Real.exp, Real.log, Real.tanh, fun x y => x ^ y,
        fun _ _ _ => ⟨0, 0, 0, 0, 0⟩⟩ : Externals ℝ)
      ∧ ((sampleParameters ℝ).useCutoff = false ∨ 0 ≤ (sampleParameters ℝ).cutoffDistance)
      ∧ 0 < ([2, 3] : List ℝ).getD 0 0)
    ∧ (firstLoopInner ⟨Real.sqrt, Real.exp, Real.log, Real.tanh, fun x y => x ^ y,
          fun _ _ _ => ⟨0, 0, 0, 0, 0⟩⟩ (sampleParameters ℝ) (sampleCoordinates ℝ)
          (sampleCharges ℝ) [2, 3] 0
          (preFactor (sampleParameters ℝ) * (sampleCharges ℝ).getD 0 0)
          ⟨0, [0, 0], zeroForces 2⟩ 0).obcEnergy
        = (⟨0, [0, 0], zeroForces 2⟩ : LoopState ℝ).obcEnergy
          + preFactor (sampleParameters ℝ) * (sampleCharges ℝ).getD 0 0 ^ 2
            / (2 * ([2, 3] : List ℝ).getD 0 0) :=
  have hX : IsRealMath ⟨Real.sqrt, Real.exp, Real.log, Real.tanh, fun x y => x ^ y,
      fun _ _ _ => ⟨0, 0, 0, 0, 0⟩⟩ := ⟨rfl, rfl, rfl, rfl, rfl⟩
  have hperX : PeriodicConsistent (⟨Real.sqrt, Real.exp, Real.log, Real.tanh,
      fun x y => x ^ y, fun _ _ _ => ⟨0, 0, 0, 0, 0⟩⟩ : Externals ℝ) :=
    fun _ _ _ => ⟨by norm_num, rfl⟩
  have hB : 0 < ([2, 3] : List ℝ).getD 0 0 := by norm_num
  ⟨⟨hX, hperX, Or.inl rfl, hB⟩,
    (self_pair_handling _ hX hperX (sampleParameters ℝ) (Or.inl rfl) (sampleCoordinates ℝ)
      (sampleCharges ℝ) [2, 3] ⟨0, [0, 0], zeroForces 2⟩ 0 hB).1⟩

/-- C15 as stated fails: with the cutoff enabled at the negative distance `-1` the `i = j` pass is
skipped by the cutoff test (`r = 0 > -1`), so for the atom of `negativeCutoffEngine` with Born
radius `1` and charge `1` the pass adds `0` to the energy and not `preFactor*q^2/(2B) = 1/2`. -/
theorem self_pair_handling_counterexample :
    0 < ([1] : List ℝ).getD 0 0
      ∧ (firstLoopInner ⟨Real.sqrt, Real.exp, Real.log, Real.tanh, fun x y => x ^ y,
            fun _ _ _ => ⟨0, 0, 0, 0, 0⟩⟩ (negativeCutoffEngine ℝ).obcSoftcoreParameters [0] [1]
            [1] 0 (preFactor (negativeCutoffEngine ℝ).obcSoftcoreParameters
              * ([1] : List ℝ).getD 0 0) ⟨0, [0], [0]⟩ 0).obcEnergy
          ≠ (⟨0, [0], [0]⟩ : LoopState ℝ).obcEnergy
            + preFactor (negativeCutoffEngine ℝ).obcSoftcoreParameters
              * ([1] : List ℝ).getD 0 0 ^ 2 / (2 * ([1] : List ℝ).getD 0 0) := by
  refine ⟨by norm_num, ?_⟩
  have hskip : cutoffSkips (negativeCutoffEngine ℝ).obcSoftcoreParameters
      (pairDist ⟨Real.sqrt, Real.exp, Real.log, Real.tanh, fun x y => x ^ y,
        fun _ _ _ => ⟨0, 0, 0, 0, 0⟩⟩ (negativeCutoffEngine ℝ).obcSoftcoreParameters [0] 0 0) := by
    refine ⟨rfl, ?_⟩
    have h0 : (negativeCutoffEngine ℝ).obcSoftcoreParameters.cutoffDistance = -1 := rfl
    rw [h0]
    unfold pairDist pairDeltaR
    rw [if_neg (by simp [negativeCutoffEngine])]
    unfold getDeltaR
    simp only
    have := Real.sqrt_nonneg (((([0] : List (RealVec ℝ)).getD 0 0) 0
        - (([0] : List (RealVec ℝ)).getD 0 0) 0)
      * ((([0] : List (RealVec ℝ)).getD 0 0) 0 - (([0] : List (RealVec ℝ)).getD 0 0) 0)
      + ((([0] : List (RealVec ℝ)).getD 0 0) 1 - (([0] : List (RealVec ℝ)).getD 0 0) 1)
      * ((([0] : List (RealVec ℝ)).getD 0 0) 1 - (([0] : List (RealVec ℝ)).getD 0 0) 1)
      + ((([0] : List (RealVec ℝ)).getD 0 0) 2 - (([0] : List (RealVec ℝ)).getD 0 0) 2)
      * ((([0] : List (RealVec ℝ)).getD 0 0) 2 - (([0] : List (RealVec ℝ)).getD 0 0) 2))
    linarith
  rw [firstLoopInner_eq, if_pos hskip]
  have hpre : preFactor (negativeCutoffEngine ℝ).obcSoftcoreParameters = 1 := by
    simp [preFactor, negativeCutoffEngine]
    norm_num
  rw [hpre]
  norm_num

end Settled9

end ObcSoftcore

namespace ObcSoftcore

section Settled10

theorem sampleCutoff_pairDist (i j : Nat) (hi : i < 2) (hj : j < 2) (hij : i ≠ j) :
    pairDist ⟨Real.sqrt, Real.exp, Real.log, Real.tanh, fun x y => x ^ y,
        fun _ _ _ => ⟨0, 0, 0, 0, 0⟩⟩ (sampleCutoffEngine ℝ).obcSoftcoreParameters
      (sampleCoordinates ℝ) i j = 3 / 10 := by
  have h1 : Real.sqrt ((3 / 10 : ℝ) * (3 / 10)) = 3 / 10 := Real.sqrt_mul_self (by norm_num)
  interval_cases i <;> interval_cases j
  · exact absurd rfl hij
  · simp [pairDist, pairDeltaR, getDeltaR, sampleCutoffEngine, sampleEngine, sampleParameters,
      sampleCoordinates, h1]
  · simp [pairDist, pairDeltaR, getDeltaR, sampleCutoffEngine, sampleEngine, sampleParameters,
      sampleCoordinates, h1]
  · exact absurd rfl hij

theorem sampleCutoff_far (i j : Nat)
    (hi : i < (sampleCutoffEngine ℝ).obcSoftcoreParameters.numberOfAtoms)
    (hj : j < (sampleCutoffEngine ℝ).obcSoftcoreParameters.numberOfAtoms) (hij : i ≠ j) :
    pairDist ⟨Real.sqrt, Real.exp, Real.log, Real.tanh, fun x y => x ^ y,
        fun _ _ _ => ⟨0, 0, 0, 0, 0⟩⟩ (sampleCutoffEngine ℝ).obcSoftcoreParameters
      (sampleCoordinates ℝ) i j > (sampleCutoffEngine ℝ).obcSoftcoreParameters.cutoffDistance := by
  rw [sampleCutoff_pairDist i j hi hj hij]
  have h0 : (sampleCutoffEngine ℝ).obcSoftcoreParameters.cutoffDistance = 1 / 10 := rfl
  rw [h0]
  norm_num

theorem sampleCutoff_offsetRadius (i : Nat)
    (hi : i < (sampleCutoffEngine ℝ).obcSoftcoreParameters.numberOfAtoms) :
    0 < offsetRadius (sampleCutoffEngine ℝ).obcSoftcoreParameters i := by
  have hi2 : i < 2 := hi
  interval_cases i <;>
    simp [offsetRadius, sampleCutoffEngine, sampleEngine, sampleParameters] <;> norm_num

end Settled10

end ObcSoftcore

namespace ObcSoftcore

section Settled11

theorem real_pow_six (X : Externals ℝ) (hX : IsRealMath X) (y : ℝ) : X.pow y 6 = y ^ 6 := by
  rw [hX.2.2.2.2]
  show y ^ (6 : ℝ) = y ^ 6
  exact_mod_cast Real.rpow_natCast y 6

theorem saTerm_pos (X : Externals ℝ) (hX : IsRealMath X) (P : ObcSoftcoreParameters ℝ)
    (B : List ℝ) (i : Nat) (hrad : 0 < P.atomicRadii.getD i 0)
    (hnps : 0 < P.nonPolarScaleFactors.getD i 0) (hB : 0 < B.getD i 0) (hsaf : 0 < P.pi4Asolv)
    (hprobe : 0 ≤ P.probeRadius) : 0 < saTerm X P B i := by
  unfold saTerm
  rw [real_pow_six X hX]
  have h1 : 0 < P.atomicRadii.getD i 0 + P.probeRadius := by linarith
  have h2 : 0 < P.atomicRadii.getD i 0 / B.getD i 0 := div_pos hrad hB
  positivity

theorem sample_pairDist_real (X : Externals ℝ) (hX : IsRealMath X) (i j : Nat) (hi : i < 2)
    (hj : j < 2) (hij : i ≠ j) :
    pairDist X (sampleParameters ℝ) (sampleCoordinates ℝ) i j = 3 / 10 := by
  have h1 : Real.sqrt ((3 / 10 : ℝ) * (3 / 10)) = 3 / 10 := Real.sqrt_mul_self (by norm_num)
  rw [pairDist_nonperiodic X hX _ rfl, pairR2_nonperiodic X _ rfl]
  interval_cases i <;> interval_cases j
  · exact absurd rfl hij
  · simp [sampleCoordinates, h1]
  · simp [sampleCoordinates, h1]
  · exact absurd rfl hij

theorem sample_bornRadii_equal (X : Externals ℝ) (hX : IsRealMath X) :
    specBornRadius X (sampleParameters ℝ) (sampleCoordinates ℝ) 0
      = specBornRadius X (sampleParameters ℝ) (sampleCoordinates ℝ) 1 := by
  have hs : specScaledSum X (sampleParameters ℝ) (sampleCoordinates ℝ) 0
      = specScaledSum X (sampleParameters ℝ) (sampleCoordinates ℝ) 1 := by
    rw [specScaledSum_noCutoff X _ rfl, specScaledSum_noCutoff X _ rfl]
    have hN : (sampleParameters ℝ).numberOfAtoms = 2 := rfl
    rw [hN, Finset.sum_range_succ, Finset.sum_range_one, Finset.sum_range_succ,
      Finset.sum_range_one, sample_pairDist_real X hX 0 1 (by decide) (by decide) (by decide),
      sample_pairDist_real X hX 1 0 (by decide) (by decide) (by decide)]
    simp [offsetRadius, scaledRadius, sampleParameters]
  unfold specBornRadius specTanh
  rw [hs]
  simp [offsetRadius, sampleParameters]

/-- C14 (the nonpolar energy contribution is positive), amended: for every system with at least
one atom in which every atom has `radius_i > 0`, `nonPolarScale_i > 0` and `bornRadii[i] > 0`,
with `surfaceAreaFactor > 0` and `probeRadius ≥ 0`, `computeAceNonPolarForce` strictly increases
the energy and strictly decreases every `forces[i]` the array holds; this covers the two-atom
scenario of the specification (`sampleEngine`), whose two Born radii computed by
`computeBornRadii` are equal to each other and positive. -/
theorem nonpolar_energy_positive (X : Externals ℝ) (hX : IsRealMath X)
    (P : ObcSoftcoreParameters ℝ) (B : List ℝ) (e0 : ℝ) (g0 : List ℝ)
    (hN : 0 < P.numberOfAtoms)
    (hatoms : ∀ i, i < P.numberOfAtoms →
      0 < P.atomicRadii.getD i 0 ∧ 0 < P.nonPolarScaleFactors.getD i 0 ∧ 0 < B.getD i 0)
    (hsaf : 0 < P.pi4Asolv) (hprobe : 0 ≤ P.probeRadius) :
    e0 < (computeAceNonPolarForce X P B e0 g0).1
      ∧ (∀ i, i < P.numberOfAtoms → i < g0.length →
          (computeAceNonPolarForce X P B e0 g0).2.getD i 0 < g0.getD i 0)
      ∧ (computeBornRadii X (sampleEngine ℝ) (sampleCoordinates ℝ) [0, 0]).1.getD 0 0
          = (computeBornRadii X (sampleEngine ℝ) (sampleCoordinates ℝ) [0, 0]).1.getD 1 0
      ∧ 0 < (computeBornRadii X (sampleEngine ℝ) (sampleCoordinates ℝ) [0, 0]).1.getD 0 0
      ∧ ∀ e : ℝ, ∀ g : List ℝ,
          e < (computeAceNonPolarForce X (sampleParameters ℝ)
            (computeBornRadii X (sampleEngine ℝ) (sampleCoordinates ℝ) [0, 0]).1 e g).1 := by
  have hgen : ∀ (P : ObcSoftcoreParameters ℝ) (B : List ℝ) (e0 : ℝ) (g0 : List ℝ),
      0 < P.numberOfAtoms →
      (∀ i, i < P.numberOfAtoms →
        0 < P.atomicRadii.getD i 0 ∧ 0 < P.nonPolarScaleFactors.getD i 0 ∧ 0 < B.getD i 0) →
      0 < P.pi4Asolv → 0 ≤ P.probeRadius →
      e0 < (computeAceNonPolarForce X P B e0 g0).1 := by
    intro P B e0 g0 hN hatoms hsaf hprobe
    rw [computeAceNonPolarForce_energy]
    have hpos : 0 < ∑ i ∈ Finset.range P.numberOfAtoms,
        if B.getD i 0 > 0 then saTerm X P B i else 0 := by
      apply Finset.sum_pos
      · intro i hi
        obtain ⟨h1, h2, h3⟩ := hatoms i (Finset.mem_range.mp hi)
        rw [if_pos h3]
        exact saTerm_pos X hX P B i h1 h2 h3 hsaf hprobe
      · exact ⟨0, Finset.mem_range.mpr hN⟩
    linarith
  have hB0 : (computeBornRadii X (sampleEngine ℝ) (sampleCoordinates ℝ) [0, 0]).1.getD 0 0
      = specBornRadius X (sampleParameters ℝ) (sampleCoordinates ℝ) 0 := by
    rw [computeBornRadii_bornRadii, if_pos ⟨by decide, by decide⟩]
    rfl
  have hB1 : (computeBornRadii X (sampleEngine ℝ) (sampleCoordinates ℝ) [0, 0]).1.getD 1 0
      = specBornRadius X (sampleParameters ℝ) (sampleCoordinates ℝ) 1 := by
    rw [computeBornRadii_bornRadii, if_pos ⟨by decide, by decide⟩]
    rfl
  have hval : ValidRadii (sampleParameters ℝ) := by
    refine ⟨by simp [sampleParameters]; norm_num, ?_⟩
    intro i hi
    have hi2 : i < 2 := hi
    interval_cases i <;> simp [sampleParameters] <;> norm_num
  have hpos0 := specBornRadius_pos_real X hX (sampleParameters ℝ) hval (sampleCoordinates ℝ) 0
    (by decide)
  refine ⟨hgen P B e0 g0 hN hatoms hsaf hprobe, ?_, ?_, ?_, ?_⟩
  · intro i hi hlen
    obtain ⟨h1, h2, h3⟩ := hatoms i hi
    rw [computeAceNonPolarForce_forces X P B e0 g0 i hlen, if_pos ⟨hi, h3⟩]
    have hs := saTerm_pos X hX P B i h1 h2 h3 hsaf hprobe
    have : 0 < 6 * saTerm X P B i / B.getD i 0 := by positivity
    have e : -6 * saTerm X P B i / B.getD i 0 = -(6 * saTerm X P B i / B.getD i 0) := by ring
    rw [e]
    linarith
  · rw [hB0, hB1]
    exact sample_bornRadii_equal X hX
  · rw [hB0]
    exact hpos0
  · intro e g
    apply hgen (sampleParameters ℝ) _ e g (by decide)
    · intro i hi
      have hi2 : i < 2 := hi
      refine ⟨?_, ?_, ?_⟩
      · interval_cases i <;> simp [sampleParameters]
      · interval_cases i <;> simp [sampleParameters]
      · interval_cases i
        · rw [hB0]; exact hpos0
        · rw [hB1, ← sample_bornRadii_equal X hX]; exact hpos0
    · simp [sampleParameters]
    · simp [sampleParameters]
      norm_num

theorem nonpolar_energy_positive_witness :
    (IsRealMath ⟨Real.sqrt, Real.exp, Real.log, Real.tanh, fun x y => x ^ y,
        fun _ _ _ => ⟨0, 0, 0, 0, 0⟩⟩
      ∧ 0 < (sampleParameters ℝ).numberOfAtoms
      ∧ (∀ i, i < (sampleParameters ℝ).numberOfAtoms →
          0 < (sampleParameters ℝ).atomicRadii.getD i 0
            ∧ 0 < (sampleParameters ℝ).nonPolarScaleFactors.getD i 0
            ∧ 0 < ([1 / 5, 1 / 4] : List ℝ).getD i 0)
      ∧ 0 < (sampleParameters ℝ).pi4Asolv ∧ 0 ≤ (sampleParameters ℝ).probeRadius)
    ∧ (0 : ℝ) < (computeAceNonPolarForce ⟨Real.sqrt, Real.exp, Real.log, Real.tanh,
          fun x y => x ^ y, fun _ _ _ => ⟨0, 0, 0, 0, 0⟩⟩ (sampleParameters ℝ) [1 / 5, 1 / 4] 0
          [0, 0]).1 :=
  have hX : IsRealMath ⟨Real.sqrt, Real.exp, Real.log, Real.tanh, fun x y => x ^ y,
      fun _ _ _ => ⟨0, 0, 0, 0, 0⟩⟩ := ⟨rfl, rfl, rfl, rfl, rfl⟩
  have hatoms : ∀ i, i < (sampleParameters ℝ).numberOfAtoms →
      0 < (sampleParameters ℝ).atomicRadii.getD i 0
        ∧ 0 < (sampleParameters ℝ).nonPolarScaleFactors.getD i 0
        ∧ 0 < ([1 / 5, 1 / 4] : List ℝ).getD i 0 := by
    intro i hi
    have hi2 : i < 2 := hi
    interval_cases i <;> simp [sampleParameters]
  have hsaf : 0 < (sampleParameters ℝ).pi4Asolv := by simp [sampleParameters]
  have hprobe : 0 ≤ (sampleParameters ℝ).probeRadius := by
    simp [sampleParameters]
    norm_num
  ⟨⟨hX, by decide, hatoms, hsaf, hprobe⟩,
    (nonpolar_energy_positive _ hX (sampleParameters ℝ) [1 / 5, 1 / 4] 0 [0, 0] (by decide)
      hatoms hsaf hprobe).1⟩

/-- C14 as stated fails for a system without atoms: every atom (there is none) satisfies the
premises, `surfaceAreaFactor = 1 > 0` and `probeRadius ≥ 0`, but the loop of
`computeAceNonPolarForce` runs zero times and the energy stays at its input value. -/
theorem nonpolar_energy_positive_counterexample :
    (∀ i, i < (emptyParameters ℝ).numberOfAtoms →
        0 < (emptyParameters ℝ).atomicRadii.getD i 0
          ∧ 0 < (emptyParameters ℝ).nonPolarScaleFactors.getD i 0
          ∧ 0 < ([] : List ℝ).getD i 0)
      ∧ 0 < (emptyParameters ℝ).pi4Asolv ∧ 0 ≤ (emptyParameters ℝ).probeRadius
      ∧ ¬ ((5 : ℝ) < (computeAceNonPolarForce ⟨Real.sqrt, Real.exp, Real.log, Real.tanh,
            fun x y => x ^ y, fun _ _ _ => ⟨0, 0, 0, 0, 0⟩⟩ (emptyParameters ℝ) [] 5 []).1) := by
  refine ⟨?_, ?_, ?_, ?_⟩
  · intro i hi
    exact absurd hi (Nat.not_lt_zero i)
  · simp [emptyParameters, sampleParameters]
  · simp [emptyParameters, sampleParameters]
    norm_num
  · rw [computeAceNonPolarForce_energy]
    have hN : (emptyParameters ℝ).numberOfAtoms = 0 := rfl
    rw [hN]
    simp

end Settled11

end ObcSoftcore

namespace ObcSoftcore

section Settled12

variable {R : Type} [LinearOrderedField R]

theorem specScaledSum_two (X : Externals R) (P : ObcSoftcoreParameters R)
    (x : List (RealVec R)) (hN : P.numberOfAtoms = 2) :
    specScaledSum X P x 0
        = P.nonPolarScaleFactors.getD 0 0 * (offsetRadius P 0 / 2)
          * (if ¬ cutoffSkips P (pairDist X P x 0 1) then
              P.nonPolarScaleFactors.getD 1 0
                * specTerm X (offsetRadius P 0) (scaledRadius P 1) (pairDist X P x 0 1)
            else 0)
      ∧ specScaledSum X P x 1
        = P.nonPolarScaleFactors.getD 1 0 * (offsetRadius P 1 / 2)
          * (if ¬ cutoffSkips P (pairDist X P x 1 0) then
              P.nonPolarScaleFactors.getD 0 0
                * specTerm X (offsetRadius P 1) (scaledRadius P 0) (pairDist X P x 1 0)
            else 0) := by
  unfold specScaledSum
  rw [hN, Finset.sum_filter, Finset.sum_filter, Finset.sum_range_succ, Finset.sum_range_one,
    Finset.sum_range_succ, Finset.sum_range_one]
  simp

theorem energyClosed_two (X : Externals R) (E : CpuObcSoftcore R) (x : List (RealVec R))
    (q : List R) (hN : E.obcSoftcoreParameters.numberOfAtoms = 2) :
    energyClosed X E x q
      = (if E.includeAceApproximation ≠ 0 then
          (if (bornRadiiOf X E x).getD 0 0 > 0 then
              saTerm X E.obcSoftcoreParameters (bornRadiiOf X E x) 0 else 0)
            + (if (bornRadiiOf X E x).getD 1 0 > 0 then
              saTerm X E.obcSoftcoreParameters (bornRadiiOf X E x) 1 else 0)
        else 0)
        + (energyInc X E.obcSoftcoreParameters x q (bornRadiiOf X E x) 0 0
            + energyInc X E.obcSoftcoreParameters x q (bornRadiiOf X E x) 0 1
            + energyInc X E.obcSoftcoreParameters x q (bornRadiiOf X E x) 1 1) := by
  unfold energyClosed aceEnergy
  rw [hN, Finset.sum_range_succ, Finset.sum_range_one, Finset.sum_range_succ,
    Finset.sum_range_one]
  have h0 : Finset.Ico 0 2 = {0, 1} := by decide
  have h1 : Finset.Ico 1 2 = {1} := by decide
  rw [h0, h1, Finset.sum_pair (by decide), Finset.sum_singleton]

theorem swapped_bornRadii (X : Externals R) (E : CpuObcSoftcore R) (x : List (RealVec R))
    (hN : E.obcSoftcoreParameters.numberOfAtoms = 2) :
    (bornRadiiOf X (swapEngine E) (swapTwo x)).getD 0 0 = (bornRadiiOf X E x).getD 1 0
      ∧ (bornRadiiOf X (swapEngine E) (swapTwo x)).getD 1 0 = (bornRadiiOf X E x).getD 0 0 := by
  have hN' : (swapEngine E).obcSoftcoreParameters.numberOfAtoms = 2 := hN
  rw [bornRadiiOf_getD X E x 0 (by omega), bornRadiiOf_getD X E x 1 (by omega),
    bornRadiiOf_getD X (swapEngine E) _ 0 (by omega),
    bornRadiiOf_getD X (swapEngine E) _ 1 (by omega)]
  unfold specBornRadius specTanh
  rw [(specScaledSum_two X _ x hN).1, (specScaledSum_two X _ x hN).2,
    (specScaledSum_two X _ (swapTwo x) hN').1, (specScaledSum_two X _ (swapTwo x) hN').2]
  exact ⟨rfl, rfl⟩

theorem getDeltaR_symmetric (X : Externals R) (a b : RealVec R) :
    (getDeltaR X a b).r2 = (getDeltaR X b a).r2 ∧ (getDeltaR X a b).r = (getDeltaR X b a).r := by
  unfold getDeltaR
  have h : (b 0 - a 0) * (b 0 - a 0) + (b 1 - a 1) * (b 1 - a 1) + (b 2 - a 2) * (b 2 - a 2)
      = (a 0 - b 0) * (a 0 - b 0) + (a 1 - b 1) * (a 1 - b 1) + (a 2 - b 2) * (a 2 - b 2) := by
    ring
  simp only
  rw [h]
  exact ⟨rfl, rfl⟩

/-- C12 (the pairwise polar energy is symmetric): for every pair `i, j`, charges, Born radii and
squared distance `r2`, the values `Gpol`, `dGpol_dalpha2_ij` and `dGpol_dr` of the first main loop
are the same for the pair taken as `(i, j)` and as `(j, i)`; and for a two-atom system,
exchanging the two atoms (positions, radii, both kinds of scale factor and charges together)
leaves the returned energy unchanged. In periodic mode the external displacement is assumed to
have the same `r2` and `r` in both directions; without periodicity `getDeltaR` has that
symmetry. -/
theorem pair_energy_symmetric (X : Externals R) (E : CpuObcSoftcore R) (x : List (RealVec R))
    (q : List R) (f0 f1 : List (RealVec R))
    (hN : E.obcSoftcoreParameters.numberOfAtoms = 2)
    (hperiodic : E.obcSoftcoreParameters.periodic = true →
      (pairDeltaR X E.obcSoftcoreParameters x 1 0).r2
          = (pairDeltaR X E.obcSoftcoreParameters x 0 1).r2
        ∧ (pairDeltaR X E.obcSoftcoreParameters x 1 0).r
          = (pairDeltaR X E.obcSoftcoreParameters x 0 1).r) :
    (∀ (P : ObcSoftcoreParameters R) (q B : List R) (i j : Nat) (r2 : R),
        gpolFn X (pairCharge P q i j) r2 (B.getD i 0 * B.getD j 0)
            = gpolFn X (pairCharge P q j i) r2 (B.getD j 0 * B.getD i 0)
          ∧ dGdaFn X (pairCharge P q i j) r2 (B.getD i 0 * B.getD j 0)
            = dGdaFn X (pairCharge P q j i) r2 (B.getD j 0 * B.getD i 0)
          ∧ dGdrFn X (pairCharge P q i j) r2 (B.getD i 0 * B.getD j 0)
            = dGdrFn X (pairCharge P q j i) r2 (B.getD j 0 * B.getD i 0))
      ∧ (computeBornEnergyForces X (swapEngine E) (swapTwo x) (swapTwo q) f1).energy
        = (computeBornEnergyForces X E x q f0).energy := by
  have hsym : (pairDeltaR X E.obcSoftcoreParameters x 1 0).r2
        = (pairDeltaR X E.obcSoftcoreParameters x 0 1).r2
      ∧ (pairDeltaR X E.obcSoftcoreParameters x 1 0).r
        = (pairDeltaR X E.obcSoftcoreParameters x 0 1).r := by
    by_cases hp : E.obcSoftcoreParameters.periodic = true
    · exact hperiodic hp
    · unfold pairDeltaR
      rw [if_neg hp, if_neg hp]
      exact getDeltaR_symmetric X _ _
  have hcharge : ∀ (P : ObcSoftcoreParameters R) (q : List R) (i j : Nat),
      pairCharge P q i j = pairCharge P q j i := by
    intro P q i j
    unfold pairCharge
    ring
  constructor
  · intro P q B i j r2
    rw [hcharge P q i j, mul_comm (B.getD i 0)]
    exact ⟨rfl, rfl, rfl⟩
  · have hN' : (swapEngine E).obcSoftcoreParameters.numberOfAtoms = 2 := hN
    obtain ⟨hb0, hb1⟩ := swapped_bornRadii X E x hN
    rw [computeBornEnergyForces_energy, computeBornEnergyForces_energy,
      energyClosed_two X E x q hN, energyClosed_two X (swapEngine E) _ _ hN']
    have hflag : (swapEngine E).includeAceApproximation = E.includeAceApproximation := rfl
    have hs0 : saTerm X (swapEngine E).obcSoftcoreParameters
        (bornRadiiOf X (swapEngine E) (swapTwo x)) 0
        = saTerm X E.obcSoftcoreParameters (bornRadiiOf X E x) 1 := by
      unfold saTerm
      rw [hb0]
      rfl
    have hs1 : saTerm X (swapEngine E).obcSoftcoreParameters
        (bornRadiiOf X (swapEngine E) (swapTwo x)) 1
        = saTerm X E.obcSoftcoreParameters (bornRadiiOf X E x) 0 := by
      unfold saTerm
      rw [hb1]
      rfl
    have he00 : energyInc X (swapEngine E).obcSoftcoreParameters (swapTwo x) (swapTwo q)
        (bornRadiiOf X (swapEngine E) (swapTwo x)) 0 0
        = energyInc X E.obcSoftcoreParameters x q (bornRadiiOf X E x) 1 1 := by
      unfold energyInc
      rw [hb0]
      rfl
    have he11 : energyInc X (swapEngine E).obcSoftcoreParameters (swapTwo x) (swapTwo q)
        (bornRadiiOf X (swapEngine E) (swapTwo x)) 1 1
        = energyInc X E.obcSoftcoreParameters x q (bornRadiiOf X E x) 0 0 := by
      unfold energyInc
      rw [hb1]
      rfl
    have he01 : energyInc X (swapEngine E).obcSoftcoreParameters (swapTwo x) (swapTwo q)
        (bornRadiiOf X (swapEngine E) (swapTwo x)) 0 1
        = energyInc X E.obcSoftcoreParameters x q (bornRadiiOf X E x) 0 1 := by
      unfold energyInc
      rw [hb0, hb1]
      have hd : pairDist X (swapEngine E).obcSoftcoreParameters (swapTwo x) 0 1
          = pairDist X E.obcSoftcoreParameters x 0 1 := hsym.2
      have hr2 : pairR2 X (swapEngine E).obcSoftcoreParameters (swapTwo x) 0 1
          = pairR2 X E.obcSoftcoreParameters x 0 1 := hsym.1
      have hc : pairCharge (swapEngine E).obcSoftcoreParameters (swapTwo q) 0 1
          = pairCharge E.obcSoftcoreParameters q 0 1 := by
        rw [hcharge E.obcSoftcoreParameters q 0 1]
        rfl
      have hk : cutoffSkips (swapEngine E).obcSoftcoreParameters
            (pairDist X E.obcSoftcoreParameters x 0 1)
          = cutoffSkips E.obcSoftcoreParameters (pairDist X E.obcSoftcoreParameters x 0 1) := rfl
      rw [hd, hr2, hc, mul_comm ((bornRadiiOf X E x).getD 1 0)]
      simp only [hk]
    rw [hflag, hb0, hb1, hs0, hs1, he00, he11, he01]
    split_ifs <;> ring

theorem pair_energy_symmetric_witness :
    ((sampleEngine ℝ).obcSoftcoreParameters.numberOfAtoms = 2
      ∧ ((sampleEngine ℝ).obcSoftcoreParameters.periodic = true →
        (pairDeltaR ⟨Real.sqrt, Real.exp, Real.log, Real.tanh, fun x y => x ^ y,
            fun _ _ _ => ⟨0, 0, 0, 0, 0⟩⟩ (sampleEngine ℝ).obcSoftcoreParameters
            (sampleCoordinates ℝ) 1 0).r2
          = (pairDeltaR ⟨Real.sqrt, Real.exp, Real.log, Real.tanh, fun x y => x ^ y,
            fun _ _ _ => ⟨0, 0, 0, 0, 0⟩⟩ (sampleEngine ℝ).obcSoftcoreParameters
            (sampleCoordinates ℝ) 0 1).r2
        ∧ (pairDeltaR ⟨Real.sqrt, Real.exp, Real.log, Real.tanh, fun x y => x ^ y,
            fun _ _ _ => ⟨0, 0, 0, 0, 0⟩⟩ (sampleEngine ℝ).obcSoftcoreParameters
            (sampleCoordinates ℝ) 1 0).r
          = (pairDeltaR ⟨Real.sqrt, Real.exp, Real.log, Real.tanh, fun x y => x ^ y,
            fun _ _ _ => ⟨0, 0, 0, 0, 0⟩⟩ (sampleEngine ℝ).obcSoftcoreParameters
            (sampleCoordinates ℝ) 0 1).r))
    ∧ (computeBornEnergyForces ⟨Real.sqrt, Real.exp, Real.log, Real.tanh, fun x y => x ^ y,
          fun _ _ _ => ⟨0, 0, 0, 0, 0⟩⟩ (swapEngine (sampleEngine ℝ))
          (swapTwo (sampleCoordinates ℝ)) (swapTwo (sampleCharges ℝ)) (zeroForces 2)).energy
        = (computeBornEnergyForces ⟨Real.sqrt, Real.exp, Real.log, Real.tanh, fun x y => x ^ y,
          fun _ _ _ => ⟨0, 0, 0, 0, 0⟩⟩ (sampleEngine ℝ) (sampleCoordinates ℝ)
          (sampleCharges ℝ) (zeroForces 2)).energy :=
  ⟨⟨rfl, fun h => Bool.noConfusion h⟩,
    (pair_energy_symmetric _ (sampleEngine ℝ) (sampleCoordinates ℝ) (sampleCharges ℝ)
      (zeroForces 2) (zeroForces 2) rfl (fun h => Bool.noConfusion h)).2⟩

end Settled12

end ObcSoftcore

namespace ObcSoftcore

section Settled13

variable {R : Type} [LinearOrderedField R]

/-- No operation of the engine changes the size of its chain array. -/
theorem step_obcChain_length (X : Externals R) (E : CpuObcSoftcore R) (c : Call R) :
    (step X E c).obcChain.length = E.obcChain.length := by
  cases c with
  | setParameters P => rfl
  | setAce v => rfl
  | bornRadii coords b => exact computeBornRadii_obcChain_length X E coords b
  | energyForces coords q f =>
    exact computeBornRadii_obcChain_length X E coords _

theorem foldl_step_obcChain_length (X : Externals R) (calls : List (Call R))
    (E : CpuObcSoftcore R) :
    (calls.foldl (step X) E).obcChain.length = E.obcChain.length := by
  induction calls generalizing E with
  | nil => rfl
  | cons c cs ih =>
    rw [List.foldl_cons, ih, step_obcChain_length]

/-- In every reachable state the chain array has the atom count of the parameters the engine was
constructed with. -/
theorem run_obcChain_length (X : Externals R) (P : ObcSoftcoreParameters R)
    (calls : List (Call R)) :
    (getObcChain (run X P calls)).length = P.numberOfAtoms := by
  unfold getObcChain run
  rw [foldl_step_obcChain_length]
  simp [construct]

/-- Only `setObcSoftcoreParameters` changes the atom count of the parameters held. -/
theorem step_numberOfAtoms (X : Externals R) (E : CpuObcSoftcore R) (c : Call R)
    (hc : ∀ Q, c = Call.setParameters Q → Q.numberOfAtoms = E.obcSoftcoreParameters.numberOfAtoms) :
    (step X E c).obcSoftcoreParameters.numberOfAtoms = E.obcSoftcoreParameters.numberOfAtoms := by
  cases c with
  | setParameters P => exact hc P rfl
  | setAce v => rfl
  | bornRadii coords b => rfl
  | energyForces coords q f => rfl

theorem foldl_step_numberOfAtoms (X : Externals R) (n : Nat) (calls : List (Call R))
    (hc : ∀ c ∈ calls, ∀ Q, c = Call.setParameters Q → Q.numberOfAtoms = n)
    (E : CpuObcSoftcore R) (hE : E.obcSoftcoreParameters.numberOfAtoms = n) :
    (calls.foldl (step X) E).obcSoftcoreParameters.numberOfAtoms = n := by
  induction calls generalizing E with
  | nil => exact hE
  | cons c cs ih =>
    rw [List.foldl_cons]
    apply ih (fun d hd => hc d (List.mem_cons_of_mem _ hd))
    rw [step_numberOfAtoms X E c
      (fun Q hQ => (hc c (List.mem_cons_self _ _) Q hQ).trans hE.symm)]
    exact hE

/-- The size invariant holds along every sequence of calls whose replaced parameters objects all
have the atom count of the parameters the engine was constructed with. -/
theorem chain_size_of_same_count (X : Externals R) (P : ObcSoftcoreParameters R)
    (calls : List (Call R))
    (hc : ∀ c ∈ calls, ∀ Q, c = Call.setParameters Q → Q.numberOfAtoms = P.numberOfAtoms) :
    (getObcChain (run X P calls)).length
      = (run X P calls).obcSoftcoreParameters.numberOfAtoms := by
  rw [run_obcChain_length]
  exact (foldl_step_numberOfAtoms X P.numberOfAtoms calls hc (construct P) rfl).symm

/-- C13 (chain-array size invariant) fails in the code: in every reachable state the chain array
has the atom count of the parameters the engine was CONSTRUCTED with, because
`setObcSoftcoreParameters` replaces the parameters without resizing the array. So after
constructing with the two-atom `sampleParameters` and calling `setObcSoftcoreParameters` with the
three-atom `threeAtomParameters`, the parameters held have `getNumberOfAtoms() = 3` while
`getObcChain()` has size 2, and a following `computeBornRadii` (which writes `obcChain[2]`) still
leaves an array of size 2. -/
theorem chain_size_follows_constructor (X : Externals R) (P : ObcSoftcoreParameters R)
    (calls : List (Call R)) (coords : List (RealVec R)) (b : List R) :
    (getObcChain (run X P calls)).length = P.numberOfAtoms
      ∧ (run X (sampleParameters R)
            [Call.setParameters (threeAtomParameters R)]).obcSoftcoreParameters.numberOfAtoms = 3
      ∧ (getObcChain (run X (sampleParameters R)
            [Call.setParameters (threeAtomParameters R)])).length = 2
      ∧ (run X (sampleParameters R)
            [Call.setParameters (threeAtomParameters R),
              Call.bornRadii coords b]).obcSoftcoreParameters.numberOfAtoms = 3
      ∧ (getObcChain (run X (sampleParameters R)
            [Call.setParameters (threeAtomParameters R), Call.bornRadii coords b])).length = 2 := by
  refine ⟨?_, rfl, ?_, rfl, ?_⟩
  · unfold getObcChain run
    rw [foldl_step_obcChain_length]
    simp [construct]
  · unfold getObcChain run
    rw [foldl_step_obcChain_length]
    rfl
  · unfold getObcChain run
    rw [foldl_step_obcChain_length]
    rfl

end Settled13

end ObcSoftcore

namespace ObcSoftcore

section CheckedLemmas

variable {R : Type} [LinearOrderedField R]

theorem checkedDiv_of_ne (a b : R) (h : b ≠ 0) : checkedDiv a b = some (a / b) := by
  unfold checkedDiv
  rw [if_neg h]

theorem checkedDiv_zero (a : R) : checkedDiv a 0 = none := by
  unfold checkedDiv
  rw [if_pos rfl]

theorem checkedLn_of_pos (X : Externals R) (a : R) (h : 0 < a) :
    checkedLn X a = some (X.ln a) := by
  unfold checkedLn
  rw [if_pos h]

/-- A checked loop all of whose passes have a value has the value of the unchecked loop. -/
theorem foldlM_eq_some_foldl {α : Type} (f : α → Nat → Option α) (g : α → Nat → α)
    (l : List Nat) (h : ∀ j ∈ l, ∀ s, f s j = some (g s j)) (a : α) :
    l.foldlM f a = some (l.foldl g a) := by
  induction l generalizing a with
  | nil => rfl
  | cons j js ih =>
    rw [List.foldlM_cons, h j (List.mem_cons_self _ _) a, List.foldl_cons]
    exact ih (fun k hk => h k (List.mem_cons_of_mem _ hk)) (g a j)

/-- With a positive offset radius of atom `i` and a positive distance to every other atom, every
division and logarithm of one pass of the inner loop has a valid argument, and the pass has the
value of the unchecked pass. -/
theorem bornRadiiInnerChecked_eq (X : Externals R) (P : ObcSoftcoreParameters R)
    (x : List (RealVec R)) (i : Nat) (off rinv s : R) (j : Nat) (hoff : 0 < off)
    (hr : j ≠ i → 0 < (pairDeltaR X P x i j).r) :
    bornRadiiInnerChecked X P x i off rinv s j = some (bornRadiiInner X P x i off rinv s j) := by
  unfold bornRadiiInnerChecked bornRadiiInner
  by_cases hji : j = i
  · simp [hji]
  · have hr0 := hr hji
    simp only [ne_eq, hji, not_false_eq_true, if_true]
    by_cases hcut : P.useCutoff = true ∧ (pairDeltaR X P x i j).r > P.cutoffDistance
    · rw [if_pos hcut, if_pos hcut]
    · rw [if_neg hcut, if_neg hcut]
      by_cases hov : off < (pairDeltaR X P x i j).r
            + (P.atomicRadii.getD j 0 - P.dielectricOffset) * P.scaledRadiusFactors.getD j 0
      · rw [if_pos hov, if_pos hov]
        have hl : 0 < (if off > |(pairDeltaR X P x i j).r
              - (P.atomicRadii.getD j 0 - P.dielectricOffset) * P.scaledRadiusFactors.getD j 0|
            then off
            else |(pairDeltaR X P x i j).r
              - (P.atomicRadii.getD j 0 - P.dielectricOffset)
                * P.scaledRadiusFactors.getD j 0|) := by
          split_ifs with h
          · exact hoff
          · exact lt_of_lt_of_le hoff (not_lt.mp h)
        have hu : 0 < (pairDeltaR X P x i j).r
            + (P.atomicRadii.getD j 0 - P.dielectricOffset) * P.scaledRadiusFactors.getD j 0 :=
          lt_trans hoff hov
        rw [checkedDiv_of_ne _ _ (ne_of_gt hr0), Option.some_bind,
          checkedDiv_of_ne _ _ (ne_of_gt hl), Option.some_bind,
          checkedDiv_of_ne _ _ (ne_of_gt hu), Option.some_bind,
          checkedDiv_of_ne _ _ (ne_of_gt (one_div_pos.mpr hl)), Option.some_bind,
          checkedLn_of_pos _ _ (div_pos (one_div_pos.mpr hu) (one_div_pos.mpr hl)),
          Option.some_bind]
      · rw [if_neg hov, if_neg hov]

end CheckedLemmas

section Settled11

/-- With valid radii of atom `i` and a positive distance to every other atom, every division and
logarithm of one pass of the outer loop has a valid argument, and the pass has the value of the
unchecked pass. -/
theorem bornRadiiOuterChecked_eq (X : Externals ℝ) (P : ObcSoftcoreParameters ℝ)
    (x : List (RealVec ℝ)) (st : List ℝ × List ℝ) (i : Nat)
    (hd : 0 ≤ P.dielectricOffset) (hoff : 0 < offsetRadius P i) (htanh : ∀ y, X.tanh y < 1)
    (hr : ∀ j ∈ loopIndices 0 P.numberOfAtoms, j ≠ i → 0 < (pairDeltaR X P x i j).r) :
    bornRadiiOuterChecked X P x st i = some (bornRadiiOuter X P x st i) := by
  unfold bornRadiiOuterChecked bornRadiiOuter
  have hoff0 : 0 < P.atomicRadii.getD i 0 - P.dielectricOffset := hoff
  have hrad : 0 < P.atomicRadii.getD i 0 := by linarith
  have hle : P.atomicRadii.getD i 0 - P.dielectricOffset ≤ P.atomicRadii.getD i 0 := by linarith
  simp only []
  rw [checkedDiv_of_ne _ _ (ne_of_gt hoff0), Option.some_bind,
    foldlM_eq_some_foldl _
      (bornRadiiInner X P x i (P.atomicRadii.getD i 0 - P.dielectricOffset)
        (1 / (P.atomicRadii.getD i 0 - P.dielectricOffset))) _
      (fun j hj s => bornRadiiInnerChecked_eq X P x i _ _ s j hoff0 (hr j hj)),
    Option.some_bind, Option.some_bind, checkedDiv_of_ne _ _ (ne_of_gt hrad), Option.some_bind,
    checkedDiv_of_ne _ _ (ne_of_gt (obc_denominator_pos _ _ _ hoff0 hle (htanh _))),
    Option.some_bind, checkedDiv_of_ne _ _ (ne_of_gt hrad), Option.some_bind]

/-- With valid radii and a positive distance between every two distinct atoms, every division and
logarithm that `computeBornRadii` evaluates has a valid argument, and the checked routine has the
value of the routine. -/
theorem computeBornRadiiChecked_eq (X : Externals ℝ) (hX : IsRealMath X) (E : CpuObcSoftcore ℝ)
    (x : List (RealVec ℝ)) (b : List ℝ) (hval : ValidRadii E.obcSoftcoreParameters)
    (hr : ∀ k l, k < E.obcSoftcoreParameters.numberOfAtoms →
      l < E.obcSoftcoreParameters.numberOfAtoms → k ≠ l →
      0 < pairDist X E.obcSoftcoreParameters x k l) :
    computeBornRadiiChecked X E x b = some (computeBornRadii X E x b) := by
  unfold computeBornRadiiChecked computeBornRadii
  simp only []
  rw [foldlM_eq_some_foldl _ (bornRadiiOuter X E.obcSoftcoreParameters x) _
    (fun i hi st => bornRadiiOuterChecked_eq X E.obcSoftcoreParameters x st i hval.1
      (sub_pos.mpr (hval.2 i ((mem_loopIndices _ _ _).mp hi).2))
      (fun y => by rw [hX.2.2.2.1]; exact real_tanh_lt_one y)
      (fun j hj hji => hr i j ((mem_loopIndices _ _ _).mp hi).2
        ((mem_loopIndices _ _ _).mp hj).2 (Ne.symm hji)))]
  rfl

theorem buried_pairDist (X : Externals ℝ) (hX : IsRealMath X) (i j : Nat) (hi : i < 2)
    (hj : j < 2) (hij : i ≠ j) :
    pairDist X (buriedParameters ℝ) (sampleCoordinates ℝ) i j = 3 / 10 := by
  have h1 : Real.sqrt ((3 / 10 : ℝ) * (3 / 10)) = 3 / 10 := Real.sqrt_mul_self (by norm_num)
  rw [pairDist_nonperiodic X hX _ rfl, pairR2_nonperiodic X _ rfl]
  interval_cases i <;> interval_cases j
  · exact absurd rfl hij
  · simp [sampleCoordinates, h1]
  · simp [sampleCoordinates, h1]
  · exact absurd rfl hij

theorem buried_validRadii : ValidRadii (buriedParameters ℝ) := by
  refine ⟨by norm_num [buriedParameters, sampleParameters], fun i hi => ?_⟩
  have hi2 : i < 2 := hi
  interval_cases i <;> norm_num [buriedParameters, sampleParameters]

theorem coincident_pairDist (X : Externals ℝ) (hX : IsRealMath X) :
    pairDist X (buriedParameters ℝ) (coincidentCoordinates ℝ) 0 1 = 0 := by
  rw [pairDist_nonperiodic X hX _ rfl, pairR2_nonperiodic X _ rfl]
  simp [coincidentCoordinates]

/-- C11 (complete burial without an invalid argument), amended to a positive separation: for
real arithmetic, radii with `radius > dielectricOffset ≥ 0` and a positive distance between every
two distinct atoms, if the pair `(i, j)` is not skipped by the cutoff and
`offsetRadius_i < scaledRadius_j - r`, then the pass of `computeBornRadii` for the pair takes the
complete-burial branch, adding `2*(1/offsetRadius_i - l_ij)` to the closed-form pair term, with
`max(offsetRadius_i, |r - scaledRadius_j|) = scaledRadius_j - r`; and every division and every
logarithm that `computeBornRadii` evaluates, for all atoms, has a valid argument: the routine
with checked divisions and logarithms returns the values of the routine. -/
theorem burial_branch_has_valid_arguments (X : Externals ℝ) (hX : IsRealMath X)
    (E : CpuObcSoftcore ℝ) (x : List (RealVec ℝ)) (b : List ℝ) (i j : Nat)
    (hval : ValidRadii E.obcSoftcoreParameters)
    (hr : ∀ k l, k < E.obcSoftcoreParameters.numberOfAtoms →
      l < E.obcSoftcoreParameters.numberOfAtoms → k ≠ l →
      0 < pairDist X E.obcSoftcoreParameters x k l)
    (hi : i < E.obcSoftcoreParameters.numberOfAtoms)
    (hj : j < E.obcSoftcoreParameters.numberOfAtoms) (hij : i ≠ j)
    (hcut : ¬ cutoffSkips E.obcSoftcoreParameters (pairDist X E.obcSoftcoreParameters x i j))
    (hbur : offsetRadius E.obcSoftcoreParameters i
      < scaledRadius E.obcSoftcoreParameters j - pairDist X E.obcSoftcoreParameters x i j) :
    (∀ s, bornRadiiInner X E.obcSoftcoreParameters x i (offsetRadius E.obcSoftcoreParameters i)
          (1 / offsetRadius E.obcSoftcoreParameters i) s j
        = s + E.obcSoftcoreParameters.nonPolarScaleFactors.getD j 0
          * (1 / max (offsetRadius E.obcSoftcoreParameters i)
                |pairDist X E.obcSoftcoreParameters x i j - scaledRadius E.obcSoftcoreParameters j|
              - 1 / (pairDist X E.obcSoftcoreParameters x i j
                  + scaledRadius E.obcSoftcoreParameters j)
              + pairDist X E.obcSoftcoreParameters x i j
                * ((1 / (pairDist X E.obcSoftcoreParameters x i j
                      + scaledRadius E.obcSoftcoreParameters j)) ^ 2
                  - (1 / max (offsetRadius E.obcSoftcoreParameters i)
                      |pairDist X E.obcSoftcoreParameters x i j
                        - scaledRadius E.obcSoftcoreParameters j|) ^ 2) / 4
              + X.ln (1 / (pairDist X E.obcSoftcoreParameters x i j
                    + scaledRadius E.obcSoftcoreParameters j)
                  / (1 / max (offsetRadius E.obcSoftcoreParameters i)
                      |pairDist X E.obcSoftcoreParameters x i j
                        - scaledRadius E.obcSoftcoreParameters j|))
                / (2 * pairDist X E.obcSoftcoreParameters x i j)
              + scaledRadius E.obcSoftcoreParameters j ^ 2
                * ((1 / max (offsetRadius E.obcSoftcoreParameters i)
                      |pairDist X E.obcSoftcoreParameters x i j
                        - scaledRadius E.obcSoftcoreParameters j|) ^ 2
                  - (1 / (pairDist X E.obcSoftcoreParameters x i j
                      + scaledRadius E.obcSoftcoreParameters j)) ^ 2)
                / (4 * pairDist X E.obcSoftcoreParameters x i j)
              + 2 * (1 / offsetRadius E.obcSoftcoreParameters i
                  - 1 / max (offsetRadius E.obcSoftcoreParameters i)
                      |pairDist X E.obcSoftcoreParameters x i j
                        - scaledRadius E.obcSoftcoreParameters j|)))
      ∧ max (offsetRadius E.obcSoftcoreParameters i)
            |pairDist X E.obcSoftcoreParameters x i j - scaledRadius E.obcSoftcoreParameters j|
          = scaledRadius E.obcSoftcoreParameters j - pairDist X E.obcSoftcoreParameters x i j
      ∧ computeBornRadiiChecked X E x b = some (computeBornRadii X E x b) := by
  have hr0 := hr i j hi hj hij
  have hov : offsetRadius E.obcSoftcoreParameters i
      < pairDist X E.obcSoftcoreParameters x i j + scaledRadius E.obcSoftcoreParameters j := by
    linarith
  refine ⟨fun s => ?_, ?_, computeBornRadiiChecked_eq X hX E x b hval hr⟩
  · rw [bornRadiiInner_eq, if_pos ⟨Ne.symm hij, hcut⟩]
    unfold specTerm
    rw [if_pos hov]
    simp only [if_pos hbur]
  · have hoff : 0 < offsetRadius E.obcSoftcoreParameters i :=
      sub_pos.mpr (hval.2 i hi)
    rw [abs_of_neg (by linarith), neg_sub]
    exact max_eq_right (le_of_lt hbur)

theorem burial_branch_has_valid_arguments_witness :
    (ValidRadii (buriedEngine ℝ).obcSoftcoreParameters
      ∧ (∀ k l, k < (buriedEngine ℝ).obcSoftcoreParameters.numberOfAtoms →
          l < (buriedEngine ℝ).obcSoftcoreParameters.numberOfAtoms → k ≠ l →
          0 < pairDist ⟨Real.sqrt, Real.exp, Real.log, Real.tanh, fun x y => x ^ y,
            fun _ _ _ => ⟨0, 0, 0, 0, 0⟩⟩ (buriedEngine ℝ).obcSoftcoreParameters
            (sampleCoordinates ℝ) k l)
      ∧ ¬ cutoffSkips (buriedEngine ℝ).obcSoftcoreParameters
          (pairDist ⟨Real.sqrt, Real.exp, Real.log, Real.tanh, fun x y => x ^ y,
            fun _ _ _ => ⟨0, 0, 0, 0, 0⟩⟩ (buriedEngine ℝ).obcSoftcoreParameters
            (sampleCoordinates ℝ) 0 1)
      ∧ offsetRadius (buriedEngine ℝ).obcSoftcoreParameters 0
          < scaledRadius (buriedEngine ℝ).obcSoftcoreParameters 1
            - pairDist ⟨Real.sqrt, Real.exp, Real.log, Real.tanh, fun x y => x ^ y,
              fun _ _ _ => ⟨0, 0, 0, 0, 0⟩⟩ (buriedEngine ℝ).obcSoftcoreParameters
              (sampleCoordinates ℝ) 0 1)
    ∧ computeBornRadiiChecked ⟨Real.sqrt, Real.exp, Real.log, Real.tanh, fun x y => x ^ y,
          fun _ _ _ => ⟨0, 0, 0, 0, 0⟩⟩ (buriedEngine ℝ) (sampleCoordinates ℝ) [0, 0]
        = some (computeBornRadii ⟨Real.sqrt, Real.exp, Real.log, Real.tanh, fun x y => x ^ y,
          fun _ _ _ => ⟨0, 0, 0, 0, 0⟩⟩ (buriedEngine ℝ) (sampleCoordinates ℝ) [0, 0]) :=
  have hX : IsRealMath ⟨Real.sqrt, Real.exp, Real.log, Real.tanh, fun x y => x ^ y,
      fun _ _ _ => ⟨0, 0, 0, 0, 0⟩⟩ := ⟨rfl, rfl, rfl, rfl, rfl⟩
  have hr : ∀ k l, k < (buriedEngine ℝ).obcSoftcoreParameters.numberOfAtoms →
      l < (buriedEngine ℝ).obcSoftcoreParameters.numberOfAtoms → k ≠ l →
      0 < pairDist ⟨Real.sqrt, Real.exp, Real.log, Real.tanh, fun x y => x ^ y,
        fun _ _ _ => ⟨0, 0, 0, 0, 0⟩⟩ (buriedEngine ℝ).obcSoftcoreParameters
        (sampleCoordinates ℝ) k l := fun k l hk hl hkl => by
    have h := buried_pairDist _ hX k l hk hl hkl
    have e : (buriedEngine ℝ).obcSoftcoreParameters = buriedParameters ℝ := rfl
    rw [e, h]
    norm_num
  have hcut : ¬ cutoffSkips (buriedEngine ℝ).obcSoftcoreParameters
      (pairDist ⟨Real.sqrt, Real.exp, Real.log, Real.tanh, fun x y => x ^ y,
        fun _ _ _ => ⟨0, 0, 0, 0, 0⟩⟩ (buriedEngine ℝ).obcSoftcoreParameters
        (sampleCoordinates ℝ) 0 1) := not_cutoffSkips _ rfl _
  have hbur : offsetRadius (buriedEngine ℝ).obcSoftcoreParameters 0
      < scaledRadius (buriedEngine ℝ).obcSoftcoreParameters 1
        - pairDist ⟨Real.sqrt, Real.exp, Real.log, Real.tanh, fun x y => x ^ y,
          fun _ _ _ => ⟨0, 0, 0, 0, 0⟩⟩ (buriedEngine ℝ).obcSoftcoreParameters
          (sampleCoordinates ℝ) 0 1 := by
    have h := buried_pairDist _ hX 0 1 (by norm_num) (by norm_num) (by norm_num)
    have e : (buriedEngine ℝ).obcSoftcoreParameters = buriedParameters ℝ := rfl
    rw [e, h]
    norm_num [offsetRadius, scaledRadius, buriedParameters, sampleParameters]
  ⟨⟨buried_validRadii, hr, hcut, hbur⟩,
    (burial_branch_has_valid_arguments _ hX (buriedEngine ℝ) (sampleCoordinates ℝ) [0, 0] 0 1
      buried_validRadii hr (by decide) (by decide) (by decide) hcut hbur).2.2⟩

/-- C11 as stated fails: at zero separation the premise `0 < offsetRadius_i <
scaledRadius_j - r` holds for the atoms of `buriedEngine` (`0.091 < 0.991 - 0`), the pair is not
skipped and the branch `offsetRadius_i < r + scaledRadius_j` is entered, where line 194 evaluates
`one/r` with `r = 0`: the pass for the pair has a division by zero, and so has the call. -/
theorem burial_at_zero_separation_counterexample :
    pairDist ⟨Real.sqrt, Real.exp, Real.log, Real.tanh, fun x y => x ^ y,
        fun _ _ _ => ⟨0, 0, 0, 0, 0⟩⟩ (buriedEngine ℝ).obcSoftcoreParameters
        (coincidentCoordinates ℝ) 0 1 = 0
      ∧ 0 < offsetRadius (buriedEngine ℝ).obcSoftcoreParameters 0
      ∧ offsetRadius (buriedEngine ℝ).obcSoftcoreParameters 0
          < scaledRadius (buriedEngine ℝ).obcSoftcoreParameters 1
            - pairDist ⟨Real.sqrt, Real.exp, Real.log, Real.tanh, fun x y => x ^ y,
              fun _ _ _ => ⟨0, 0, 0, 0, 0⟩⟩ (buriedEngine ℝ).obcSoftcoreParameters
              (coincidentCoordinates ℝ) 0 1
      ∧ (∀ s, bornRadiiInnerChecked ⟨Real.sqrt, Real.exp, Real.log, Real.tanh, fun x y => x ^ y,
            fun _ _ _ => ⟨0, 0, 0, 0, 0⟩⟩ (buriedEngine ℝ).obcSoftcoreParameters
            (coincidentCoordinates ℝ) 0 (offsetRadius (buriedEngine ℝ).obcSoftcoreParameters 0)
            (1 / offsetRadius (buriedEngine ℝ).obcSoftcoreParameters 0) s 1 = none)
      ∧ computeBornRadiiChecked ⟨Real.sqrt, Real.exp, Real.log, Real.tanh, fun x y => x ^ y,
            fun _ _ _ => ⟨0, 0, 0, 0, 0⟩⟩ (buriedEngine ℝ) (coincidentCoordinates ℝ) [0, 0]
          = none := by
  have hX : IsRealMath ⟨Real.sqrt, Real.exp, Real.log, Real.tanh, fun x y => x ^ y,
      fun _ _ _ => ⟨0, 0, 0, 0, 0⟩⟩ := ⟨rfl, rfl, rfl, rfl, rfl⟩
  have e : (buriedEngine ℝ).obcSoftcoreParameters = buriedParameters ℝ := rfl
  have hd := coincident_pairDist _ hX
  have hoff : offsetRadius (buriedParameters ℝ) 0 = 91 / 1000 := by
    norm_num [offsetRadius, buriedParameters, sampleParameters]
  have hsc : scaledRadius (buriedParameters ℝ) 1 = 991 / 1000 := by
    norm_num [scaledRadius, buriedParameters, sampleParameters]
  have hinner : ∀ s, bornRadiiInnerChecked ⟨Real.sqrt, Real.exp, Real.log, Real.tanh,
      fun x y => x ^ y, fun _ _ _ => ⟨0, 0, 0, 0, 0⟩⟩ (buriedParameters ℝ)
      (coincidentCoordinates ℝ) 0 (offsetRadius (buriedParameters ℝ) 0)
      (1 / offsetRadius (buriedParameters ℝ) 0) s 1 = none := by
    intro s
    have hd0 : (pairDeltaR ⟨Real.sqrt, Real.exp, Real.log, Real.tanh, fun x y => x ^ y,
        fun _ _ _ => ⟨0, 0, 0, 0, 0⟩⟩ (buriedParameters ℝ) (coincidentCoordinates ℝ) 0 1).r
        = 0 := hd
    have hsc0 : ((buriedParameters ℝ).atomicRadii.getD 1 0 - (buriedParameters ℝ).dielectricOffset)
        * (buriedParameters ℝ).scaledRadiusFactors.getD 1 0 = 991 / 1000 := hsc
    have hcutoff : (buriedParameters ℝ).useCutoff = false := rfl
    unfold bornRadiiInnerChecked
    simp only []
    rw [if_pos (by decide), hd0, hsc0, hoff, hcutoff, if_neg (by simp), if_pos (by norm_num),
      checkedDiv_zero, Option.none_bind]
  rw [e, hd, hoff, hsc]
  refine ⟨rfl, by norm_num, by norm_num, ?_, ?_⟩
  · rw [← hoff]
    exact hinner
  · unfold computeBornRadiiChecked
    rw [e]
    have hN : loopIndices 0 (buriedParameters ℝ).numberOfAtoms = [0, 1] := rfl
    simp only []
    rw [hN, List.foldlM_cons]
    have houter : bornRadiiOuterChecked ⟨Real.sqrt, Real.exp, Real.log, Real.tanh,
        fun x y => x ^ y, fun _ _ _ => ⟨0, 0, 0, 0, 0⟩⟩ (buriedParameters ℝ)
        (coincidentCoordinates ℝ) ([0, 0], (buriedEngine ℝ).obcChain) 0 = none := by
      unfold bornRadiiOuterChecked
      simp only []
      have hoff0 : (buriedParameters ℝ).atomicRadii.getD 0 0
          - (buriedParameters ℝ).dielectricOffset = offsetRadius (buriedParameters ℝ) 0 := rfl
      rw [hN, hoff0, checkedDiv_of_ne _ _ (by rw [hoff]; norm_num), Option.some_bind,
        List.foldlM_cons]
      have h00 : bornRadiiInnerChecked ⟨Real.sqrt, Real.exp, Real.log, Real.tanh,
          fun x y => x ^ y, fun _ _ _ => ⟨0, 0, 0, 0, 0⟩⟩ (buriedParameters ℝ)
          (coincidentCoordinates ℝ) 0 (offsetRadius (buriedParameters ℝ) 0)
          (1 / offsetRadius (buriedParameters ℝ) 0) 0 0 = some 0 := by
        unfold bornRadiiInnerChecked
        rw [if_neg (by simp)]
      rw [h00]
      simp only [Option.some_bind, Option.bind_eq_bind, List.foldlM_cons, hinner,
        Option.none_bind]
    rw [houter]
    rfl

end Settled11

end ObcSoftcore

namespace ObcSoftcore

section Settled21

/-- One pass of the inner loop of `computeBornRadii` that is not skipped adds `pairTerm`, plus
`burialCorrection` under its guard, when the guard `offsetRadiusI < r + scaledRadiusJ` holds, and
nothing otherwise. -/
theorem bornRadiiInner_pairTerm {R : Type} [LinearOrderedField R] (X : Externals R)
    (P : ObcSoftcoreParameters R) (x : List (RealVec R)) (i j : Nat) (sum : R) (hji : j ≠ i)
    (hcut : ¬ cutoffSkips P (pairDist X P x i j)) :
    bornRadiiInner X P x i (offsetRadius P i) (1 / offsetRadius P i) sum j
      = sum + P.nonPolarScaleFactors.getD j 0
          * (if offsetRadius P i < pairDist X P x i j + scaledRadius P j then
              pairTerm X (offsetRadius P i) (scaledRadius P j) (pairDist X P x i j)
                + (if offsetRadius P i < scaledRadius P j - pairDist X P x i j then
                    burialCorrection (offsetRadius P i) (scaledRadius P j) (pairDist X P x i j)
                  else 0)
            else 0) := by
  unfold bornRadiiInner pairTerm burialCorrection
  unfold cutoffSkips pairDist at hcut
  unfold pairDist scaledRadius offsetRadius
  simp only [ne_eq, hji, not_false_eq_true, if_true]
  rw [if_neg hcut]
  by_cases hov : P.atomicRadii.getD i 0 - P.dielectricOffset
      < (pairDeltaR X P x i j).r
        + (P.atomicRadii.getD j 0 - P.dielectricOffset) * P.scaledRadiusFactors.getD j 0
  · rw [if_pos hov, if_pos hov]
    by_cases hb : P.atomicRadii.getD i 0 - P.dielectricOffset
        < (P.atomicRadii.getD j 0 - P.dielectricOffset) * P.scaledRadiusFactors.getD j 0
          - (pairDeltaR X P x i j).r
    · rw [if_pos hb, if_pos hb]
    · rw [if_neg hb, if_neg hb, add_zero]
  · rw [if_neg hov, if_neg hov, mul_zero, add_zero]

/-- C21 (the Born-radius pair contribution has no jump at its branch thresholds): for real
arithmetic and every `r > 0`, `scaledRadius_j ≥ 0`, `offsetRadius_i > 0`: (a) if
`offsetRadius_i = r + scaledRadius_j`, the value `term` of `computeBornRadii`, which is the closed
form `l - u + r*(u^2 - l^2)/4 + ln(u/l)/(2r) + scaledRadius_j^2*(l^2 - u^2)/(4r)` with
`l = 1/max(offsetRadius_i, |r - scaledRadius_j|)` and `u = 1/(r + scaledRadius_j)`, is `0`, the
contribution used when the guard `offsetRadius_i < r + scaledRadius_j` fails; (b) if
`offsetRadius_i = scaledRadius_j - r`, the complete-burial correction `2*(1/offsetRadius_i - l)`
is `0`, matching its omission when the guard `offsetRadius_i < scaledRadius_j - r` fails; so
(c) the amount a pass of the inner loop of `computeBornRadii` adds for a pair that is not skipped
is the same with both guards read as `≤`. -/
theorem pair_term_no_jump (X : Externals ℝ) (hX : IsRealMath X) (off s r : ℝ) (hr : 0 < r)
    (hs : 0 ≤ s) (hoff : 0 < off) :
    (off = r + s →
        pairTerm X off s r = 0
          ∧ pairTerm X off s r
            = 1 / max off |r - s| - 1 / (r + s)
              + r * ((1 / (r + s)) ^ 2 - (1 / max off |r - s|) ^ 2) / 4
              + Real.log (1 / (r + s) / (1 / max off |r - s|)) / (2 * r)
              + s ^ 2 * ((1 / max off |r - s|) ^ 2 - (1 / (r + s)) ^ 2) / (4 * r)
          ∧ ¬ off < r + s)
      ∧ (off = s - r →
        burialCorrection off s r = 0
          ∧ burialCorrection off s r = 2 * (1 / off - 1 / max off |r - s|)
          ∧ ¬ off < s - r)
      ∧ ∀ (P : ObcSoftcoreParameters ℝ) (x : List (RealVec ℝ)) (i j : Nat) (sum : ℝ),
          j ≠ i → ¬ cutoffSkips P (pairDist X P x i j) → offsetRadius P i = off →
          scaledRadius P j = s → pairDist X P x i j = r →
          bornRadiiInner X P x i (offsetRadius P i) (1 / offsetRadius P i) sum j
            = sum + P.nonPolarScaleFactors.getD j 0
                * (if off ≤ r + s then
                    pairTerm X off s r + (if off ≤ s - r then burialCorrection off s r else 0)
                  else 0) := by
  have hmax : (if off > |r - s| then off else |r - s|) = max off |r - s| := by
    split_ifs with h
    · exact (max_eq_left (le_of_lt h)).symm
    · exact (max_eq_right (not_lt.mp h)).symm
  have hterm : pairTerm X off s r
      = 1 / max off |r - s| - 1 / (r + s)
        + r * ((1 / (r + s)) ^ 2 - (1 / max off |r - s|) ^ 2) / 4
        + Real.log (1 / (r + s) / (1 / max off |r - s|)) / (2 * r)
        + s ^ 2 * ((1 / max off |r - s|) ^ 2 - (1 / (r + s)) ^ 2) / (4 * r) := by
    unfold pairTerm
    simp only [hmax, hX.2.2.1]
    ring
  have hcorr : burialCorrection off s r = 2 * (1 / off - 1 / max off |r - s|) := by
    unfold burialCorrection
    simp only [hmax]
  have ha : off = r + s → pairTerm X off s r = 0 := by
    intro h
    have habs : |r - s| ≤ off := by
      rw [h, abs_le]
      constructor <;> linarith
    rw [hterm, max_eq_left habs, h]
    have hpos : (0 : ℝ) < r + s := by linarith
    rw [div_self (ne_of_gt (one_div_pos.mpr hpos)), Real.log_one]
    ring
  have hb : off = s - r → burialCorrection off s r = 0 := by
    intro h
    have habs : |r - s| = off := by
      rw [h, abs_sub_comm]
      exact abs_of_pos (by linarith)
    rw [hcorr, habs, max_self]
    ring
  refine ⟨fun h => ⟨ha h, hterm, by rw [h]; exact lt_irrefl _⟩,
    fun h => ⟨hb h, hcorr, by rw [h]; exact lt_irrefl _⟩, ?_⟩
  intro P x i j sum hji hcut hoffP hsP hrP
  rw [bornRadiiInner_pairTerm X P x i j sum hji hcut, hoffP, hsP, hrP]
  congr 1
  congr 1
  have hinner : (if off < s - r then burialCorrection off s r else 0)
      = if off ≤ s - r then burialCorrection off s r else 0 := by
    rcases lt_trichotomy off (s - r) with h | h | h
    · rw [if_pos h, if_pos (le_of_lt h)]
    · rw [if_neg (by rw [h]; exact lt_irrefl _), if_pos (le_of_eq h), hb h]
    · rw [if_neg (not_lt.mpr (le_of_lt h)), if_neg (not_le.mpr h)]
  rcases lt_trichotomy off (r + s) with h | h | h
  · rw [if_pos h, if_pos (le_of_lt h), hinner]
  · have hno : ¬ off ≤ s - r := by
      rw [h]
      intro hle
      linarith
    rw [if_neg (by rw [h]; exact lt_irrefl _), if_pos (le_of_eq h), ha h, if_neg hno, add_zero]
  · rw [if_neg (not_lt.mpr (le_of_lt h)), if_neg (not_le.mpr h)]

theorem pair_term_no_jump_witness :
    ((0 : ℝ) < 3 / 10 ∧ (0 : ℝ) ≤ 1 ∧ (0 : ℝ) < 13 / 10 ∧ (13 / 10 : ℝ) = 3 / 10 + 1)
      ∧ pairTerm ⟨Real.sqrt, Real.exp, Real.log, Real.tanh, fun x y => x ^ y,
          fun _ _ _ => ⟨0, 0, 0, 0, 0⟩⟩ (13 / 10 : ℝ) 1 (3 / 10) = 0
      ∧ ((0 : ℝ) < 7 / 10 ∧ (7 / 10 : ℝ) = 1 - 3 / 10)
      ∧ burialCorrection (7 / 10 : ℝ) 1 (3 / 10) = 0 :=
  ⟨⟨by norm_num, by norm_num, by norm_num, by norm_num⟩,
    ((pair_term_no_jump ⟨Real.sqrt, Real.exp, Real.log, Real.tanh, fun x y => x ^ y,
        fun _ _ _ => ⟨0, 0, 0, 0, 0⟩⟩ ⟨rfl, rfl, rfl, rfl, rfl⟩ (13 / 10) 1 (3 / 10)
        (by norm_num) (by norm_num) (by norm_num)).1 (by norm_num)).1,
    ⟨by norm_num, by norm_num⟩,
    ((pair_term_no_jump ⟨Real.sqrt, Real.exp, Real.log, Real.tanh, fun x y => x ^ y,
        fun _ _ _ => ⟨0, 0, 0, 0, 0⟩⟩ ⟨rfl, rfl, rfl, rfl, rfl⟩ (7 / 10) 1 (3 / 10)
        (by norm_num) (by norm_num) (by norm_num)).2.1 (by norm_num)).1⟩

end Settled21

end ObcSoftcore

namespace ObcSoftcore

section Settled4

variable {R : Type} [LinearOrderedField R]

/-- A pass of the inner loop of `computeBornRadii` for `j = i` or for a pair skipped by the cutoff
evaluates no division and leaves the sum as it was. -/
theorem bornRadiiInner_skip (X : Externals R) (P : ObcSoftcoreParameters R)
    (x : List (RealVec R)) (i : Nat) (off rinv s : R) (j : Nat)
    (h : j ≠ i → P.useCutoff = true ∧ (pairDeltaR X P x i j).r > P.cutoffDistance) :
    bornRadiiInnerChecked X P x i off rinv s j = some s
      ∧ bornRadiiInner X P x i off rinv s j = s := by
  unfold bornRadiiInnerChecked bornRadiiInner
  by_cases hji : j = i
  · simp [hji]
  · simp only [ne_eq, hji, not_false_eq_true, if_true]
    rw [if_pos (h hji), if_pos (h hji)]
    exact ⟨rfl, rfl⟩

theorem foldl_bornRadiiInner_skip (X : Externals R) (P : ObcSoftcoreParameters R)
    (x : List (RealVec R)) (i : Nat) (off rinv : R) (l : List Nat)
    (h : ∀ j ∈ l, j ≠ i → P.useCutoff = true ∧ (pairDeltaR X P x i j).r > P.cutoffDistance)
    (s : R) :
    l.foldl (bornRadiiInner X P x i off rinv) s = s := by
  induction l generalizing s with
  | nil => rfl
  | cons j js ih =>
    rw [List.foldl_cons, (bornRadiiInner_skip X P x i off rinv s j
      (h j (List.mem_cons_self _ _))).2]
    exact ih (fun k hk => h k (List.mem_cons_of_mem _ hk)) s

/-- For an atom all of whose pairs are skipped, with non-zero radius and offset radius, every
division of the pass of the outer loop of `computeBornRadii` has a non-zero divisor. -/
theorem bornRadiiOuterChecked_isolated (X : Externals R) (htanh : X.tanh 0 = 0)
    (P : ObcSoftcoreParameters R) (x : List (RealVec R)) (st : List R × List R) (i : Nat)
    (hoff : offsetRadius P i ≠ 0) (hrad : P.atomicRadii.getD i 0 ≠ 0)
    (h : ∀ j ∈ loopIndices 0 P.numberOfAtoms, j ≠ i →
      P.useCutoff = true ∧ (pairDeltaR X P x i j).r > P.cutoffDistance) :
    bornRadiiOuterChecked X P x st i = some (bornRadiiOuter X P x st i) := by
  unfold bornRadiiOuterChecked bornRadiiOuter
  have hoff0 : P.atomicRadii.getD i 0 - P.dielectricOffset ≠ 0 := hoff
  have hden : 1 / (P.atomicRadii.getD i 0 - P.dielectricOffset)
      - X.tanh (P.alphaObc * (0 * (P.nonPolarScaleFactors.getD i 0 * (1 / 2)
            * (P.atomicRadii.getD i 0 - P.dielectricOffset)))
          - P.betaObc * (0 * (P.nonPolarScaleFactors.getD i 0 * (1 / 2)
              * (P.atomicRadii.getD i 0 - P.dielectricOffset))
            * (0 * (P.nonPolarScaleFactors.getD i 0 * (1 / 2)
              * (P.atomicRadii.getD i 0 - P.dielectricOffset))))
          + P.gammaObc * (0 * (P.nonPolarScaleFactors.getD i 0 * (1 / 2)
              * (P.atomicRadii.getD i 0 - P.dielectricOffset))
            * (0 * (P.nonPolarScaleFactors.getD i 0 * (1 / 2)
                * (P.atomicRadii.getD i 0 - P.dielectricOffset))
              * (0 * (P.nonPolarScaleFactors.getD i 0 * (1 / 2)
                * (P.atomicRadii.getD i 0 - P.dielectricOffset))))))
        / P.atomicRadii.getD i 0 ≠ 0 := by
    simp only [zero_mul, mul_zero, sub_zero, add_zero, htanh, zero_div]
    exact one_div_ne_zero hoff0
  simp only []
  rw [checkedDiv_of_ne _ _ hoff0, Option.some_bind,
    foldlM_eq_some_foldl _
      (bornRadiiInner X P x i (P.atomicRadii.getD i 0 - P.dielectricOffset)
        (1 / (P.atomicRadii.getD i 0 - P.dielectricOffset))) _
      (fun j hj s => by
        rw [(bornRadiiInner_skip X P x i _ _ s j (h j hj)).1,
          (bornRadiiInner_skip X P x i _ _ s j (h j hj)).2]),
    Option.some_bind, Option.some_bind, foldl_bornRadiiInner_skip X P x i _ _ _ h,
    checkedDiv_of_ne _ _ hrad, Option.some_bind, checkedDiv_of_ne _ _ hden, Option.some_bind,
    checkedDiv_of_ne _ _ hrad, Option.some_bind]

/-- C4 (isolated-atom limit), amended to `radius_i ≠ 0`: when every pair of distinct atoms is
skipped by the cutoff (the cutoff is enabled and the pair distance exceeds it; vacuous for a single
atom), then for every atom `i` with `offsetRadius_i ≠ 0` and `radius_i ≠ 0` the routine writes
`bornRadii[i] = offsetRadius_i` and `obcChain[i] = alpha*offsetRadius_i/radius_i`, whatever
`beta`, `gamma` and the scale factors are, and every division the pass of atom `i` evaluates has
a non-zero divisor. The only fact about `TANH` used is `tanh 0 = 0`. -/
theorem isolated_atom_limit (X : Externals R) (htanh : X.tanh 0 = 0) (E : CpuObcSoftcore R)
    (coords : List (RealVec R)) (b : List R)
    (hiso : ∀ i j, i < E.obcSoftcoreParameters.numberOfAtoms →
      j < E.obcSoftcoreParameters.numberOfAtoms → i ≠ j →
      E.obcSoftcoreParameters.useCutoff = true
        ∧ pairDist X E.obcSoftcoreParameters coords i j
            > E.obcSoftcoreParameters.cutoffDistance)
    (i : Nat) (hi : i < E.obcSoftcoreParameters.numberOfAtoms) (hb : i < b.length)
    (hc : i < E.obcChain.length) (hoff : offsetRadius E.obcSoftcoreParameters i ≠ 0)
    (hrad : E.obcSoftcoreParameters.atomicRadii.getD i 0 ≠ 0) :
    (computeBornRadii X E coords b).1.getD i 0 = offsetRadius E.obcSoftcoreParameters i
      ∧ (computeBornRadii X E coords b).2.obcChain.getD i 0
          = E.obcSoftcoreParameters.alphaObc * offsetRadius E.obcSoftcoreParameters i
              / E.obcSoftcoreParameters.atomicRadii.getD i 0
      ∧ ∀ st : List R × List R,
          bornRadiiOuterChecked X E.obcSoftcoreParameters coords st i
            = some (bornRadiiOuter X E.obcSoftcoreParameters coords st i) := by
  have h := computeBornRadii_isolated X htanh E coords b hiso i hi hb hc hoff
  refine ⟨h.1, h.2, fun st => ?_⟩
  exact bornRadiiOuterChecked_isolated X htanh E.obcSoftcoreParameters coords st i hoff hrad
    (fun j hj hji => hiso i j hi ((mem_loopIndices _ _ _).mp hj).2 (Ne.symm hji))

theorem isolated_atom_limit_witness :
    (Real.tanh 0 = 0
      ∧ (∀ i j, i < (sampleCutoffEngine ℝ).obcSoftcoreParameters.numberOfAtoms →
          j < (sampleCutoffEngine ℝ).obcSoftcoreParameters.numberOfAtoms → i ≠ j →
          (sampleCutoffEngine ℝ).obcSoftcoreParameters.useCutoff = true
            ∧ pairDist ⟨Real.sqrt, Real.exp, Real.log, Real.tanh, fun x y => x ^ y,
                  fun _ _ _ => ⟨0, 0, 0, 0, 0⟩⟩
                (sampleCutoffEngine ℝ).obcSoftcoreParameters (sampleCoordinates ℝ) i j
              > (sampleCutoffEngine ℝ).obcSoftcoreParameters.cutoffDistance)
      ∧ 0 < (sampleCutoffEngine ℝ).obcSoftcoreParameters.numberOfAtoms
      ∧ 0 < [(0 : ℝ), 0].length ∧ 0 < (sampleCutoffEngine ℝ).obcChain.length
      ∧ offsetRadius (sampleCutoffEngine ℝ).obcSoftcoreParameters 0 ≠ 0
      ∧ (sampleCutoffEngine ℝ).obcSoftcoreParameters.atomicRadii.getD 0 0 ≠ 0)
    ∧ ((computeBornRadii ⟨Real.sqrt, Real.exp, Real.log, Real.tanh, fun x y => x ^ y,
            fun _ _ _ => ⟨0, 0, 0, 0, 0⟩⟩ (sampleCutoffEngine ℝ) (sampleCoordinates ℝ)
            [0, 0]).1.getD 0 0
          = offsetRadius (sampleCutoffEngine ℝ).obcSoftcoreParameters 0
      ∧ (computeBornRadii ⟨Real.sqrt, Real.exp, Real.log, Real.tanh, fun x y => x ^ y,
            fun _ _ _ => ⟨0, 0, 0, 0, 0⟩⟩ (sampleCutoffEngine ℝ) (sampleCoordinates ℝ)
            [0, 0]).2.obcChain.getD 0 0
          = (sampleCutoffEngine ℝ).obcSoftcoreParameters.alphaObc
              * offsetRadius (sampleCutoffEngine ℝ).obcSoftcoreParameters 0
              / (sampleCutoffEngine ℝ).obcSoftcoreParameters.atomicRadii.getD 0 0
      ∧ ∀ st : List ℝ × List ℝ,
          bornRadiiOuterChecked ⟨Real.sqrt, Real.exp, Real.log, Real.tanh, fun x y => x ^ y,
              fun _ _ _ => ⟨0, 0, 0, 0, 0⟩⟩ (sampleCutoffEngine ℝ).obcSoftcoreParameters
              (sampleCoordinates ℝ) st 0
            = some (bornRadiiOuter ⟨Real.sqrt, Real.exp, Real.log, Real.tanh, fun x y => x ^ y,
              fun _ _ _ => ⟨0, 0, 0, 0, 0⟩⟩ (sampleCutoffEngine ℝ).obcSoftcoreParameters
              (sampleCoordinates ℝ) st 0)) :=
  have hiso : ∀ i j, i < (sampleCutoffEngine ℝ).obcSoftcoreParameters.numberOfAtoms →
      j < (sampleCutoffEngine ℝ).obcSoftcoreParameters.numberOfAtoms → i ≠ j →
      (sampleCutoffEngine ℝ).obcSoftcoreParameters.useCutoff = true
        ∧ pairDist ⟨Real.sqrt, Real.exp, Real.log, Real.tanh, fun x y => x ^ y,
              fun _ _ _ => ⟨0, 0, 0, 0, 0⟩⟩
            (sampleCutoffEngine ℝ).obcSoftcoreParameters (sampleCoordinates ℝ) i j
          > (sampleCutoffEngine ℝ).obcSoftcoreParameters.cutoffDistance :=
    fun i j hi hj hij => ⟨rfl, sampleCutoff_far i j hi hj hij⟩
  have hoff : offsetRadius (sampleCutoffEngine ℝ).obcSoftcoreParameters 0 ≠ 0 :=
    ne_of_gt (sampleCutoff_offsetRadius 0 (by decide))
  have hrad : (sampleCutoffEngine ℝ).obcSoftcoreParameters.atomicRadii.getD 0 0 ≠ 0 := by
    simp [sampleCutoffEngine, sampleEngine, sampleParameters]
  ⟨⟨Real.tanh_zero, hiso, by decide, by decide, by decide, hoff, hrad⟩,
    isolated_atom_limit _ Real.tanh_zero (sampleCutoffEngine ℝ) (sampleCoordinates ℝ) [0, 0]
      hiso 0 (by decide) (by decide) (by decide) hoff hrad⟩

/-- C4 as stated fails for an atom of radius zero: for the single atom of `zeroRadiusEngine` the
premises hold (one atom, `offsetRadius_0 = -0.009 ≠ 0`), but line 225 of `computeBornRadii`
evaluates `tanhSum/radiusI` with `radiusI = 0`, so the pass of the atom, and the call, has a
division by zero and `bornRadii[0]` is not the number `offsetRadius_0`. -/
theorem isolated_atom_limit_counterexample :
    (zeroRadiusEngine ℝ).obcSoftcoreParameters.numberOfAtoms = 1
      ∧ offsetRadius (zeroRadiusEngine ℝ).obcSoftcoreParameters 0 ≠ 0
      ∧ (∀ st : List ℝ × List ℝ,
          bornRadiiOuterChecked ⟨Real.sqrt, Real.exp, Real.log, Real.tanh, fun x y => x ^ y,
              fun _ _ _ => ⟨0, 0, 0, 0, 0⟩⟩ (zeroRadiusEngine ℝ).obcSoftcoreParameters
              (originCoordinates ℝ) st 0 = none)
      ∧ computeBornRadiiChecked ⟨Real.sqrt, Real.exp, Real.log, Real.tanh, fun x y => x ^ y,
            fun _ _ _ => ⟨0, 0, 0, 0, 0⟩⟩ (zeroRadiusEngine ℝ) (originCoordinates ℝ) [0]
          = none := by
  have e : (zeroRadiusEngine ℝ).obcSoftcoreParameters = zeroRadiusParameters ℝ := rfl
  have hN : loopIndices 0 (zeroRadiusParameters ℝ).numberOfAtoms = [0] := rfl
  have hoff : offsetRadius (zeroRadiusParameters ℝ) 0 = -(9 / 1000) := by
    norm_num [offsetRadius, zeroRadiusParameters, sampleParameters]
  have hrad : (zeroRadiusParameters ℝ).atomicRadii.getD 0 0 = 0 := rfl
  have houter : ∀ st : List ℝ × List ℝ,
      bornRadiiOuterChecked ⟨Real.sqrt, Real.exp, Real.log, Real.tanh, fun x y => x ^ y,
        fun _ _ _ => ⟨0, 0, 0, 0, 0⟩⟩ (zeroRadiusParameters ℝ) (originCoordinates ℝ) st 0
        = none := by
    intro st
    unfold bornRadiiOuterChecked
    simp only []
    have hoff0 : (zeroRadiusParameters ℝ).atomicRadii.getD 0 0
        - (zeroRadiusParameters ℝ).dielectricOffset = offsetRadius (zeroRadiusParameters ℝ) 0 :=
      rfl
    have h00 : ∀ off rinv s : ℝ, bornRadiiInnerChecked ⟨Real.sqrt, Real.exp, Real.log,
        Real.tanh, fun x y => x ^ y, fun _ _ _ => ⟨0, 0, 0, 0, 0⟩⟩ (zeroRadiusParameters ℝ)
        (originCoordinates ℝ) 0 off rinv s 0 = some s := by
      intro off rinv s
      unfold bornRadiiInnerChecked
      rw [if_neg (by simp)]
    rw [hN, hoff0, checkedDiv_of_ne _ _ (by rw [hoff]; norm_num), Option.some_bind,
      List.foldlM_cons, h00]
    simp only [Option.some_bind, Option.bind_eq_bind, List.foldlM_nil, Option.pure_def, hrad,
      checkedDiv_zero, Option.none_bind]
  rw [e]
  refine ⟨rfl, by rw [hoff]; norm_num, houter, ?_⟩
  unfold computeBornRadiiChecked
  rw [e]
  simp only []
  rw [hN, List.foldlM_cons, houter]
  rfl

end Settled4

end ObcSoftcore

namespace ObcSoftcore

section Settled5

/-- C5 (Born radii are positive for valid parameters), amended to positive distances: for every
atom `i` with `radius_i > 0` and `0 ≤ dielectricOffset < radius_i` at a positive distance from
every other atom, whatever the scale factors, cutoff setting and OBC coefficients, every division
and logarithm the pass of atom `i` in `computeBornRadii` evaluates has a valid argument and the
value written to `bornRadii[i]` is strictly positive; so inside `computeBornEnergyForces` the
guard `bornRadii[i] > 0` holds and the loop body of the nonpolar term takes its updating branch
for that atom. The only fact about `TANH` used is `tanh x < 1`. -/
theorem bornRadii_positive (X : Externals ℝ) (htanh : ∀ x, X.tanh x < 1) (E : CpuObcSoftcore ℝ)
    (coords : List (RealVec ℝ)) (q : List ℝ) (f0 : List (RealVec ℝ)) (b : List ℝ) (i : Nat)
    (hi : i < E.obcSoftcoreParameters.numberOfAtoms) (hb : i < b.length)
    (hrad : 0 < E.obcSoftcoreParameters.atomicRadii.getD i 0)
    (hoff0 : 0 ≤ E.obcSoftcoreParameters.dielectricOffset)
    (hoff : E.obcSoftcoreParameters.dielectricOffset
      < E.obcSoftcoreParameters.atomicRadii.getD i 0)
    (hdist : ∀ j, j < E.obcSoftcoreParameters.numberOfAtoms → j ≠ i →
      0 < pairDist X E.obcSoftcoreParameters coords i j) :
    0 < (computeBornRadii X E coords b).1.getD i 0
      ∧ (computeBornEnergyForces X E coords q f0).bornRadii.getD i 0 > 0
      ∧ (∀ st : ℝ × List ℝ,
          aceBody X E.obcSoftcoreParameters (computeBornEnergyForces X E coords q f0).bornRadii
              st i
            = (st.1 + saTerm X E.obcSoftcoreParameters
                  (computeBornEnergyForces X E coords q f0).bornRadii i,
               addAt st.2 i (-6 * saTerm X E.obcSoftcoreParameters
                  (computeBornEnergyForces X E coords q f0).bornRadii i
                  / (computeBornEnergyForces X E coords q f0).bornRadii.getD i 0)))
      ∧ ∀ st : List ℝ × List ℝ,
          bornRadiiOuterChecked X E.obcSoftcoreParameters coords st i
            = some (bornRadiiOuter X E.obcSoftcoreParameters coords st i) := by
  have h := computeBornRadii_positive X htanh E coords q f0 b i hi hb hrad hoff0 hoff
  refine ⟨h.1, h.2.1, h.2.2, fun st => ?_⟩
  exact bornRadiiOuterChecked_eq X E.obcSoftcoreParameters coords st i hoff0
    (sub_pos.mpr hoff) htanh
    (fun j hj hji => hdist j ((mem_loopIndices _ _ _).mp hj).2 hji)

theorem bornRadii_positive_witness :
    ((∀ x, Real.tanh x < 1) ∧ 0 < (sampleEngine ℝ).obcSoftcoreParameters.numberOfAtoms
      ∧ 0 < [(0 : ℝ), 0].length
      ∧ 0 < (sampleEngine ℝ).obcSoftcoreParameters.atomicRadii.getD 0 0
      ∧ 0 ≤ (sampleEngine ℝ).obcSoftcoreParameters.dielectricOffset
      ∧ (sampleEngine ℝ).obcSoftcoreParameters.dielectricOffset
          < (sampleEngine ℝ).obcSoftcoreParameters.atomicRadii.getD 0 0
      ∧ ∀ j, j < (sampleEngine ℝ).obcSoftcoreParameters.numberOfAtoms → j ≠ 0 →
          0 < pairDist ⟨Real.sqrt, Real.exp, Real.log, Real.tanh, fun x y => x ^ y,
            fun _ _ _ => ⟨0, 0, 0, 0, 0⟩⟩ (sampleEngine ℝ).obcSoftcoreParameters
            (sampleCoordinates ℝ) 0 j)
    ∧ 0 < (computeBornRadii ⟨Real.sqrt, Real.exp, Real.log, Real.tanh, fun x y => x ^ y,
            fun _ _ _ => ⟨0, 0, 0, 0, 0⟩⟩ (sampleEngine ℝ) (sampleCoordinates ℝ)
            [0, 0]).1.getD 0 0 :=
  have hrad : 0 < (sampleEngine ℝ).obcSoftcoreParameters.atomicRadii.getD 0 0 := by
    norm_num [sampleEngine, sampleParameters]
  have hoff0 : 0 ≤ (sampleEngine ℝ).obcSoftcoreParameters.dielectricOffset := by
    norm_num [sampleEngine, sampleParameters]
  have hoff : (sampleEngine ℝ).obcSoftcoreParameters.dielectricOffset
      < (sampleEngine ℝ).obcSoftcoreParameters.atomicRadii.getD 0 0 := by
    norm_num [sampleEngine, sampleParameters]
  have hdist : ∀ j, j < (sampleEngine ℝ).obcSoftcoreParameters.numberOfAtoms → j ≠ 0 →
      0 < pairDist ⟨Real.sqrt, Real.exp, Real.log, Real.tanh, fun x y => x ^ y,
        fun _ _ _ => ⟨0, 0, 0, 0, 0⟩⟩ (sampleEngine ℝ).obcSoftcoreParameters
        (sampleCoordinates ℝ) 0 j := fun j hj hj0 => by
    rw [sample_pairDist 0 j (by decide) hj (Ne.symm hj0)]
    norm_num
  ⟨⟨real_tanh_lt_one, by decide, by decide, hrad, hoff0, hoff, hdist⟩,
    (bornRadii_positive _ real_tanh_lt_one (sampleEngine ℝ) (sampleCoordinates ℝ)
      (sampleCharges ℝ) (zeroForces 2) [0, 0] 0 (by decide) (by decide) hrad hoff0 hoff
      hdist).1⟩

theorem overlap_pairDist (X : Externals ℝ) (hX : IsRealMath X) :
    pairDist X (overlapParameters ℝ) (coincidentCoordinates ℝ) 0 1 = 0 := by
  rw [pairDist_nonperiodic X hX _ rfl, pairR2_nonperiodic X _ rfl]
  simp [coincidentCoordinates]

/-- C5 as stated fails for coincident atoms: the two atoms of `overlapEngine` have
`radius = 0.15 > 0` and `0 ≤ dielectricOffset = 0.009 < radius`, but placed at the same position
the guard `offsetRadius_0 < r + scaledRadius_1` (`0.141 < 0 + 0.282`) holds and line 194
evaluates `one/r` with `r = 0`: the pass of atom 0, and the call, has a division by zero, so the
value written to `bornRadii[0]` is not a positive number. -/
theorem bornRadii_positive_counterexample :
    0 < (overlapEngine ℝ).obcSoftcoreParameters.atomicRadii.getD 0 0
      ∧ 0 ≤ (overlapEngine ℝ).obcSoftcoreParameters.dielectricOffset
      ∧ (overlapEngine ℝ).obcSoftcoreParameters.dielectricOffset
          < (overlapEngine ℝ).obcSoftcoreParameters.atomicRadii.getD 0 0
      ∧ (∀ st : List ℝ × List ℝ,
          bornRadiiOuterChecked ⟨Real.sqrt, Real.exp, Real.log, Real.tanh, fun x y => x ^ y,
              fun _ _ _ => ⟨0, 0, 0, 0, 0⟩⟩ (overlapEngine ℝ).obcSoftcoreParameters
              (coincidentCoordinates ℝ) st 0 = none)
      ∧ computeBornRadiiChecked ⟨Real.sqrt, Real.exp, Real.log, Real.tanh, fun x y => x ^ y,
            fun _ _ _ => ⟨0, 0, 0, 0, 0⟩⟩ (overlapEngine ℝ) (coincidentCoordinates ℝ) [0, 0]
          = none := by
  have hX : IsRealMath ⟨Real.sqrt, Real.exp, Real.log, Real.tanh, fun x y => x ^ y,
      fun _ _ _ => ⟨0, 0, 0, 0, 0⟩⟩ := ⟨rfl, rfl, rfl, rfl, rfl⟩
  have e : (overlapEngine ℝ).obcSoftcoreParameters = overlapParameters ℝ := rfl
  have hN : loopIndices 0 (overlapParameters ℝ).numberOfAtoms = [0, 1] := rfl
  have hoff : offsetRadius (overlapParameters ℝ) 0 = 141 / 1000 := by
    norm_num [offsetRadius, overlapParameters, sampleParameters]
  have hinner : ∀ s, bornRadiiInnerChecked ⟨Real.sqrt, Real.exp, Real.log, Real.tanh,
      fun x y => x ^ y, fun _ _ _ => ⟨0, 0, 0, 0, 0⟩⟩ (overlapParameters ℝ)
      (coincidentCoordinates ℝ) 0 (offsetRadius (overlapParameters ℝ) 0)
      (1 / offsetRadius (overlapParameters ℝ) 0) s 1 = none := by
    intro s
    have hd0 : (pairDeltaR ⟨Real.sqrt, Real.exp, Real.log, Real.tanh, fun x y => x ^ y,
        fun _ _ _ => ⟨0, 0, 0, 0, 0⟩⟩ (overlapParameters ℝ) (coincidentCoordinates ℝ) 0 1).r
        = 0 := overlap_pairDist _ hX
    have hsc0 : ((overlapParameters ℝ).atomicRadii.getD 1 0
          - (overlapParameters ℝ).dielectricOffset)
        * (overlapParameters ℝ).scaledRadiusFactors.getD 1 0 = 282 / 1000 := by
      norm_num [overlapParameters, sampleParameters]
    have hcutoff : (overlapParameters ℝ).useCutoff = false := rfl
    unfold bornRadiiInnerChecked
    simp only []
    rw [if_pos (by decide), hd0, hsc0, hoff, hcutoff, if_neg (by simp), if_pos (by norm_num),
      checkedDiv_zero, Option.none_bind]
  have houter : ∀ st : List ℝ × List ℝ,
      bornRadiiOuterChecked ⟨Real.sqrt, Real.exp, Real.log, Real.tanh, fun x y => x ^ y,
        fun _ _ _ => ⟨0, 0, 0, 0, 0⟩⟩ (overlapParameters ℝ) (coincidentCoordinates ℝ) st 0
        = none := by
    intro st
    unfold bornRadiiOuterChecked
    simp only []
    have hoff0 : (overlapParameters ℝ).atomicRadii.getD 0 0
        - (overlapParameters ℝ).dielectricOffset = offsetRadius (overlapParameters ℝ) 0 := rfl
    rw [hN, hoff0, checkedDiv_of_ne _ _ (by rw [hoff]; norm_num), Option.some_bind,
      List.foldlM_cons]
    have h00 : bornRadiiInnerChecked ⟨Real.sqrt, Real.exp, Real.log, Real.tanh,
        fun x y => x ^ y, fun _ _ _ => ⟨0, 0, 0, 0, 0⟩⟩ (overlapParameters ℝ)
        (coincidentCoordinates ℝ) 0 (offsetRadius (overlapParameters ℝ) 0)
        (1 / offsetRadius (overlapParameters ℝ) 0) 0 0 = some 0 := by
      unfold bornRadiiInnerChecked
      rw [if_neg (by simp)]
    rw [h00]
    simp only [Option.some_bind, Option.bind_eq_bind, List.foldlM_cons, hinner,
      Option.none_bind]
  rw [e]
  refine ⟨by norm_num [overlapParameters, sampleParameters],
    by norm_num [overlapParameters, sampleParameters],
    by norm_num [overlapParameters, sampleParameters], houter, ?_⟩
  unfold computeBornRadiiChecked
  rw [e]
  simp only []
  rw [hN, List.foldlM_cons, houter]
  rfl

end Settled5

end ObcSoftcore
